import Mathlib

/-!
Verification of the lark compiler front end (scanner, parser, AST walk).

The definitions below are a shallow embedding of the Go sources:
  pkg/scanner/token.go, pkg/scanner/scanner.go, pkg/parser/parser.go,
  pkg/ast/ast.go, and the visitor Walk protocol of pkg/ast.

Modelling conventions:
  * Go byte slices are `List Nat` (each entry a byte value), runes are `Int`
    (`-1` is the scanner's endmarker sentinel, as in the source).
  * Go's runtime panic (reachable through an out-of-range index into the
    `insert_semi` array) is modelled by the `PRes.panic` result.
  * Loops are implemented by fuel-indexed structural recursion; every
    public entry point supplies a fuel bound computed from the scanner
    measure, and sufficiency lemmas show the bound is never exhausted
    (except where the source itself would not terminate, which never
    happens).  Fuel exhaustion is `PRes.nofuel` at parser level and the
    identity at scanner level.
  * Bit masks of the form `b & 0x1F` are written `b % 32` etc., which is
    the same function on natural numbers.
-/

/-- Source position, mirroring scanner.Pos (zero-based line and column). -/
structure GoPos where
  line : Nat
  column : Nat
deriving DecidableEq, Repr

/-- Pos.Greater from token.go. -/
def GoPos.greater (p other : GoPos) : Bool :=
  decide (p.line > other.line) || (decide (p.line = other.line) && decide (p.column > other.column))

/-- Token kinds from token.go (the `literal_beg`/`literal_end` markers are
not tokens and are omitted; their iota slots are preserved by `idx`). -/
inductive TokenKind where
  | ILLEGAL | ENDMARKER | NEWLINE
  | LEFT_PAREN | RIGHT_PAREN | LEFT_BRACK | RIGHT_BRACK | LEFT_BRACE | RIGHT_BRACE
  | COMMA | DOT | COLON | SEMICOLON | ARROW | QMARK | ASSIGN | AT
  | PLUS | MINUS | MULT | DIV | MOD | AND | OR | EQ | GE | GT | LE | LT | NEQ | NOT
  | COMMENT
  | IDENTIFIER | STRING | INTEGER | FLOAT
  | AS | CONST | EMBED | FALSE | IMPORT | INTERFACE | NULL | STRUCT | TRUE | TYPE | FUNC
deriving DecidableEq, Repr

/-- The iota value of each kind in token.go (IDENTIFIER is 33 because the
`literal_beg` marker occupies slot 32, and AS is 38 because `literal_end`
occupies slot 37). -/
def TokenKind.idx : TokenKind → Nat
  | .ILLEGAL => 0 | .ENDMARKER => 1 | .NEWLINE => 2
  | .LEFT_PAREN => 3 | .RIGHT_PAREN => 4 | .LEFT_BRACK => 5 | .RIGHT_BRACK => 6
  | .LEFT_BRACE => 7 | .RIGHT_BRACE => 8
  | .COMMA => 9 | .DOT => 10 | .COLON => 11 | .SEMICOLON => 12 | .ARROW => 13
  | .QMARK => 14 | .ASSIGN => 15 | .AT => 16
  | .PLUS => 17 | .MINUS => 18 | .MULT => 19 | .DIV => 20 | .MOD => 21
  | .AND => 22 | .OR => 23 | .EQ => 24 | .GE => 25 | .GT => 26 | .LE => 27
  | .LT => 28 | .NEQ => 29 | .NOT => 30
  | .COMMENT => 31
  | .IDENTIFIER => 33 | .STRING => 34 | .INTEGER => 35 | .FLOAT => 36
  | .AS => 38 | .CONST => 39 | .EMBED => 40 | .FALSE => 41 | .IMPORT => 42
  | .INTERFACE => 43 | .NULL => 44 | .STRUCT => 45 | .TRUE => 46 | .TYPE => 47 | .FUNC => 48

/-- TokenKind.String from token.go (`tokens` table). -/
def TokenKind.str : TokenKind → String
  | .ILLEGAL => "ILLEGAL" | .ENDMARKER => "ENDMARKER" | .NEWLINE => "NEWLINE"
  | .LEFT_PAREN => "(" | .RIGHT_PAREN => ")" | .LEFT_BRACK => "[" | .RIGHT_BRACK => "]"
  | .LEFT_BRACE => "\x7b" | .RIGHT_BRACE => "\x7d"
  | .COMMA => "," | .DOT => "." | .COLON => ":" | .SEMICOLON => ";" | .ARROW => "->"
  | .QMARK => "?" | .ASSIGN => "=" | .AT => "@"
  | .PLUS => "+" | .MINUS => "-" | .MULT => "*" | .DIV => "/" | .MOD => "%"
  | .AND => "&&" | .OR => "||" | .EQ => "==" | .GE => ">=" | .GT => ">" | .LE => "<="
  | .LT => "<" | .NEQ => "!=" | .NOT => "!"
  | .COMMENT => "COMMENT"
  | .IDENTIFIER => "IDENTIFIER" | .STRING => "STRING" | .INTEGER => "INTEGER" | .FLOAT => "FLOAT"
  | .AS => "as" | .CONST => "const" | .EMBED => "embed" | .FALSE => "false"
  | .IMPORT => "import" | .INTERFACE => "interface" | .NULL => "null"
  | .STRUCT => "struct" | .TRUE => "true" | .TYPE => "type" | .FUNC => "func"

/-- A scanner token: kind, position, value. -/
structure Token where
  kind : TokenKind
  pos : GoPos
  value : String
deriving DecidableEq, Repr

/-- A diagnostic: position plus message (parser.ErrorInfo; the scanner
reports through the same channel via its error handler). -/
structure ErrorInfo where
  pos : GoPos
  message : String
deriving DecidableEq, Repr

/-- Lower bound of the accepted second byte for a given UTF-8 leading byte
(Go unicode/utf8 accept ranges). -/
def utf8AcceptLo (b0 : Nat) : Nat :=
  if b0 = 0xE0 then 0xA0 else if b0 = 0xF0 then 0x90 else 0x80

/-- Upper bound of the accepted second byte for a given UTF-8 leading byte. -/
def utf8AcceptHi (b0 : Nat) : Nat :=
  if b0 = 0xED then 0x9F else if b0 = 0xF4 then 0x8F else 0xBF

/-- Go's utf8.DecodeRune on a byte slice: the decoded rune and its width.
Invalid, incomplete, overlong and surrogate-encoding sequences produce
(`0xFFFD`, 1); the empty slice produces (`0xFFFD`, 0). -/
def utf8DecodeRune : List Nat → Int × Nat
  | [] => (0xFFFD, 0)
  | b0 :: rest =>
    if b0 < 0x80 then (Int.ofNat b0, 1)
    else if 0xC2 ≤ b0 && b0 ≤ 0xDF then
      match rest with
      | b1 :: _ =>
        if 0x80 ≤ b1 && b1 ≤ 0xBF then
          (Int.ofNat ((b0 % 32) * 64 + b1 % 64), 2)
        else (0xFFFD, 1)
      | [] => (0xFFFD, 1)
    else if 0xE0 ≤ b0 && b0 ≤ 0xEF then
      match rest with
      | b1 :: b2 :: _ =>
        if (utf8AcceptLo b0 ≤ b1 && b1 ≤ utf8AcceptHi b0) && (0x80 ≤ b2 && b2 ≤ 0xBF) then
          (Int.ofNat ((b0 % 16) * 4096 + (b1 % 64) * 64 + b2 % 64), 3)
        else (0xFFFD, 1)
      | _ => (0xFFFD, 1)
    else if 0xF0 ≤ b0 && b0 ≤ 0xF4 then
      match rest with
      | b1 :: b2 :: b3 :: _ =>
        if (utf8AcceptLo b0 ≤ b1 && b1 ≤ utf8AcceptHi b0) && (0x80 ≤ b2 && b2 ≤ 0xBF)
            && (0x80 ≤ b3 && b3 ≤ 0xBF) then
          (Int.ofNat ((b0 % 8) * 262144 + (b1 % 64) * 4096 + (b2 % 64) * 64 + b3 % 64), 4)
        else (0xFFFD, 1)
      | _ => (0xFFFD, 1)
    else (0xFFFD, 1)

/-- Scanner state (scanner.Scanner).  The error list stands in for the
error-handler callback: the parser installs a handler appending to its own
diagnostics list, so the shared list lives here. -/
structure ScanState where
  text : List Nat
  rdoffset : Nat
  current : Int
  pos : GoPos
  endp : GoPos
  val : List Char
  line : List Char
  lines : List String
  done : Bool
  errors : List ErrorInfo
deriving DecidableEq, Repr

/-- Report a scanner error (Scanner.err with an installed handler). -/
def ScanState.err (s : ScanState) (pos : GoPos) (msg : String) : ScanState :=
  { s with errors := s.errors ++ [⟨pos, msg⟩] }

/-- bytes.Buffer.WriteRune writes the rune, or U+FFFD if it is not a valid
code point (e.g. the endmarker sentinel -1). -/
def runeChar (r : Int) : Char :=
  if 0 ≤ r ∧ Nat.isValidChar r.toNat then Char.ofNat r.toNat else Char.ofNat 0xFFFD

/-- Scanner.load: read the next character into `current`. -/
def ScanState.load (s : ScanState) : ScanState :=
  if s.rdoffset < s.text.length then
    let b := s.text.getD s.rdoffset 0
    if b = 0 then
      let s := s.err s.endp "illegal character NUL"
      { s with rdoffset := s.rdoffset + 1, current := Int.ofNat b }
    else if 0x80 ≤ b then
      let rw := utf8DecodeRune (s.text.drop s.rdoffset)
      let s :=
        if rw.1 = 0xFFFD ∧ rw.2 = 1 then s.err s.endp "illegal UTF-8 encoding"
        else if rw.1 = 0xFEFF ∧ 0 < s.rdoffset then s.err s.pos "illegal byte order mark"
        else s
      { s with rdoffset := s.rdoffset + rw.2, current := rw.1 }
    else
      { s with rdoffset := s.rdoffset + 1, current := Int.ofNat b }
  else
    { s with current := -1 }

/-- Scanner.next: record the current character (line bookkeeping and value
buffer) and load the following one. -/
def ScanState.next (s : ScanState) : ScanState :=
  let s1 :=
    if s.current = -1 then
      if ¬ s.done then
        let s' :=
          if 0 < s.line.length then
            { s with lines := s.lines ++ [String.mk s.line], line := [] }
          else s
        { s' with done := true }
      else s
    else if s.current = 10 then
      { s with lines := s.lines ++ [String.mk s.line], line := [],
               endp := ⟨s.endp.line + 1, 0⟩ }
    else
      { s with line := s.line ++ [runeChar s.current],
               endp := ⟨s.endp.line, s.endp.column + 1⟩ }
  ScanState.load { s1 with val := s1.val ++ [runeChar s1.current] }

/-- Scanner.peek: the byte after the current character, 0 at end of input. -/
def ScanState.peek (s : ScanState) : Nat :=
  if s.rdoffset < s.text.length then s.text.getD s.rdoffset 0 else 0

/-- Scanner.makeToken. -/
def ScanState.makeToken (s : ScanState) (kind : TokenKind) : Token :=
  let value :=
    match kind with
    | .NEWLINE => "newline"
    | .ENDMARKER => "endmarker"
    | _ => String.mk s.val
  ⟨kind, s.pos, value⟩

/-- Termination measure for scanner loops: unread bytes plus one if a
character is still pending in `current`. -/
def ScanState.mu (s : ScanState) : Nat :=
  (s.text.length - s.rdoffset) + (if s.current = -1 then 0 else 1)

def isWsRune (r : Int) : Bool := r = 32 || r = 9 || r = 13

/-- Loop body of Scanner.skipWhitespace, fuel-indexed. -/
def skipWsF : Nat → ScanState → ScanState
  | 0, s => s
  | f + 1, s => if isWsRune s.current then skipWsF f s.next else s

/-- Scanner.skipWhitespace. -/
def ScanState.skipWhitespace (s : ScanState) : ScanState :=
  skipWsF (s.mu + 1) s

/-- Scanner.switch2. -/
def ScanState.switch2 (s : ScanState) (ch : Int) (k0 k1 : TokenKind) : TokenKind × ScanState :=
  if s.current = ch then (k0, s.next) else (k1, s)

/-- Go's lower(ch) = ('a'-'A') | ch, a bitwise or on the rune. -/
def lowerRune (r : Int) : Int := Int.lor 32 r

/-- digitValue from scanner.go: 16 means "not a digit". -/
def digitValue (r : Int) : Nat :=
  if 48 ≤ r ∧ r ≤ 57 then (r - 48).toNat
  else if 97 ≤ lowerRune r ∧ lowerRune r ≤ 102 then (lowerRune r - 97).toNat + 10
  else 16

def isDecimalRune (r : Int) : Bool := decide (48 ≤ r) && decide (r ≤ 57)

def isIdentifierBeginning (r : Int) : Bool :=
  (decide (97 ≤ r) && decide (r ≤ 122)) || (decide (65 ≤ r) && decide (r ≤ 90)) || r = 95

def isIdentifierMiddle (r : Int) : Bool :=
  isIdentifierBeginning r || isDecimalRune r

/-- Loop of Scanner.scanComment. -/
def commentLoopF : Nat → ScanState → ScanState
  | 0, s => s
  | f + 1, s => if s.current ≠ 10 ∧ s.current ≠ -1 then commentLoopF f s.next else s

/-- Scanner.scanComment. -/
def ScanState.scanComment (s : ScanState) : Token × ScanState :=
  let s := commentLoopF (s.mu + 1) s
  (s.makeToken .COMMENT, s)

/-- The keyword table of scanner.go, as a lookup with IDENTIFIER fallback. -/
def keywordKind (v : String) : TokenKind :=
  if v = "as" then .AS
  else if v = "const" then .CONST
  else if v = "embed" then .EMBED
  else if v = "false" then .FALSE
  else if v = "import" then .IMPORT
  else if v = "null" then .NULL
  else if v = "interface" then .INTERFACE
  else if v = "struct" then .STRUCT
  else if v = "true" then .TRUE
  else if v = "type" then .TYPE
  else if v = "func" then .FUNC
  else .IDENTIFIER

/-- Loop of Scanner.scanIdentifier. -/
def identLoopF : Nat → ScanState → ScanState
  | 0, s => s
  | f + 1, s => if isIdentifierMiddle s.current then identLoopF f s.next else s

/-- Scanner.scanIdentifier. -/
def ScanState.scanIdentifier (s : ScanState) : Token × ScanState :=
  let s := identLoopF (s.mu + 1) s
  (s.makeToken (keywordKind (String.mk s.val)), s)

/-- The `digits` flag bits, as named booleans instead of Go's bit mask. -/
structure DigitFlags where
  noDigits : Bool
  invalidDigitSep : Bool
deriving DecidableEq, Repr

/-- Loop of Scanner.digits; returns (invalidDigitSep-so-far, digit count,
digsep, characters consumed, state). -/
def digitsLoopF : Nat → Nat → ScanState → Bool → Nat → Bool → Nat →
    Bool × Nat × Bool × Nat × ScanState
  | 0, _, s, inv, digits, digsep, n => (inv, digits, digsep, n, s)
  | f + 1, base, s, inv, digits, digsep, n =>
    if digitValue s.current < base then
      digitsLoopF f base s.next inv (digits + 1) true (n + 1)
    else if s.current = 95 then
      if digsep then digitsLoopF f base s.next inv digits false (n + 1)
      else digitsLoopF f base s.next true digits digsep (n + 1)
    else (inv, digits, digsep, n, s)

/-- Scanner.digits. -/
def ScanState.digits (s : ScanState) (base : Nat) (lead : Bool) : DigitFlags × ScanState :=
  let r := digitsLoopF (s.mu + 1) base s false 0 lead 0
  match r with
  | (inv, digits, digsep, n, s') =>
    let inv := if (digits = 0 ∧ 0 < n) ∨ (0 < digits ∧ digsep = false) then true else inv
    (⟨decide (digits = 0), inv⟩, s')

/-- litname from scanner.go. -/
def litname (base : Nat) : String :=
  if base = 2 then "binary" else if base = 8 then "octal"
  else if base = 16 then "hexadecimal" else "decimal"

/-- Scanner.scanNumber, exponent and completion stages: `kind`, `invalidSep`
and `leadingZero` carry the earlier stages' findings. -/
def ScanState.scanNumberExp (s : ScanState) (base : Nat) (kind : TokenKind)
    (leadingZero invalidSep : Bool) : Token × ScanState :=
  -- exponent
  let evs :=
    if s.current = 101 ∨ s.current = 69 then
      let s := s.next
      let s := if s.current = 43 ∨ s.current = 45 then s.next else s
      let fs := s.digits base false
      if fs.1.invalidDigitSep then (TokenKind.FLOAT, true, fs.2)
      else if fs.1.noDigits then
        (TokenKind.FLOAT, invalidSep, fs.2.err fs.2.pos "exponent has no digits")
      else (TokenKind.FLOAT, invalidSep, fs.2)
    else (kind, invalidSep, s)
  match evs with
  | (kind, invalidSep, s) =>
    let s :=
      if leadingZero ∧ kind = TokenKind.INTEGER then
        s.err s.pos "leading zeros in decimal integer literals are not permitted"
      else s
    let s :=
      if invalidSep then s.err s.pos "'_' must separate successive digits"
      else s
    (s.makeToken kind, s)

/-- Scanner.scanNumber, fractional-part stage. -/
def ScanState.scanNumberFrac (s : ScanState) (base : Nat)
    (leadingZero invalidSep : Bool) : Token × ScanState :=
  let kind := TokenKind.INTEGER
  -- fractional part
  let fvs :=
    if s.current = 46 then
      let s := if base ≠ 10 then s.err s.endp ("invalid radix point in " ++ litname base ++ " literal") else s
      let s := s.next
      let fs := s.digits 10 false
      (TokenKind.FLOAT, invalidSep || fs.1.invalidDigitSep, fs.2)
    else (kind, invalidSep, s)
  match fvs with
  | (kind, invalidSep, s) => s.scanNumberExp base kind leadingZero invalidSep

/-- Scanner.scanNumber, integer-part stage (after the base was chosen). -/
def ScanState.scanNumberTail (s : ScanState) (base : Nat) (leadingZero : Bool) :
    Token × ScanState :=
  -- integer part (skipped if the next character is a radix point)
  let ivs :=
    if s.current ≠ 46 then
      let fs := s.digits base true
      if fs.1.invalidDigitSep then (true, fs.2)
      else if fs.1.noDigits ∧ base ≠ 10 then
        (false, fs.2.err fs.2.pos (litname base ++ " literal has no digits"))
      else (false, fs.2)
    else (false, s)
  match ivs with
  | (invalidSep, s) => s.scanNumberFrac base leadingZero invalidSep

/-- Scanner.scanNumber. -/
def ScanState.scanNumber (s : ScanState) : Token × ScanState :=
  -- leading 0: choose base, or flag a leading zero in decimal
  if s.current = 48 then
    let s := s.next
    if s.current = 98 ∨ s.current = 66 then s.next.scanNumberTail 2 false
    else if s.current = 111 ∨ s.current = 79 then s.next.scanNumberTail 8 false
    else if s.current = 120 ∨ s.current = 88 then s.next.scanNumberTail 16 false
    else s.scanNumberTail 10 (isDecimalRune s.current)
  else s.scanNumberTail 10 false

/-- Uppercase hexadecimal rendering, at least four digits (the U+xxxx part
of Go's %#U verb). -/
def natHexDigits : Nat → List Char
  | 0 => []
  | n + 1 =>
    let m := n + 1
    natHexDigits (m / 16) ++ ["0123456789ABCDEF".toList.getD (m % 16) '0']

def natHex4 (n : Nat) : String :=
  let ds := natHexDigits n
  String.mk (List.replicate (4 - ds.length) '0' ++ ds)

/-- Rendering of a rune by fmt's %#U verb: "U+0041 'A'".  (Go additionally
escapes unprintable characters inside the quotes; no claim depends on the
quoted-character text.) -/
def formatRuneU (r : Int) : String :=
  "U+" ++ natHex4 r.toNat ++ " " ++ String.mk ['\'', runeChar r, '\'']

/-- The hex-digit loop of Scanner.escape: consume n digits, accumulating x;
a non-digit reports an error and aborts. -/
def escapeHexLoop : Nat → GoPos → Nat → ScanState → Option Nat × ScanState
  | 0, _, x, s => (some x, s)
  | n + 1, pos, x, s =>
    let cur := s.current
    let s := s.next
    let d := digitValue cur
    if d = 16 then
      (none, s.err pos ("illegal hexadecimal digit " ++ formatRuneU cur ++ " in escape sequence"))
    else
      escapeHexLoop n pos (x * 16 + d) s

/-- Scanner.escape (the backslash has already been consumed). -/
def ScanState.escape (s : ScanState) : ScanState :=
  let pos := s.endp
  let current := s.current
  let s := s.next
  if current = 97 ∨ current = 98 ∨ current = 102 ∨ current = 110 ∨ current = 114 ∨
      current = 116 ∨ current = 118 ∨ current = 92 ∨ current = 34 then
    s
  else
    let nm : Option (Nat × Nat) :=
      if current = 120 then some (2, 255)
      else if current = 117 then some (4, 0x10FFFF)
      else if current = 85 then some (8, 0x10FFFF)
      else none
    match nm with
    | none => s.err pos "unknown escape sequence"
    | some (n, max) =>
      match escapeHexLoop n pos 0 s with
      | (none, s) => s
      | (some x, s) =>
        if max < x ∨ (0xD800 ≤ x ∧ x < 0xE000) then
          s.err pos "escape sequence is invalid unicode code point"
        else s

/-- Loop of Scanner.scanString. -/
def stringLoopF : Nat → ScanState → ScanState
  | 0, s => s
  | f + 1, s =>
    if s.current ≠ 34 ∧ s.current ≠ -1 ∧ s.current ≠ 10 then
      let current := s.current
      let s := s.next
      let s := if current = 92 then s.escape else s
      stringLoopF f s
    else s

/-- Scanner.scanString (the opening quote has already been consumed). -/
def ScanState.scanString (s : ScanState) : Token × ScanState :=
  let s := stringLoopF (s.mu + 1) s
  let s := if s.current = 34 then s.next else s.err s.pos "unterminated string"
  (s.makeToken .STRING, s)

/-- The operator/endmarker arm of Scanner.Scan: fixed token kinds keyed on
`current`, the character at the token start (`s` is the state after that
character was consumed). -/
def ScanState.scanOp (current : Int) (s : ScanState) : Token × ScanState :=
  if current = -1 then (s.makeToken .ENDMARKER, s)
  else if current = 10 then (s.makeToken .NEWLINE, s)
  else if current = 40 then (s.makeToken .LEFT_PAREN, s)
  else if current = 41 then (s.makeToken .RIGHT_PAREN, s)
  else if current = 91 then (s.makeToken .LEFT_BRACK, s)
  else if current = 93 then (s.makeToken .RIGHT_BRACK, s)
  else if current = 123 then (s.makeToken .LEFT_BRACE, s)
  else if current = 125 then (s.makeToken .RIGHT_BRACE, s)
  else if current = 44 then (s.makeToken .COMMA, s)
  else if current = 46 then (s.makeToken .DOT, s)
  else if current = 58 then (s.makeToken .COLON, s)
  else if current = 59 then (s.makeToken .SEMICOLON, s)
  else if current = 63 then (s.makeToken .QMARK, s)
  else if current = 61 then
    let ks := s.switch2 61 .EQ .ASSIGN
    (ks.2.makeToken ks.1, ks.2)
  else if current = 64 then (s.makeToken .AT, s)
  else if current = 43 then (s.makeToken .PLUS, s)
  else if current = 45 then
    let ks := s.switch2 62 .ARROW .MINUS
    (ks.2.makeToken ks.1, ks.2)
  else if current = 42 then (s.makeToken .MULT, s)
  else if current = 47 then (s.makeToken .DIV, s)
  else if current = 37 then (s.makeToken .MOD, s)
  else if current = 38 then
    let ks := s.switch2 38 .AND .ILLEGAL
    if ks.1 = .AND then (ks.2.makeToken ks.1, ks.2)
    else
      let s := ks.2.err ks.2.pos ("illegal character " ++ formatRuneU current)
      (s.makeToken .ILLEGAL, s)
  else if current = 124 then
    let ks := s.switch2 124 .OR .ILLEGAL
    if ks.1 = .OR then (ks.2.makeToken ks.1, ks.2)
    else
      let s := ks.2.err ks.2.pos ("illegal character " ++ formatRuneU current)
      (s.makeToken .ILLEGAL, s)
  else if current = 60 then
    let ks := s.switch2 61 .LE .LT
    (ks.2.makeToken ks.1, ks.2)
  else if current = 62 then
    let ks := s.switch2 61 .GE .GT
    (ks.2.makeToken ks.1, ks.2)
  else if current = 33 then
    let ks := s.switch2 61 .NEQ .NOT
    (ks.2.makeToken ks.1, ks.2)
  else if current = 34 then s.scanString
  else
    let s := s.err s.pos ("illegal character " ++ formatRuneU current)
    (s.makeToken .ILLEGAL, s)

/-- Scanner.Scan: produce the next token. -/
def ScanState.scan (s : ScanState) : Token × ScanState :=
  let s := s.skipWhitespace
  let s := { s with val := [], pos := s.endp }
  let current := s.current
  if isIdentifierBeginning current then s.scanIdentifier
  else if isDecimalRune current || (decide (current = 46) && isDecimalRune (Int.ofNat s.peek)) then
    s.scanNumber
  else if current = 47 ∧ Int.ofNat s.peek = 47 then s.scanComment
  else ScanState.scanOp current s.next

/-- Scanner.New: build the initial state, consuming a leading BOM. -/
def scanInit (text : List Nat) : ScanState :=
  let s : ScanState := ⟨text, 0, -1, ⟨0, 0⟩, ⟨0, 0⟩, [], [], [], false, []⟩
  let s := s.load
  if s.current = 0xFEFF then s.load else s

/-- The state after n calls to Scan. -/
def scanStateN (s : ScanState) : Nat → ScanState
  | 0 => s
  | n + 1 => (scanStateN s n).scan.2

/-- The token returned by the (n+1)-st call to Scan. -/
def scanTokenN (s : ScanState) (n : Nat) : Token :=
  (scanStateN s n).scan.1

/-! ## AST (pkg/ast/ast.go, the File-based data model used by pkg/parser) -/

/-- ast.Name. -/
structure NameNode where
  pos : GoPos
  name : String
deriving DecidableEq, Repr

/-- ast.BasicLit. -/
structure BasicLitNode where
  kind : TokenKind
  pos : GoPos
  value : String
deriving DecidableEq, Repr

/-- ast.QualName: `pos` is the module position when a module is present,
else the name position. -/
structure QualNameNode where
  pos : GoPos
  name : NameNode
  module : Option NameNode
deriving DecidableEq, Repr

/-- ast.ImportSpec. -/
structure ImportSpecNode where
  path : BasicLitNode
  al : Option NameNode
deriving DecidableEq, Repr

/-- ast.Node: the closed sum of AST variants.  Pointer fields of concrete
struct type (`*Name`, `*Type`, ...) become values; `Type`-typed fields are
Node-typed here (the parser of pkg/parser only ever builds the first eight
variants, the rest exist for the data model and the walk). -/
inductive Node where
  | bad (fromPos toPos : GoPos)
  | basicLit (lit : BasicLitNode)
  | name (n : NameNode)
  | qualName (q : QualNameNode)
  | unary (opPos : GoPos) (op : TokenKind) (expr : Node)
  | binary (op : TokenKind) (lhs rhs : Node)
  | importSpec (spec : ImportSpecNode)
  | constSpec (nm : NameNode) (expr : Node)
  | typeNode (nm : QualNameNode) (args : List Node)
  | typeAlias (typePos : GoPos) (nm : NameNode) (ty : Node)
  | field (nm : NameNode) (ty : Node)
  | structNode (structPos : GoPos) (nm : NameNode) (fields : List Node)
  | file (nodes : List Node)
deriving Repr

/-- The Pos() methods of ast.go. -/
def Node.posOf : Node → GoPos
  | .bad f _ => f
  | .basicLit l => l.pos
  | .name n => n.pos
  | .qualName q => q.pos
  | .unary p _ _ => p
  | .binary _ lhs _ => lhs.posOf
  | .importSpec spec => spec.path.pos
  | .constSpec nm _ => nm.pos
  | .typeNode nm _ => nm.pos
  | .typeAlias p _ _ => p
  | .field nm _ => nm.pos
  | .structNode p _ _ => p
  | .file _ => ⟨0, 0⟩

/-! ## Parser (pkg/parser/parser.go) -/

/-- parser.SymbolType. -/
inductive SymbolType where
  | constSym | funcSym | interfaceSym | structSym | aliasSym
deriving DecidableEq, Repr

/-- parser.Symbol. -/
structure PSymbol where
  type : SymbolType
  name : NameNode
  decl : Node
deriving Repr

/-- parser.ParsedFile; `file` is File.Nodes of the (always non-nil) root. -/
structure ParsedFile where
  file : List Node
  imports : List ImportSpecNode
  symtab : List PSymbol
  lines : List String
  errors : List ErrorInfo
deriving Repr

/-- Parser state (struct parser).  Diagnostics live in `scanner.errors`:
the scanner's error handler is the parser's own `err`, so scanner and
parser report into one chronologically ordered list. -/
structure PState where
  scanner : ScanState
  current : Token
  syncPos : GoPos
  syncCnt : Nat
  imports : List ImportSpecNode
  symtab : List PSymbol
deriving Repr

/-- Result of a parser computation: a value, a Go runtime panic, or fuel
exhaustion (which the sufficiency theorems rule out). -/
inductive PRes (α : Type) where
  | ok (a : α)
  | panic
  | nofuel
deriving DecidableEq, Repr

/-- Loop of parser.scan: skip COMMENT and ILLEGAL tokens, and NEWLINE
tokens when `newline` is false. -/
def scanFilterF : Nat → Bool → ScanState → Token × ScanState
  | 0, _, s => s.scan
  | f + 1, newline, s =>
    let ts := s.scan
    match ts.1.kind with
    | .COMMENT => scanFilterF f newline ts.2
    | .ILLEGAL => scanFilterF f newline ts.2
    | .NEWLINE => if newline then ts else scanFilterF f newline ts.2
    | _ => ts

/-- parser.scan. -/
def pscan (newline : Bool) (s : ScanState) : Token × ScanState :=
  scanFilterF (s.mu + 1) newline s

/-- The insert_semi array literal of parser.go.  Its length is 47 (one
past the largest initialized index, scanner.TRUE = 46), so indexing it
with TYPE (47) or FUNC (48) is out of range. -/
def insertSemiArr : List Bool :=
  ((((((((((List.replicate 47 false).set 8 true).set 6 true).set 4 true).set 35 true).set
      36 true).set 33 true).set 34 true).set 46 true).set 41 true).set 44 true

/-- insert_semi[k]: `none` is Go's index-out-of-range panic. -/
def insertSemiGet (k : TokenKind) : Option Bool :=
  insertSemiArr.get? k.idx

/-- parser.err: append a diagnostic. -/
def PState.perr (p : PState) (pos : GoPos) (msg : String) : PState :=
  { p with scanner := p.scanner.err pos msg }

/-- parser.expectMsg. -/
def PState.expectMsg (p : PState) (msg : String) : PState :=
  p.perr p.current.pos ("expected " ++ msg ++ ", found '" ++ p.current.value ++ "'")

/-- parser.next: the token pre-filter with automatic semicolon insertion. -/
def pnext (p : PState) : PRes PState :=
  let ts := pscan true p.scanner
  if ts.1.kind = .NEWLINE ∨ ts.1.kind = .ENDMARKER then
    match insertSemiGet p.current.kind with
    | none => .panic
    | some true =>
      .ok { p with scanner := ts.2, current := { ts.1 with kind := .SEMICOLON } }
    | some false =>
      let ts2 := pscan false ts.2
      .ok { p with scanner := ts2.2, current := ts2.1 }
  else
    .ok { p with scanner := ts.2, current := ts.1 }

/-- parser.expect: report a mismatch, always advance one token, return the
inspected token. -/
def pexpect (kind : TokenKind) (p : PState) : PRes (Token × PState) :=
  let token := p.current
  let p := if token.kind ≠ kind then p.expectMsg ("'" ++ kind.str ++ "'") else p
  match pnext p with
  | .ok p' => .ok (token, p')
  | .panic => .panic
  | .nofuel => .nofuel

/-- parser.accept. -/
def paccept (kind : TokenKind) (p : PState) : PRes (Bool × PState) :=
  if p.current.kind = kind then
    match pnext p with
    | .ok p' => .ok (true, p')
    | .panic => .panic
    | .nofuel => .nofuel
  else .ok (false, p)

/-- The semiOnly recovery set. -/
def semiOnlySet (k : TokenKind) : Bool := k = .SEMICOLON

/-- The declStart recovery set. -/
def declStartSet (k : TokenKind) : Bool :=
  k = .CONST ∨ k = .FUNC ∨ k = .IMPORT ∨ k = .INTERFACE ∨ k = .STRUCT ∨ k = .TYPE

/-- Loop of parser.sync: consume tokens until one in `to` (subject to the
progress guard) or ENDMARKER. -/
def syncF : Nat → (TokenKind → Bool) → PState → PRes PState
  | 0, _, _ => .nofuel
  | f + 1, toSet, p =>
    if p.current.kind = .ENDMARKER then .ok p
    else
      let token := p.current
      if toSet token.kind then
        if token.pos = p.syncPos ∧ p.syncCnt < 10 then
          .ok { p with syncCnt := p.syncCnt + 1 }
        else if token.pos.greater p.syncPos then
          .ok { p with syncPos := p.current.pos, syncCnt := 0 }
        else
          match pnext p with
          | .ok p' => syncF f toSet p'
          | .panic => .panic
          | .nofuel => .nofuel
      else
        match pnext p with
        | .ok p' => syncF f toSet p'
        | .panic => .panic
        | .nofuel => .nofuel

/-- Parser progress measure: three times the scanner measure, plus one
while the current token is not ENDMARKER, plus one while it may still
cause a semicolon insertion. -/
def pnu (p : PState) : Nat :=
  3 * p.scanner.mu + (if p.current.kind = .ENDMARKER then 0 else 1) +
    (if insertSemiGet p.current.kind = some true then 1 else 0)

/-- parser.sync with its fuel bound. -/
def psync (toSet : TokenKind → Bool) (p : PState) : PRes PState :=
  syncF (pnu p + 1) toSet p

/-- The led precedence table (exprRuleTable precedences; absent or
nud-only entries have precedence precNone = 0). -/
def infixPrec : TokenKind → Nat
  | .MINUS | .PLUS => 4
  | .MULT | .DIV | .MOD => 5
  | .AND => 2
  | .OR => 1
  | .EQ | .GE | .GT | .LE | .LT | .NEQ => 3
  | _ => 0

/-- Which kinds carry a nud entry in exprRuleTable. -/
def hasNud : TokenKind → Bool
  | .NULL | .TRUE | .FALSE | .STRING | .INTEGER | .IDENTIFIER | .FLOAT | .MINUS | .NOT => true
  | _ => false

/-- parser.parseBasicLit. -/
def parseBasicLit (p : PState) : PRes (Node × PState) :=
  let lit := p.current
  match pnext p with
  | .ok p' => .ok (.basicLit ⟨lit.kind, lit.pos, lit.value⟩, p')
  | .panic => .panic
  | .nofuel => .nofuel

/-- parser.parseName: a sentinel name "@" stands in when the token is not
an IDENTIFIER. -/
def parseName (p : PState) : PRes (NameNode × PState) :=
  match pexpect .IDENTIFIER p with
  | .ok (identifier, p') =>
    let nm := if identifier.kind = .IDENTIFIER then identifier.value else "@"
    .ok (⟨identifier.pos, nm⟩, p')
  | .panic => .panic
  | .nofuel => .nofuel

/-- parser.parseQualName. -/
def parseQualName (p : PState) : PRes (QualNameNode × PState) :=
  match parseName p with
  | .ok (tmp, p) =>
    (match paccept .DOT p with
     | .ok (true, p) =>
       (match parseName p with
        | .ok (nm, p) => .ok (⟨tmp.pos, nm, some tmp⟩, p)
        | .panic => .panic
        | .nofuel => .nofuel)
     | .ok (false, p) => .ok (⟨tmp.pos, tmp, none⟩, p)
     | .panic => .panic
     | .nofuel => .nofuel)
  | .panic => .panic
  | .nofuel => .nofuel

mutual

/-- parser.parseExpr: the TDOP driver.  The rule-table dispatch is written
as a match on the token kind; the precedence walk is `parseInfixSteps`. -/
def parseExprF : Nat → Nat → PState → PRes (Node × PState)
  | 0, _, _ => .nofuel
  | f + 1, prec, p =>
    let token := p.current
    if hasNud token.kind then
      let r :=
        match token.kind with
        | .MINUS | .NOT => parseUnaryExprF f p
        | .IDENTIFIER =>
          (match parseQualName p with
           | .ok (q, p') => .ok (Node.qualName q, p')
           | .panic => .panic
           | .nofuel => .nofuel)
        | _ => parseBasicLit p
      match r with
      | .ok (root, p') => parseInfixSteps f prec root p'
      | .panic => .panic
      | .nofuel => .nofuel
    else
      let p := p.expectMsg "expression"
      match pnext p with
      | .ok p' => .ok (.bad token.pos p'.current.pos, p')
      | .panic => .panic
      | .nofuel => .nofuel

/-- The `for infRule.prec > prec` loop of parseExpr. -/
def parseInfixSteps : Nat → Nat → Node → PState → PRes (Node × PState)
  | 0, _, _, _ => .nofuel
  | f + 1, prec, root, p =>
    if prec < infixPrec p.current.kind then
      match parseBinaryExprF f root (infixPrec p.current.kind) p with
      | .ok (root', p') => parseInfixSteps f prec root' p'
      | .panic => .panic
      | .nofuel => .nofuel
    else .ok (root, p)

/-- parser.parseUnaryExpr (precUnary = 6). -/
def parseUnaryExprF : Nat → PState → PRes (Node × PState)
  | 0, _ => .nofuel
  | f + 1, p =>
    let op := p.current
    match pnext p with
    | .ok p' =>
      (match parseExprF f 6 p' with
       | .ok (e, p'') => .ok (.unary op.pos op.kind e, p'')
       | .panic => .panic
       | .nofuel => .nofuel)
    | .panic => .panic
    | .nofuel => .nofuel

/-- parser.parseBinaryExpr. -/
def parseBinaryExprF : Nat → Node → Nat → PState → PRes (Node × PState)
  | 0, _, _, _ => .nofuel
  | f + 1, lhs, prec, p =>
    let op := p.current
    match pnext p with
    | .ok p' =>
      (match parseExprF f prec p' with
       | .ok (rhs, p'') => .ok (.binary op.kind lhs rhs, p'')
       | .panic => .panic
       | .nofuel => .nofuel)
    | .panic => .panic
    | .nofuel => .nofuel

end

/-- parseExpr with its fuel bound. -/
def parseExpr (prec : Nat) (p : PState) : PRes (Node × PState) :=
  parseExprF (4 * pnu p + 8) prec p

/-- parser.parseImportSpec. -/
def parseImportSpec (p : PState) : PRes (Node × PState) :=
  let token := p.current
  let pathRes : PRes (String × PState) :=
    if token.kind = .STRING then
      match pnext p with
      | .ok p' => .ok (token.value, p')
      | .panic => .panic
      | .nofuel => .nofuel
    else
      let p := p.perr token.pos "import path must be a string"
      match psync semiOnlySet p with
      | .ok p' => .ok ("", p')
      | .panic => .panic
      | .nofuel => .nofuel
  match pathRes with
  | .ok (path, p) =>
    let aliasRes : PRes (Option NameNode × PState) :=
      match paccept .AS p with
      | .ok (true, p) =>
        (match parseName p with
         | .ok (nm, p) => .ok (some nm, p)
         | .panic => .panic
         | .nofuel => .nofuel)
      | .ok (false, p) => .ok (none, p)
      | .panic => .panic
      | .nofuel => .nofuel
    (match aliasRes with
     | .ok (al, p) =>
       let spec : ImportSpecNode := ⟨⟨.STRING, token.pos, path⟩, al⟩
       .ok (.importSpec spec, { p with imports := p.imports ++ [spec] })
     | .panic => .panic
     | .nofuel => .nofuel)
  | .panic => .panic
  | .nofuel => .nofuel

/-- parser.parseConstSpec. -/
def parseConstSpec (p : PState) : PRes (Node × PState) :=
  match parseName p with
  | .ok (nm, p) =>
    (match pexpect .ASSIGN p with
     | .ok (_, p) =>
       (match parseExpr 0 p with
        | .ok (expr, p) =>
          let spec := Node.constSpec nm expr
          .ok (spec, { p with symtab := p.symtab ++ [⟨.constSym, nm, spec⟩] })
        | .panic => .panic
        | .nofuel => .nofuel)
     | .panic => .panic
     | .nofuel => .nofuel)
  | .panic => .panic
  | .nofuel => .nofuel

/-- parser.parseDecl: dispatch on the keyword; anything else reports
"expected declaration" and recovers to the declaration-start set. -/
def parseDecl (p : PState) : PRes (Node × PState) :=
  let token := p.current
  match token.kind with
  | .IMPORT =>
    (match pnext p with
     | .ok p =>
       (match parseImportSpec p with
        | .ok (decl, p) =>
          (match pexpect .SEMICOLON p with
           | .ok (_, p) => .ok (decl, p)
           | .panic => .panic
           | .nofuel => .nofuel)
        | .panic => .panic
        | .nofuel => .nofuel)
     | .panic => .panic
     | .nofuel => .nofuel)
  | .CONST =>
    (match pnext p with
     | .ok p =>
       (match parseConstSpec p with
        | .ok (decl, p) =>
          (match pexpect .SEMICOLON p with
           | .ok (_, p) => .ok (decl, p)
           | .panic => .panic
           | .nofuel => .nofuel)
        | .panic => .panic
        | .nofuel => .nofuel)
     | .panic => .panic
     | .nofuel => .nofuel)
  | _ =>
    let p := p.expectMsg "declaration"
    match psync declStartSet p with
    | .ok p' => .ok (.bad token.pos p'.current.pos, p')
    | .panic => .panic
    | .nofuel => .nofuel

/-- The declaration loop of parser.parse. -/
def parseTopF : Nat → List Node → PState → PRes (List Node × PState)
  | 0, _, _ => .nofuel
  | f + 1, nodes, p =>
    if p.current.kind = .ENDMARKER then .ok (nodes, p)
    else
      match parseDecl p with
      | .ok (d, p') => parseTopF f (nodes ++ [d]) p'
      | .panic => .panic
      | .nofuel => .nofuel

/-- The loop measure of parser.parse: the sync guard permits a bounded
number of iterations without scanner progress. -/
def ploopMeasure (p : PState) : Nat :=
  13 * pnu p + (if p.current.pos = p.syncPos then 10 - p.syncCnt else 12)

/-- parser.parse with its fuel bound. -/
def parseTop (p : PState) : PRes (List Node × PState) :=
  parseTopF (ploopMeasure p + 1) [] p

/-- The parser state before parser.init pulls the first token: fresh
scanner, zero-value current token (kind ILLEGAL, empty value), zero sync
bookkeeping, empty accumulators. -/
def pbase (text : List Nat) : PState :=
  ⟨scanInit text, ⟨.ILLEGAL, ⟨0, 0⟩, ""⟩, ⟨0, 0⟩, 0, [], []⟩

/-- parser.Parse: initialize, pull the first token (the tail of
parser.init), run the declaration loop, and package the ParsedFile. -/
def parseGo (text : List Nat) : PRes ParsedFile :=
  match pnext (pbase text) with
  | .ok p =>
    (match parseTop p with
     | .ok (nodes, p') => .ok ⟨nodes, p'.imports, p'.symtab, p'.scanner.lines, p'.scanner.errors⟩
     | .panic => .panic
     | .nofuel => .nofuel)
  | .panic => .panic
  | .nofuel => .nofuel

/-! ## Helpers for stating concrete-run facts -/

/-- The byte sequence of an ASCII string (eq to its UTF-8 bytes). -/
def asciiBytes (s : String) : List Nat := s.data.map Char.toNat

/-- The diagnostics of a parse result (empty on panic or fuel exhaustion). -/
def presErrors : PRes ParsedFile → List ErrorInfo
  | .ok pf => pf.errors
  | _ => []

/-- File.Nodes of a parse result. -/
def presNodes : PRes ParsedFile → List Node
  | .ok pf => pf.file
  | _ => []

/-- Lines of a parse result. -/
def presLines : PRes ParsedFile → List String
  | .ok pf => pf.lines
  | _ => []

/-- Whether a parse result is a proper ParsedFile. -/
def presIsOk : PRes ParsedFile → Bool
  | .ok _ => true
  | _ => false

/-- Whether a node is an error-recovery BadNode. -/
def Node.isBad : Node → Bool
  | .bad _ _ => true
  | _ => false

/-- Whether a node is a TypeAlias. -/
def Node.isTypeAlias : Node → Bool
  | .typeAlias _ _ _ => true
  | _ => false

/-- Whether a node is a Struct definition. -/
def Node.isStruct : Node → Bool
  | .structNode _ _ _ => true
  | _ => false

/-- Whether a node is an ImportSpec with the given path lexeme. -/
def Node.isImportWithPath (path : String) : Node → Bool
  | .importSpec spec => spec.path.value = path
  | _ => false

/-- The state component of a (Node × PState) parser result. -/
def pdState (r : PRes (Node × PState)) (d : PState) : PState :=
  match r with
  | .ok (_, p) => p
  | _ => d

/-- The node component of a (Node × PState) parser result. -/
def pdNode (r : PRes (Node × PState)) : Node :=
  match r with
  | .ok (n, _) => n
  | _ => .bad ⟨0, 0⟩ ⟨0, 0⟩

/-- The state component of a PRes PState. -/
def prState (r : PRes PState) (d : PState) : PState :=
  match r with
  | .ok p => p
  | _ => d

/-! ## Composition lemmas for staged evaluation of the declaration loop -/

/-- One iteration of the declaration loop. -/
theorem parseTopF_cons {f : Nat} {nodes : List Node} {p : PState} {d : Node} {p' : PState}
    {r : PRes (List Node × PState)} (h : p.current.kind ≠ .ENDMARKER)
    (h1 : parseDecl p = .ok (d, p')) (h2 : parseTopF f (nodes ++ [d]) p' = r) :
    parseTopF (f + 1) nodes p = r := by
  simp only [parseTopF, h1]
  rw [if_neg h]
  exact h2

/-- Exit of the declaration loop at ENDMARKER. -/
theorem parseTopF_end {f : Nat} {nodes : List Node} {p : PState}
    (h : p.current.kind = .ENDMARKER) : parseTopF (f + 1) nodes p = .ok (nodes, p) := by
  simp only [parseTopF]
  rw [if_pos h]

/-! ## The staged run of Parse on the import-ordering scenario input -/

def c2bytes : List Nat := asciiBytes "import \"a\"\nconst k=1\nimport \"b\"\n"

def c2p0 : PState := prState (pnext (pbase c2bytes)) (pbase c2bytes)

def c2d1 : Node := pdNode (parseDecl c2p0)
def c2p1 : PState := pdState (parseDecl c2p0) c2p0
def c2d2 : Node := pdNode (parseDecl c2p1)
def c2p2 : PState := pdState (parseDecl c2p1) c2p1
def c2d3 : Node := pdNode (parseDecl c2p2)
def c2p3 : PState := pdState (parseDecl c2p2) c2p2

theorem c2init : pnext (pbase c2bytes) = .ok c2p0 := rfl
theorem c2s1 : parseDecl c2p0 = .ok (c2d1, c2p1) := rfl
theorem c2s2 : parseDecl c2p1 = .ok (c2d2, c2p2) := rfl
theorem c2s3 : parseDecl c2p2 = .ok (c2d3, c2p3) := rfl
theorem c2k0 : c2p0.current.kind = .IMPORT := rfl
theorem c2k1 : c2p1.current.kind = .CONST := rfl
theorem c2k2 : c2p2.current.kind = .IMPORT := rfl
theorem c2k3 : c2p3.current.kind = .ENDMARKER := rfl

theorem c2top : parseTop c2p0 = .ok ([c2d1, c2d2, c2d3], c2p3) := by
  show parseTopF (ploopMeasure c2p0 + 1) [] c2p0 = _
  refine parseTopF_cons (by rw [c2k0]; intro hc; cases hc) c2s1 ?_
  refine parseTopF_cons (by rw [c2k1]; intro hc; cases hc) c2s2 ?_
  refine parseTopF_cons (by rw [c2k2]; intro hc; cases hc) c2s3 ?_
  rw [parseTopF_end c2k3]
  rfl

/-- Packaging lemma for parser.Parse: initialization and declaration-loop
results determine the ParsedFile. -/
theorem parseGo_eq {text : List Nat} {p : PState} {nodes : List Node} {p' : PState}
    (h1 : pnext (pbase text) = .ok p) (h2 : parseTop p = .ok (nodes, p')) :
    parseGo text = .ok ⟨nodes, p'.imports, p'.symtab, p'.scanner.lines, p'.scanner.errors⟩ := by
  unfold parseGo
  rw [h1]
  dsimp only
  rw [h2]

theorem c2full : parseGo c2bytes =
    .ok ⟨[c2d1, c2d2, c2d3], c2p3.imports, c2p3.symtab, c2p3.scanner.lines,
         c2p3.scanner.errors⟩ :=
  parseGo_eq c2init c2top

/-! ## Claim C2 (import-ordering rule) -/

/-- C2 counterexample: on the input `import "a"\nconst k=1\nimport "b"\n`
the parser returns ZERO diagnostics (the claim demands exactly one, with
message `imports must appear before other declarations`, at the second
import); the three declarations are all in File.Nodes. -/
theorem c2_claim_counterexample :
    (presErrors (parseGo c2bytes)).length = 0 ∧ (presNodes (parseGo c2bytes)).length = 3 := by
  rw [c2full]
  exact ⟨rfl, rfl⟩

/-- C2 amended: the parser does not count non-import declarations and
emits no import-ordering diagnostic; on the scenario input Parse returns
zero diagnostics, File.Nodes has all three declarations in order, the
misplaced second import is kept in the tree (as an ImportSpec with path
lexeme `"b"`), and both imports are recorded in ParsedFile.Imports. -/
theorem c2_amended_no_order_rule :
    presErrors (parseGo c2bytes) = [] ∧
    (presNodes (parseGo c2bytes)).length = 3 ∧
    ((presNodes (parseGo c2bytes)).getD 2 (.bad ⟨0, 0⟩ ⟨0, 0⟩)).isImportWithPath "\"b\"" = true ∧
    (match parseGo c2bytes with | .ok pf => pf.imports.length | _ => 0) = 2 := by
  rw [c2full]
  exact ⟨rfl, rfl, rfl, rfl⟩

/-! ## Claim C1 (type and struct declarations), concrete part -/

def c1bytes : List Nat := asciiBytes "type x\n"

set_option maxRecDepth 8000 in
/-- C1 counterexample: on input `type x\n` (a type alias header at the
start of a top-level declaration) the parser emits `expected declaration,
found 'type'` and produces only BadNodes: no TypeAlias is parsed and no
type-alias node reaches File.Nodes. -/
theorem c1_claim_counterexample :
    ((presErrors (parseGo c1bytes)).contains
        ⟨⟨0, 0⟩, "expected declaration, found 'type'"⟩) = true ∧
    (presNodes (parseGo c1bytes)).all Node.isBad = true ∧
    (presNodes (parseGo c1bytes)).all (fun n => !n.isTypeAlias) = true ∧
    (presNodes (parseGo c1bytes)).length = 11 := by
  refine ⟨rfl, rfl, rfl, rfl⟩

/-! ## Claim C3 (scanner and SEMICOLON), concrete part -/

/-- C3 counterexample: scanning the input `;` returns a SEMICOLON token
(the claim says Scanner.Scan never returns SEMICOLON). -/
theorem c3_claim_counterexample :
    (scanTokenN (scanInit (asciiBytes ";")) 0).kind = .SEMICOLON ∧
    (scanTokenN (scanInit (asciiBytes ";")) 0).value = ";" := by
  exact ⟨rfl, rfl⟩

/-! ## Claim C4 (the `const = 1` scenario) -/

def c4bytes : List Nat := asciiBytes "const = 1\n"

set_option maxRecDepth 8000 in
/-- C4 counterexample: Parse on `const = 1\n` returns FOUR diagnostics,
not one (expect always advances, so the `=` and the `1` are consumed by
the failed expects), and the ConstSpec's Expr is a BadNode, not
BasicLit(INTEGER,"1"). -/
theorem c4_claim_counterexample :
    (presErrors (parseGo c4bytes)).length = 4 ∧
    presNodes (parseGo c4bytes) =
      [.constSpec ⟨⟨0, 6⟩, "@"⟩ (.bad ⟨0, 9⟩ ⟨1, 0⟩)] := by
  exact ⟨rfl, rfl⟩

set_option maxRecDepth 8000 in
/-- C4 amended: Parse on `const = 1\n` returns four diagnostics, the
first being `expected 'IDENTIFIER', found '='` at the `=` column (line 0,
column 6); the ConstSpec carries the sentinel name `@` and its Expr is
the BadNode spanning from the inserted semicolon to end of input. -/
theorem c4_amended_run :
    presErrors (parseGo c4bytes) =
      [⟨⟨0, 6⟩, "expected 'IDENTIFIER', found '='"⟩,
       ⟨⟨0, 8⟩, "expected '=', found '1'"⟩,
       ⟨⟨0, 9⟩, "expected expression, found 'newline'"⟩,
       ⟨⟨1, 0⟩, "expected ';', found 'endmarker'"⟩] ∧
    presNodes (parseGo c4bytes) =
      [.constSpec ⟨⟨0, 6⟩, "@"⟩ (.bad ⟨0, 9⟩ ⟨1, 0⟩)] := by
  exact ⟨rfl, rfl⟩

/-! ## Claim C5 (diagnostic line bounds), concrete part -/

def c5bytes : List Nat := asciiBytes "const\n"

set_option maxRecDepth 8000 in
/-- C5 counterexample: Parse on `const\n` produces a diagnostic at the
end-of-input position (line 1, column 0) while Lines has exactly one
entry, so err.Pos.Line < len(Lines) fails (1 is not < 1). -/
theorem c5_claim_counterexample :
    ((presErrors (parseGo c5bytes)).getD 0 ⟨⟨0, 0⟩, ""⟩).pos.line = 1 ∧
    (presLines (parseGo c5bytes)).length = 1 ∧
    ¬ ((presErrors (parseGo c5bytes)).getD 0 ⟨⟨0, 0⟩, ""⟩).pos.line <
        (presLines (parseGo c5bytes)).length := by
  refine ⟨rfl, rfl, ?_⟩
  rw [show ((presErrors (parseGo c5bytes)).getD 0 ⟨⟨0, 0⟩, ""⟩).pos.line = 1 from rfl]
  rw [show (presLines (parseGo c5bytes)).length = 1 from rfl]
  omega

/-! ## Claim C7 (the token pre-filter and the insert_semi array) -/

/-- C7: the pre-filter panics instead of discarding the newline (or
passing the endmarker through) whenever the most recently returned token
is TYPE or FUNC: their kind indices 47 and 48 are out of range for the
47-element insert_semi array.  Concretely, Parse on the whole input
`type` panics. -/
theorem c7_insert_semi_oob :
    parseGo (asciiBytes "type") = .panic ∧
    ∀ p : PState, (p.current.kind = .TYPE ∨ p.current.kind = .FUNC) →
      ((pscan true p.scanner).1.kind = .NEWLINE ∨ (pscan true p.scanner).1.kind = .ENDMARKER) →
      pnext p = .panic := by
  refine ⟨rfl, ?_⟩
  intro p hk hs
  unfold pnext
  dsimp only
  rcases hs with hs | hs <;> rw [hs] <;>
    rcases hk with hk | hk <;> simp [hk, insertSemiGet, insertSemiArr, TokenKind.idx]

/-- Witness for C7's conditional part: a parser state whose current token
is TYPE and whose scanner is at a newline; the pre-filter panics on it. -/
def c7wp : PState :=
  ⟨scanInit (asciiBytes "\n"), ⟨.TYPE, ⟨0, 0⟩, "type"⟩, ⟨0, 0⟩, 0, [], []⟩

theorem c7_insert_semi_oob_witness : pnext c7wp = .panic :=
  c7_insert_semi_oob.2 c7wp (Or.inl rfl) (Or.inl rfl)

/-! ## Scanner measure and preservation lemmas -/

/-- UTF-8 decoding of a nonempty slice has width at least one. -/
theorem utf8DecodeRune_w_pos (b0 : Nat) (rest : List Nat) :
    1 ≤ (utf8DecodeRune (b0 :: rest)).2 := by
  rcases rest with _ | ⟨b1, _ | ⟨b2, _ | ⟨b3, t⟩⟩⟩ <;>
    (unfold utf8DecodeRune; dsimp only; split_ifs <;> simp)

/-- A two-byte UTF-8 value is at least 0x80. -/
theorem utf8_two_byte_ge (b0 b1 : Nat) (h0 : 194 ≤ b0) (h0' : b0 ≤ 223) :
    128 ≤ (b0 % 32) * 64 + b1 % 64 := by omega

/-- A three-byte UTF-8 value within the accept ranges is at least 0x80. -/
theorem utf8_three_byte_ge (b0 b1 b2 : Nat) (h0 : 224 ≤ b0) (h0' : b0 ≤ 239)
    (hlo : utf8AcceptLo b0 ≤ b1) (hhi : b1 ≤ utf8AcceptHi b0) :
    128 ≤ (b0 % 16) * 4096 + (b1 % 64) * 64 + b2 % 64 := by
  unfold utf8AcceptLo at hlo
  unfold utf8AcceptHi at hhi
  split_ifs at hlo hhi <;> omega

/-- A four-byte UTF-8 value within the accept ranges is at least 0x80. -/
theorem utf8_four_byte_ge (b0 b1 b2 b3 : Nat) (h0 : 240 ≤ b0) (h0' : b0 ≤ 244)
    (hlo : utf8AcceptLo b0 ≤ b1) (hhi : b1 ≤ utf8AcceptHi b0) :
    128 ≤ (b0 % 8) * 262144 + (b1 % 64) * 4096 + (b2 % 64) * 64 + b3 % 64 := by
  unfold utf8AcceptLo at hlo
  unfold utf8AcceptHi at hhi
  split_ifs at hlo hhi <;> omega

/-- A byte at or above 0x80 never decodes to a rune below 0x80: UTF-8 has
no overlong forms and the replacement rune 0xFFFD is above 0x80. -/
theorem utf8DecodeRune_hi (b0 : Nat) (rest : List Nat) (hb : 0x80 <= b0) :
    ¬ (utf8DecodeRune (b0 :: rest)).1 < 0x80 := by
  have h128 : ¬ b0 < 0x80 := by omega
  rcases rest with _ | ⟨b1, _ | ⟨b2, _ | ⟨b3, t⟩⟩⟩ <;>
      (unfold utf8DecodeRune; dsimp only; rw [if_neg h128]; split_ifs) <;>
      (try (intro hlt; revert hlt; decide)) <;>
      rename_i hcls hacc <;>
      simp only [Bool.and_eq_true, decide_eq_true_eq] at hcls hacc <;>
      (intro hlt; simp only [Int.ofNat_eq_coe] at hlt; push_cast at hlt)
  · exact absurd hlt (by have := utf8_two_byte_ge b0 b1 hcls.1 hcls.2; omega)
  · exact absurd hlt (by have := utf8_two_byte_ge b0 b1 hcls.1 hcls.2; omega)
  · exact absurd hlt
      (by have := utf8_three_byte_ge b0 b1 b2 hcls.1 hcls.2 hacc.1.1 hacc.1.2; omega)
  · exact absurd hlt (by have := utf8_two_byte_ge b0 b1 hcls.1 hcls.2; omega)
  · exact absurd hlt
      (by have := utf8_three_byte_ge b0 b1 b2 hcls.1 hcls.2 hacc.1.1 hacc.1.2; omega)
  · exact absurd hlt
      (by have := utf8_four_byte_ge b0 b1 b2 b3 hcls.1 hcls.2 hacc.1.1.1 hacc.1.1.2; omega)

/-- Well-formedness: the endmarker sentinel implies the input is used up
(established by every load). -/
def ScanState.swf (s : ScanState) : Prop :=
  s.current = -1 → s.text.length ≤ s.rdoffset

/-- The current character comes from the text: if it is a semicolon, the
input contains a semicolon byte (established by every load). -/
def ScanState.semiInv (s : ScanState) : Prop :=
  s.current = 59 → (59 : Nat) ∈ s.text

/-- Position sanity: the token-start and scan positions and every recorded
diagnostic position lie on a line the scanner has already completed or the
one it is currently filling. -/
def ScanState.goodPos (s : ScanState) : Prop :=
  s.pos.line ≤ s.lines.length ∧ s.endp.line ≤ s.lines.length ∧
    ∀ e ∈ s.errors, e.pos.line ≤ s.lines.length

/-- The step relation every scanner operation satisfies: the input text is
unchanged, the measure does not grow, well-formedness, position sanity and
the semicolon-provenance invariant are preserved, diagnostics are only
added, and the line list only grows. -/
def sstep (s s' : ScanState) : Prop :=
  s'.text = s.text ∧ s'.mu ≤ s.mu ∧ (s.swf → s'.swf) ∧
    (∀ e ∈ s.errors, e ∈ s'.errors) ∧ s.lines.length ≤ s'.lines.length ∧
    (s.semiInv → s'.semiInv) ∧ (s.goodPos → s'.goodPos)

theorem sstep_refl (s : ScanState) : sstep s s :=
  ⟨rfl, le_refl _, id, fun _ he => he, le_refl _, id, id⟩

theorem sstep_trans {s t u : ScanState} (h1 : sstep s t) (h2 : sstep t u) : sstep s u := by
  obtain ⟨a1, b1, c1, d1, e1, f1, g1⟩ := h1
  obtain ⟨a2, b2, c2, d2, e2, f2, g2⟩ := h2
  exact ⟨a2.trans a1, b2.trans b1, fun h => c2 (c1 h), fun e he => d2 e (d1 e he),
    e1.trans e2, fun h => f2 (f1 h), fun h => g2 (g1 h)⟩

theorem err_sstep (s : ScanState) (pos : GoPos) (msg : String)
    (hp : s.goodPos → pos.line ≤ s.lines.length) : sstep s (s.err pos msg) := by
  refine ⟨rfl, ?_, id, ?_, le_refl _, id, ?_⟩
  · simp [ScanState.err, ScanState.mu]
  · intro e he
    simp [ScanState.err]
    exact Or.inl he
  · intro hg
    obtain ⟨h1, h2, h3⟩ := hg
    refine ⟨h1, h2, ?_⟩
    intro e he
    have he' : e ∈ s.errors ++ [⟨pos, msg⟩] := he
    rcases List.mem_append.mp he' with h | h
    · exact h3 e h
    · rw [List.mem_singleton] at h
      subst h
      exact hp ⟨h1, h2, h3⟩

@[simp] theorem err_text_eq (s : ScanState) (p : GoPos) (m : String) : (s.err p m).text = s.text := rfl
@[simp] theorem err_rdoffset_eq (s : ScanState) (p : GoPos) (m : String) : (s.err p m).rdoffset = s.rdoffset := rfl
@[simp] theorem err_current_eq (s : ScanState) (p : GoPos) (m : String) : (s.err p m).current = s.current := rfl
@[simp] theorem err_pos_eq (s : ScanState) (p : GoPos) (m : String) : (s.err p m).pos = s.pos := rfl
@[simp] theorem err_endp_eq (s : ScanState) (p : GoPos) (m : String) : (s.err p m).endp = s.endp := rfl
@[simp] theorem err_val_eq (s : ScanState) (p : GoPos) (m : String) : (s.err p m).val = s.val := rfl
@[simp] theorem err_line_eq (s : ScanState) (p : GoPos) (m : String) : (s.err p m).line = s.line := rfl
@[simp] theorem err_lines_eq (s : ScanState) (p : GoPos) (m : String) : (s.err p m).lines = s.lines := rfl
@[simp] theorem err_done_eq (s : ScanState) (p : GoPos) (m : String) : (s.err p m).done = s.done := rfl
@[simp] theorem err_errors_eq (s : ScanState) (p : GoPos) (m : String) :
    (s.err p m).errors = s.errors ++ [⟨p, m⟩] := rfl

/-- load leaves the text unchanged. -/
theorem load_text (s : ScanState) : (s.load).text = s.text := by
  unfold ScanState.load
  dsimp only
  split_ifs <;> rfl

/-- load leaves pos unchanged. -/
theorem load_pos (s : ScanState) : (s.load).pos = s.pos := by
  unfold ScanState.load
  dsimp only
  split_ifs <;> rfl

/-- load leaves endp unchanged. -/
theorem load_endp (s : ScanState) : (s.load).endp = s.endp := by
  unfold ScanState.load
  dsimp only
  split_ifs <;> rfl

/-- load leaves the lines unchanged. -/
theorem load_lines (s : ScanState) : (s.load).lines = s.lines := by
  unfold ScanState.load
  dsimp only
  split_ifs <;> rfl

/-- load only appends diagnostics. -/
theorem load_errs (s : ScanState) : ∀ e ∈ s.errors, e ∈ (s.load).errors := by
  unfold ScanState.load
  dsimp only
  split_ifs <;> intro e he <;> simp [ScanState.err] <;> try exact Or.inl he
  all_goals exact he

/-- Any diagnostic present after load was already there or was recorded at
the current token-start or scan position. -/
theorem load_errs_sub (s : ScanState) :
    ∀ e ∈ (s.load).errors, e ∈ s.errors ∨ e.pos = s.endp ∨ e.pos = s.pos := by
  unfold ScanState.load
  dsimp only
  split_ifs with h1 h2 h3 h4 h5
  · intro e he
    have he' : e ∈ s.errors ++ [⟨s.endp, "illegal character NUL"⟩] := he
    rcases List.mem_append.mp he' with h | h
    · exact Or.inl h
    · rw [List.mem_singleton] at h
      subst h
      exact Or.inr (Or.inl rfl)
  · intro e he
    have he' : e ∈ s.errors ++ [⟨s.endp, "illegal UTF-8 encoding"⟩] := he
    rcases List.mem_append.mp he' with h | h
    · exact Or.inl h
    · rw [List.mem_singleton] at h
      subst h
      exact Or.inr (Or.inl rfl)
  · intro e he
    have he' : e ∈ s.errors ++ [⟨s.pos, "illegal byte order mark"⟩] := he
    rcases List.mem_append.mp he' with h | h
    · exact Or.inl h
    · rw [List.mem_singleton] at h
      subst h
      exact Or.inr (Or.inr rfl)
  · exact fun e he => Or.inl he
  · exact fun e he => Or.inl he
  · exact fun e he => Or.inl he

/-- load preserves position sanity. -/
theorem load_goodPos (s : ScanState) (h : s.goodPos) : (s.load).goodPos := by
  obtain ⟨h1, h2, h3⟩ := h
  refine ⟨?_, ?_, ?_⟩
  · rw [load_pos, load_lines]
    exact h1
  · rw [load_endp, load_lines]
    exact h2
  · intro e he
    rw [load_lines]
    rcases load_errs_sub s e he with h | h | h
    · exact h3 e h
    · rw [h]
      exact h2
    · rw [h]
      exact h1

/-- At end of input, load only sets the endmarker sentinel. -/
theorem load_eof (s : ScanState) (h : ¬ s.rdoffset < s.text.length) :
    s.load = { s with current := -1 } := by
  unfold ScanState.load
  rw [if_neg h]

/-- Before end of input, load advances the reading offset. -/
theorem load_adv (s : ScanState) (h : s.rdoffset < s.text.length) :
    s.rdoffset + 1 ≤ (s.load).rdoffset := by
  have hw : 1 ≤ (utf8DecodeRune (s.text.drop s.rdoffset)).2 := by
    rw [List.drop_eq_getElem_cons h]
    exact utf8DecodeRune_w_pos _ _
  unfold ScanState.load
  rw [if_pos h]
  dsimp only
  split_ifs <;> simp only [err_rdoffset_eq] <;> omega

/-- load establishes well-formedness. -/
theorem load_swf (s : ScanState) : (s.load).swf := by
  by_cases h1 : s.rdoffset < s.text.length
  · have hhi : ∀ _ : 128 ≤ s.text.getD s.rdoffset 0,
        ¬ (utf8DecodeRune (s.text.drop s.rdoffset)).1 < 128 := by
      intro hge
      rw [List.drop_eq_getElem_cons h1]
      exact utf8DecodeRune_hi _ _ (by rw [List.getD_eq_getElem s.text 0 h1] at hge; exact hge)
    unfold ScanState.load ScanState.swf
    rw [if_pos h1]
    dsimp only
    split_ifs with h2 h3 h4 h5
    · intro hc
      exact hc.elim
    · intro hc
      have hc' : (utf8DecodeRune (s.text.drop s.rdoffset)).1 = -1 := hc
      exact absurd (by rw [hc']; decide) (hhi h3)
    · intro hc
      have hc' : (utf8DecodeRune (s.text.drop s.rdoffset)).1 = -1 := hc
      exact absurd (by rw [hc']; decide) (hhi h3)
    · intro hc
      have hc' : (utf8DecodeRune (s.text.drop s.rdoffset)).1 = -1 := hc
      exact absurd (by rw [hc']; decide) (hhi h3)
    · intro hc
      exact hc.elim
  · rw [load_eof s h1]
    intro _
    exact Nat.le_of_not_lt h1

/-- load establishes semicolon provenance. -/
theorem load_semiInv (s : ScanState) : (s.load).semiInv := by
  by_cases h1 : s.rdoffset < s.text.length
  · have hhi : ∀ _ : 128 ≤ s.text.getD s.rdoffset 0,
        ¬ (utf8DecodeRune (s.text.drop s.rdoffset)).1 < 128 := by
      intro hge
      rw [List.drop_eq_getElem_cons h1]
      exact utf8DecodeRune_hi _ _ (by rw [List.getD_eq_getElem s.text 0 h1] at hge; exact hge)
    have hmem : s.text.getD s.rdoffset 0 = 59 → (59 : Nat) ∈ s.text := by
      intro hb
      rw [List.getD_eq_getElem s.text 0 h1] at hb
      rw [← hb]
      exact List.getElem_mem h1
    unfold ScanState.load ScanState.semiInv
    rw [if_pos h1]
    dsimp only
    split_ifs with h2 h3 h4 h5
    · intro hc
      have hc' : Int.ofNat (s.text.getD s.rdoffset 0) = 59 := hc
      rw [h2] at hc'
      exact absurd hc' (by decide)
    · intro hc
      have hc' : (utf8DecodeRune (s.text.drop s.rdoffset)).1 = 59 := hc
      exact absurd (by rw [hc']; decide) (hhi h3)
    · intro hc
      have hc' : (utf8DecodeRune (s.text.drop s.rdoffset)).1 = 59 := hc
      exact absurd (by rw [hc']; decide) (hhi h3)
    · intro hc
      have hc' : (utf8DecodeRune (s.text.drop s.rdoffset)).1 = 59 := hc
      exact absurd (by rw [hc']; decide) (hhi h3)
    · intro hc
      have hc' : Int.ofNat (s.text.getD s.rdoffset 0) = 59 := hc
      simp only [Int.ofNat_eq_coe] at hc'
      exact hmem (by omega)
  · rw [load_eof s h1]
    intro hc
    have hc' : (-1 : Int) = 59 := hc
    exact absurd hc' (by decide)

/-- load bounds the measure by the unread byte count. -/
theorem load_mu_bound (s : ScanState) : (s.load).mu ≤ s.text.length - s.rdoffset := by
  by_cases hc : (s.load).current = -1
  · have hs := load_swf s hc
    unfold ScanState.mu
    rw [if_pos hc, load_text]
    rw [load_text] at hs
    omega
  · unfold ScanState.mu
    rw [if_neg hc, load_text]
    by_cases hrd : s.rdoffset < s.text.length
    · have := load_adv s hrd
      omega
    · rw [load_eof s hrd] at hc
      exact absurd rfl hc

/-- load satisfies the step relation. -/
theorem load_sstep (s : ScanState) : sstep s s.load := by
  refine ⟨load_text s, ?_, fun _ => load_swf s, load_errs s, ?_, fun _ => load_semiInv s,
    load_goodPos s⟩
  · exact le_trans (load_mu_bound s) (by unfold ScanState.mu; omega)
  · rw [load_lines]

/-- A state change that keeps text, offset, current character and errors,
only grows the line list, keeps the token-start line and keeps the scan
line within the line list is a step. -/
theorem sstep_of_fields (s t : ScanState) (htext : t.text = s.text)
    (hrd : t.rdoffset = s.rdoffset) (hcur : t.current = s.current)
    (herr : t.errors = s.errors) (hl : s.lines.length ≤ t.lines.length)
    (hpos : s.goodPos → t.pos.line ≤ t.lines.length)
    (hend : s.goodPos → t.endp.line ≤ t.lines.length) :
    sstep s t := by
  have hmu : t.mu = s.mu := by
    unfold ScanState.mu
    rw [htext, hrd, hcur]
  refine ⟨htext, le_of_eq hmu, ?_, ?_, hl, ?_, ?_⟩
  · intro h hc
    rw [htext, hrd]
    exact h (by rw [← hcur]; exact hc)
  · intro e he
    rw [herr]
    exact he
  · intro h hc
    rw [htext]
    exact h (by rw [← hcur]; exact hc)
  · rintro ⟨g1, g2, g3⟩
    refine ⟨hpos ⟨g1, g2, g3⟩, hend ⟨g1, g2, g3⟩, ?_⟩
    intro e hee
    rw [herr] at hee
    exact le_trans (g3 e hee) hl

/-- Recording a diagnostic at a position bounded at an earlier state of a
step is itself a step from that earlier state. -/
theorem sstep_err_of {s s' : ScanState} (hs : sstep s s') (pos : GoPos) (msg : String)
    (hp : s.goodPos → pos.line ≤ s.lines.length) : sstep s (s'.err pos msg) := by
  obtain ⟨a, b, c, d, e, f, g⟩ := hs
  refine ⟨a, b, c, ?_, e, f, ?_⟩
  · intro er he
    have : er ∈ s'.errors := d er he
    show er ∈ s'.errors ++ [⟨pos, msg⟩]
    exact List.mem_append.mpr (Or.inl this)
  · intro hg
    obtain ⟨p1, p2, p3⟩ := g hg
    refine ⟨p1, p2, ?_⟩
    intro er her
    have her' : er ∈ s'.errors ++ [⟨pos, msg⟩] := her
    rcases List.mem_append.mp her' with h | h
    · exact p3 er h
    · rw [List.mem_singleton] at h
      subst h
      exact le_trans (hp hg) e

/-- next satisfies the step relation. -/
theorem next_sstep (s : ScanState) : sstep s s.next := by
  unfold ScanState.next
  dsimp only
  split_ifs <;>
    · refine sstep_trans ?_ (load_sstep _)
      refine sstep_of_fields s _ rfl rfl rfl rfl ?_ ?_ ?_ <;>
        · try intro hg
          try have h1 := hg.1
          try have h2 := hg.2.1
          try dsimp only
          try simp only [List.length_append, List.length_cons, List.length_nil]
          omega
/-- next strictly shrinks the measure when a character is pending. -/
theorem next_mu_lt (s : ScanState) (h : s.current ≠ -1) : (s.next).mu < s.mu := by
  unfold ScanState.next
  dsimp only
  split_ifs <;>
    first
      | exact absurd ‹s.current = -1› h
      | · refine lt_of_le_of_lt (load_mu_bound _) ?_
          dsimp only
          unfold ScanState.mu
          rw [if_neg h]
          omega

/-- At end of input, load leaves the endmarker in place. -/
theorem load_eof_current (s : ScanState) (h : ¬ s.rdoffset < s.text.length) :
    (s.load).current = -1 := by
  rw [load_eof s h]

/-- At the endmarker of a well-formed state, next stays at the endmarker. -/
theorem next_end (s : ScanState) (hw : s.swf) (hc : s.current = -1) :
    (s.next).current = -1 := by
  have hnl : ¬ s.rdoffset < s.text.length := not_lt.mpr (hw hc)
  unfold ScanState.next
  dsimp only
  split_ifs <;>
    first
      | exact absurd hc ‹¬ s.current = -1›
      | exact load_eof_current _ hnl

/-- A zero measure forces the endmarker sentinel. -/
theorem mu_zero_current (s : ScanState) (h : s.mu = 0) : s.current = -1 := by
  unfold ScanState.mu at h
  by_contra hc
  rw [if_neg hc] at h
  omega

/-- In a well-formed state the endmarker sentinel forces a zero measure. -/
theorem mu_zero_of (s : ScanState) (hw : s.swf) (hc : s.current = -1) : s.mu = 0 := by
  have := hw hc
  unfold ScanState.mu
  rw [if_pos hc]
  omega

/-- skipWhitespace does nothing when the current character is not blank. -/
theorem skipWs_id (s : ScanState) (h : isWsRune s.current = false) :
    s.skipWhitespace = s := by
  unfold ScanState.skipWhitespace skipWsF
  rw [h]
  simp

theorem skipWsF_sstep (f : Nat) : ∀ s, sstep s (skipWsF f s) := by
  induction f with
  | zero => exact fun s => sstep_refl s
  | succ f ih =>
    intro s
    unfold skipWsF
    split_ifs with h
    · exact sstep_trans (next_sstep s) (ih s.next)
    · exact sstep_refl s

theorem commentLoopF_sstep (f : Nat) : ∀ s, sstep s (commentLoopF f s) := by
  induction f with
  | zero => exact fun s => sstep_refl s
  | succ f ih =>
    intro s
    unfold commentLoopF
    split_ifs with h
    · exact sstep_trans (next_sstep s) (ih s.next)
    · exact sstep_refl s

theorem identLoopF_sstep (f : Nat) : ∀ s, sstep s (identLoopF f s) := by
  induction f with
  | zero => exact fun s => sstep_refl s
  | succ f ih =>
    intro s
    unfold identLoopF
    split_ifs with h
    · exact sstep_trans (next_sstep s) (ih s.next)
    · exact sstep_refl s

theorem digitsLoopF_sstep (f : Nat) :
    ∀ (base : Nat) (s : ScanState) (inv : Bool) (digits : Nat) (digsep : Bool) (n : Nat),
      sstep s (digitsLoopF f base s inv digits digsep n).2.2.2.2 := by
  induction f with
  | zero => exact fun _ s _ _ _ _ => sstep_refl s
  | succ f ih =>
    intro base s inv digits digsep n
    unfold digitsLoopF
    split_ifs with h1 h2 h3
    · exact sstep_trans (next_sstep s) (ih base s.next inv (digits + 1) true (n + 1))
    · exact sstep_trans (next_sstep s) (ih base s.next inv digits false (n + 1))
    · exact sstep_trans (next_sstep s) (ih base s.next true digits digsep (n + 1))
    · exact sstep_refl s

theorem digits_sstep (s : ScanState) (base : Nat) (lead : Bool) :
    sstep s (s.digits base lead).2 := by
  unfold ScanState.digits
  have h := digitsLoopF_sstep (s.mu + 1) base s false 0 lead 0
  rcases hE : digitsLoopF (s.mu + 1) base s false 0 lead 0 with ⟨inv, digits, digsep, n, s2⟩
  rw [hE] at h
  exact h
theorem escapeHexLoop_sstep (s0 : ScanState) (pos : GoPos)
    (hp : s0.goodPos → pos.line ≤ s0.lines.length) :
    ∀ (n x : Nat) (s : ScanState), sstep s0 s → sstep s0 (escapeHexLoop n pos x s).2 := by
  intro n
  induction n with
  | zero => exact fun x s hs => hs
  | succ n ih =>
    intro x s hs
    unfold escapeHexLoop
    dsimp only
    split_ifs with h
    · exact sstep_err_of (sstep_trans hs (next_sstep s)) pos _ hp
    · exact ih _ s.next (sstep_trans hs (next_sstep s))

theorem escape_sstep (s : ScanState) : sstep s s.escape := by
  have hp : s.goodPos → s.endp.line ≤ s.lines.length := fun hg => hg.2.1
  have hcase : ∀ (n max : Nat),
      sstep s (match escapeHexLoop n s.endp 0 s.next with
        | (none, s1) => s1
        | (some x, s1) =>
          if max < x ∨ (0xD800 ≤ x ∧ x < 0xE000) then
            s1.err s.endp "escape sequence is invalid unicode code point"
          else s1) := by
    intro n max
    have hr := escapeHexLoop_sstep s s.endp hp n 0 s.next (next_sstep s)
    rcases hE : escapeHexLoop n s.endp 0 s.next with ⟨o, s2⟩
    rw [hE] at hr
    cases o with
    | none => exact hr
    | some x =>
      dsimp only
      dsimp only at hr
      split_ifs with h5
      · exact sstep_err_of hr s.endp _ hp
      · exact hr
  unfold ScanState.escape
  dsimp only
  split_ifs with h1 h2 h3 h4
  · exact next_sstep s
  · exact hcase 2 255
  · exact hcase 4 0x10FFFF
  · exact hcase 8 0x10FFFF
  · exact sstep_err_of (next_sstep s) s.endp _ hp
theorem stringLoopF_sstep (f : Nat) : ∀ s, sstep s (stringLoopF f s) := by
  induction f with
  | zero => exact fun s => sstep_refl s
  | succ f ih =>
    intro s
    unfold stringLoopF
    dsimp only
    split_ifs with h1 h2
    · exact sstep_trans (sstep_trans (next_sstep s) (escape_sstep s.next)) (ih _)
    · exact sstep_trans (next_sstep s) (ih _)
    · exact sstep_refl s

theorem switch2_sstep (s : ScanState) (ch : Int) (k0 k1 : TokenKind) :
    sstep s (s.switch2 ch k0 k1).2 := by
  unfold ScanState.switch2
  split_ifs with h
  · exact next_sstep s
  · exact sstep_refl s

theorem skipWhitespace_sstep (s : ScanState) : sstep s s.skipWhitespace :=
  skipWsF_sstep (s.mu + 1) s

theorem scanIdentifier_sstep (s : ScanState) : sstep s (s.scanIdentifier).2 := by
  unfold ScanState.scanIdentifier
  dsimp only
  exact identLoopF_sstep (s.mu + 1) s

theorem scanComment_sstep (s : ScanState) : sstep s (s.scanComment).2 := by
  unfold ScanState.scanComment
  dsimp only
  exact commentLoopF_sstep (s.mu + 1) s

theorem scanString_sstep (s : ScanState) : sstep s (s.scanString).2 := by
  unfold ScanState.scanString
  dsimp only
  split_ifs with h
  · exact sstep_trans (stringLoopF_sstep _ s) (next_sstep _)
  · exact sstep_trans (stringLoopF_sstep _ s) (err_sstep _ _ _ (fun hg => hg.1))

theorem scanNumberExp_sstep (s : ScanState) (base : Nat) (kind : TokenKind)
    (leadingZero invalidSep : Bool) :
    sstep s (s.scanNumberExp base kind leadingZero invalidSep).2 := by
  unfold ScanState.scanNumberExp
  dsimp only
  generalize hEV :
    (if s.current = 101 ∨ s.current = 69 then
      if ((if s.next.current = 43 ∨ s.next.current = 45 then s.next.next
            else s.next).digits base false).1.invalidDigitSep = true then
        (TokenKind.FLOAT, true,
          ((if s.next.current = 43 ∨ s.next.current = 45 then s.next.next
            else s.next).digits base false).2)
      else
        if ((if s.next.current = 43 ∨ s.next.current = 45 then s.next.next
              else s.next).digits base false).1.noDigits = true then
          (TokenKind.FLOAT, invalidSep,
            ((if s.next.current = 43 ∨ s.next.current = 45 then s.next.next
              else s.next).digits base false).2.err
              ((if s.next.current = 43 ∨ s.next.current = 45 then s.next.next
                else s.next).digits base false).2.pos
              "exponent has no digits")
        else
          (TokenKind.FLOAT, invalidSep,
            ((if s.next.current = 43 ∨ s.next.current = 45 then s.next.next
              else s.next).digits base false).2)
    else (kind, invalidSep, s)) = evs
  have h4 : sstep s evs.2.2 := by
    rw [← hEV]
    split_ifs <;>
      repeat
        first
          | exact sstep_refl _
          | refine sstep_trans ?_ (next_sstep _)
          | refine sstep_trans ?_ (digits_sstep _ _ _)
          | refine sstep_trans ?_ (err_sstep _ _ _ (fun hg => hg.1))
  obtain ⟨kind2, invSep2, s2⟩ := evs
  dsimp only at h4 ⊢
  split_ifs <;>
    repeat
      first
        | exact h4
        | refine sstep_trans ?_ (err_sstep _ _ _ (fun hg => hg.1))

theorem scanNumberFrac_sstep (s : ScanState) (base : Nat) (leadingZero invalidSep : Bool) :
    sstep s (s.scanNumberFrac base leadingZero invalidSep).2 := by
  unfold ScanState.scanNumberFrac
  dsimp only
  generalize hFV :
    (if s.current = 46 then
      (TokenKind.FLOAT,
        invalidSep ||
          ((if base ≠ 10 then
              s.err s.endp ("invalid radix point in " ++ litname base ++ " literal")
            else s).next.digits 10 false).1.invalidDigitSep,
        ((if base ≠ 10 then
            s.err s.endp ("invalid radix point in " ++ litname base ++ " literal")
          else s).next.digits 10 false).2)
    else (TokenKind.INTEGER, invalidSep, s)) = fvs
  have h3 : sstep s fvs.2.2 := by
    rw [← hFV]
    split_ifs <;>
      repeat
        first
          | exact sstep_refl _
          | refine sstep_trans ?_ (next_sstep _)
          | refine sstep_trans ?_ (digits_sstep _ _ _)
          | refine sstep_trans ?_ (err_sstep _ _ _ (fun hg => hg.2.1))
  obtain ⟨kind2, invSep2, s2⟩ := fvs
  dsimp only at h3 ⊢
  exact sstep_trans h3 (scanNumberExp_sstep _ _ _ _ _)

theorem scanNumberTail_sstep (s : ScanState) (base : Nat) (leadingZero : Bool) :
    sstep s (s.scanNumberTail base leadingZero).2 := by
  unfold ScanState.scanNumberTail
  dsimp only
  generalize hIV :
    (if s.current ≠ 46 then
      if (s.digits base true).1.invalidDigitSep = true then (true, (s.digits base true).2)
      else if (s.digits base true).1.noDigits = true ∧ base ≠ 10 then
        (false,
          (s.digits base true).2.err (s.digits base true).2.pos
            (litname base ++ " literal has no digits"))
      else (false, (s.digits base true).2)
    else (false, s)) = ivs
  have h2 : sstep s ivs.2 := by
    rw [← hIV]
    split_ifs <;>
      repeat
        first
          | exact sstep_refl _
          | refine sstep_trans ?_ (digits_sstep _ _ _)
          | refine sstep_trans ?_ (err_sstep _ _ _ (fun hg => hg.1))
  obtain ⟨invSep2, s2⟩ := ivs
  dsimp only at h2 ⊢
  exact sstep_trans h2 (scanNumberFrac_sstep _ _ _ _)

theorem scanNumber_sstep (s : ScanState) : sstep s (s.scanNumber).2 := by
  unfold ScanState.scanNumber
  dsimp only
  split_ifs with hA hB hC hD
  · exact sstep_trans (sstep_trans (next_sstep s) (next_sstep s.next))
      (scanNumberTail_sstep _ _ _)
  · exact sstep_trans (sstep_trans (next_sstep s) (next_sstep s.next))
      (scanNumberTail_sstep _ _ _)
  · exact sstep_trans (sstep_trans (next_sstep s) (next_sstep s.next))
      (scanNumberTail_sstep _ _ _)
  · exact sstep_trans (next_sstep s) (scanNumberTail_sstep _ _ _)
  · exact scanNumberTail_sstep _ _ _

/-- The operator arm satisfies the step relation. -/
theorem scanOp_sstep (c : Int) (s : ScanState) : sstep s (ScanState.scanOp c s).2 := by
  unfold ScanState.scanOp
  by_cases h1 : c = -1
  · rw [if_pos h1]
    exact sstep_refl _
  rw [if_neg h1]
  by_cases h2 : c = 10
  · rw [if_pos h2]
    exact sstep_refl _
  rw [if_neg h2]
  by_cases h3 : c = 40
  · rw [if_pos h3]
    exact sstep_refl _
  rw [if_neg h3]
  by_cases h4 : c = 41
  · rw [if_pos h4]
    exact sstep_refl _
  rw [if_neg h4]
  by_cases h5 : c = 91
  · rw [if_pos h5]
    exact sstep_refl _
  rw [if_neg h5]
  by_cases h6 : c = 93
  · rw [if_pos h6]
    exact sstep_refl _
  rw [if_neg h6]
  by_cases h7 : c = 123
  · rw [if_pos h7]
    exact sstep_refl _
  rw [if_neg h7]
  by_cases h8 : c = 125
  · rw [if_pos h8]
    exact sstep_refl _
  rw [if_neg h8]
  by_cases h9 : c = 44
  · rw [if_pos h9]
    exact sstep_refl _
  rw [if_neg h9]
  by_cases h10 : c = 46
  · rw [if_pos h10]
    exact sstep_refl _
  rw [if_neg h10]
  by_cases h11 : c = 58
  · rw [if_pos h11]
    exact sstep_refl _
  rw [if_neg h11]
  by_cases h12 : c = 59
  · rw [if_pos h12]
    exact sstep_refl _
  rw [if_neg h12]
  by_cases h13 : c = 63
  · rw [if_pos h13]
    exact sstep_refl _
  rw [if_neg h13]
  by_cases h14 : c = 61
  · rw [if_pos h14]
    dsimp only
    exact switch2_sstep _ _ _ _
  rw [if_neg h14]
  by_cases h15 : c = 64
  · rw [if_pos h15]
    exact sstep_refl _
  rw [if_neg h15]
  by_cases h16 : c = 43
  · rw [if_pos h16]
    exact sstep_refl _
  rw [if_neg h16]
  by_cases h17 : c = 45
  · rw [if_pos h17]
    dsimp only
    exact switch2_sstep _ _ _ _
  rw [if_neg h17]
  by_cases h18 : c = 42
  · rw [if_pos h18]
    exact sstep_refl _
  rw [if_neg h18]
  by_cases h19 : c = 47
  · rw [if_pos h19]
    exact sstep_refl _
  rw [if_neg h19]
  by_cases h20 : c = 37
  · rw [if_pos h20]
    exact sstep_refl _
  rw [if_neg h20]
  by_cases h21 : c = 38
  · rw [if_pos h21]
    dsimp only
    split_ifs
    · exact switch2_sstep _ _ _ _
    · exact sstep_trans (switch2_sstep _ _ _ _) (err_sstep _ _ _ (fun hg => hg.1))
  rw [if_neg h21]
  by_cases h22 : c = 124
  · rw [if_pos h22]
    dsimp only
    split_ifs
    · exact switch2_sstep _ _ _ _
    · exact sstep_trans (switch2_sstep _ _ _ _) (err_sstep _ _ _ (fun hg => hg.1))
  rw [if_neg h22]
  by_cases h23 : c = 60
  · rw [if_pos h23]
    dsimp only
    exact switch2_sstep _ _ _ _
  rw [if_neg h23]
  by_cases h24 : c = 62
  · rw [if_pos h24]
    dsimp only
    exact switch2_sstep _ _ _ _
  rw [if_neg h24]
  by_cases h25 : c = 33
  · rw [if_pos h25]
    dsimp only
    exact switch2_sstep _ _ _ _
  rw [if_neg h25]
  by_cases h26 : c = 34
  · rw [if_pos h26]
    exact scanString_sstep _
  rw [if_neg h26]
  dsimp only
  exact err_sstep _ _ _ (fun hg => hg.1)

/-- Scan satisfies the step relation. -/
theorem scan_sstep (s : ScanState) : sstep s (s.scan).2 := by
  unfold ScanState.scan
  dsimp only
  generalize hSV :
    ({ text := s.skipWhitespace.text, rdoffset := s.skipWhitespace.rdoffset,
       current := s.skipWhitespace.current, pos := s.skipWhitespace.endp,
       endp := s.skipWhitespace.endp, val := [], line := s.skipWhitespace.line,
       lines := s.skipWhitespace.lines, done := s.skipWhitespace.done,
       errors := s.skipWhitespace.errors } : ScanState) = sv
  have hv : sstep s sv := by
    rw [← hSV]
    exact sstep_trans (skipWhitespace_sstep s)
      (sstep_of_fields _ _ rfl rfl rfl rfl (le_refl _) (fun hg => hg.2.1) (fun hg => hg.2.1))
  split_ifs <;>
    first
      | exact sstep_trans hv (scanIdentifier_sstep _)
      | exact sstep_trans hv (scanNumber_sstep _)
      | exact sstep_trans hv (scanComment_sstep _)
      | exact sstep_trans (sstep_trans hv (next_sstep sv)) (scanOp_sstep _ _)
theorem identBeginning_middle (r : Int) (h : isIdentifierBeginning r = true) :
    isIdentifierMiddle r = true := by
  unfold isIdentifierMiddle
  rw [h]
  rfl

theorem identMiddle_ne (r : Int) (h : isIdentifierMiddle r = true) : r ≠ -1 := by
  intro he
  rw [he] at h
  exact absurd h (by decide)

theorem identLoopF_mu_lt (f : Nat) (s : ScanState) (h : isIdentifierMiddle s.current = true) :
    (identLoopF (f + 1) s).mu < s.mu := by
  unfold identLoopF
  rw [if_pos h]
  exact lt_of_le_of_lt (identLoopF_sstep f s.next).2.1 (next_mu_lt s (identMiddle_ne _ h))

theorem scanIdentifier_mu_lt (s : ScanState) (h : isIdentifierBeginning s.current = true) :
    (s.scanIdentifier).2.mu < s.mu := by
  unfold ScanState.scanIdentifier
  dsimp only
  exact identLoopF_mu_lt s.mu s (identBeginning_middle _ h)

theorem commentLoopF_mu_lt (f : Nat) (s : ScanState) (h1 : s.current ≠ 10)
    (h2 : s.current ≠ -1) : (commentLoopF (f + 1) s).mu < s.mu := by
  unfold commentLoopF
  rw [if_pos ⟨h1, h2⟩]
  exact lt_of_le_of_lt (commentLoopF_sstep f s.next).2.1 (next_mu_lt s h2)

theorem scanComment_mu_lt (s : ScanState) (h : s.current = 47) :
    (s.scanComment).2.mu < s.mu := by
  unfold ScanState.scanComment
  dsimp only
  exact commentLoopF_mu_lt s.mu s (by rw [h]; decide) (by rw [h]; decide)

theorem digit_ne (r : Int) (base : Nat) (h : digitValue r < base) (hb : base ≤ 16) :
    r ≠ -1 := by
  intro he
  rw [he] at h
  have h16 : digitValue (-1) = 16 := by decide
  omega

theorem digitsLoopF_mu_lt (f base : Nat) (s : ScanState) (inv : Bool) (digits : Nat)
    (digsep : Bool) (n : Nat) (h : digitValue s.current < base) (hb : base ≤ 16) :
    (digitsLoopF (f + 1) base s inv digits digsep n).2.2.2.2.mu < s.mu := by
  unfold digitsLoopF
  rw [if_pos h]
  exact lt_of_le_of_lt (digitsLoopF_sstep f base s.next inv (digits + 1) true (n + 1)).2.1
    (next_mu_lt s (digit_ne _ _ h hb))

theorem digits_mu_lt (s : ScanState) (base : Nat) (lead : Bool)
    (h : digitValue s.current < base) (hb : base ≤ 16) :
    (s.digits base lead).2.mu < s.mu := by
  unfold ScanState.digits
  dsimp only
  have hm := digitsLoopF_mu_lt s.mu base s false 0 lead 0 h hb
  rcases hE : digitsLoopF (s.mu + 1) base s false 0 lead 0 with ⟨a, b, c, d, s2⟩
  rw [hE] at hm
  exact hm

theorem decimal_digit (r : Int) (h : isDecimalRune r = true) : digitValue r < 10 := by
  unfold isDecimalRune at h
  simp only [Bool.and_eq_true, decide_eq_true_eq] at h
  unfold digitValue
  rw [if_pos ⟨h.1, h.2⟩]
  omega

theorem decimal_ne46 (r : Int) (h : isDecimalRune r = true) : r ≠ 46 := by
  unfold isDecimalRune at h
  simp only [Bool.and_eq_true, decide_eq_true_eq] at h
  intro he
  rw [he] at h
  omega

theorem scanNumberFrac_mu_lt (s : ScanState) (leadingZero invalidSep : Bool)
    (h46 : s.current = 46) :
    (s.scanNumberFrac 10 leadingZero invalidSep).2.mu < s.mu := by
  unfold ScanState.scanNumberFrac
  dsimp only
  rw [if_pos h46, if_neg (by omega : ¬ (10 : Nat) ≠ 10)]
  dsimp only
  exact lt_of_le_of_lt (scanNumberExp_sstep _ _ _ _ _).2.1
    (lt_of_le_of_lt (digits_sstep s.next 10 false).2.1 (next_mu_lt s (by rw [h46]; decide)))

theorem scanNumberTail_mu_lt (s : ScanState) (base : Nat) (leadingZero : Bool)
    (hb : base ≤ 16)
    (h : (digitValue s.current < base ∧ s.current ≠ 46) ∨ (s.current = 46 ∧ base = 10)) :
    (s.scanNumberTail base leadingZero).2.mu < s.mu := by
  unfold ScanState.scanNumberTail
  dsimp only
  rcases h with ⟨hd, h46⟩ | ⟨h46, hb10⟩
  · rw [if_pos h46]
    split_ifs <;>
      · dsimp only
        exact lt_of_le_of_lt (scanNumberFrac_sstep _ _ _ _).2.1
          (digits_mu_lt s base true hd hb)
  · rw [if_neg (fun hh => hh h46)]
    dsimp only
    subst hb10
    exact scanNumberFrac_mu_lt s leadingZero false h46

theorem scanNumber_mu_lt (s : ScanState)
    (h : isDecimalRune s.current = true ∨
      (s.current = 46 ∧ isDecimalRune (Int.ofNat s.peek) = true)) :
    (s.scanNumber).2.mu < s.mu := by
  unfold ScanState.scanNumber
  dsimp only
  by_cases h48 : s.current = 48
  · rw [if_pos h48]
    have hs1 : s.next.mu < s.mu := next_mu_lt s (by rw [h48]; decide)
    split_ifs with hB hC hD
    · exact lt_of_le_of_lt (scanNumberTail_sstep _ _ _).2.1
        (lt_of_le_of_lt (next_sstep s.next).2.1 hs1)
    · exact lt_of_le_of_lt (scanNumberTail_sstep _ _ _).2.1
        (lt_of_le_of_lt (next_sstep s.next).2.1 hs1)
    · exact lt_of_le_of_lt (scanNumberTail_sstep _ _ _).2.1
        (lt_of_le_of_lt (next_sstep s.next).2.1 hs1)
    · exact lt_of_le_of_lt (scanNumberTail_sstep _ _ _).2.1 hs1
  · rw [if_neg h48]
    refine scanNumberTail_mu_lt s 10 false (by omega) ?_
    rcases h with hd | ⟨h46, hp⟩
    · exact Or.inl ⟨decimal_digit _ hd, decimal_ne46 _ hd⟩
    · exact Or.inr ⟨h46, rfl⟩
theorem keywordKind_ne (v : String) :
    keywordKind v ≠ .ENDMARKER ∧ keywordKind v ≠ .SEMICOLON ∧ keywordKind v ≠ .NEWLINE := by
  unfold keywordKind
  by_cases h1 : v = "as"
  · rw [if_pos h1]
    exact ⟨by decide, by decide, by decide⟩
  rw [if_neg h1]
  by_cases h2 : v = "const"
  · rw [if_pos h2]
    exact ⟨by decide, by decide, by decide⟩
  rw [if_neg h2]
  by_cases h3 : v = "embed"
  · rw [if_pos h3]
    exact ⟨by decide, by decide, by decide⟩
  rw [if_neg h3]
  by_cases h4 : v = "false"
  · rw [if_pos h4]
    exact ⟨by decide, by decide, by decide⟩
  rw [if_neg h4]
  by_cases h5 : v = "import"
  · rw [if_pos h5]
    exact ⟨by decide, by decide, by decide⟩
  rw [if_neg h5]
  by_cases h6 : v = "null"
  · rw [if_pos h6]
    exact ⟨by decide, by decide, by decide⟩
  rw [if_neg h6]
  by_cases h7 : v = "interface"
  · rw [if_pos h7]
    exact ⟨by decide, by decide, by decide⟩
  rw [if_neg h7]
  by_cases h8 : v = "struct"
  · rw [if_pos h8]
    exact ⟨by decide, by decide, by decide⟩
  rw [if_neg h8]
  by_cases h9 : v = "true"
  · rw [if_pos h9]
    exact ⟨by decide, by decide, by decide⟩
  rw [if_neg h9]
  by_cases h10 : v = "type"
  · rw [if_pos h10]
    exact ⟨by decide, by decide, by decide⟩
  rw [if_neg h10]
  by_cases h11 : v = "func"
  · rw [if_pos h11]
    exact ⟨by decide, by decide, by decide⟩
  rw [if_neg h11]
  exact ⟨by decide, by decide, by decide⟩


theorem scanIdentifier_kind_ne (s : ScanState) :
    (s.scanIdentifier).1.kind ≠ .ENDMARKER ∧ (s.scanIdentifier).1.kind ≠ .SEMICOLON ∧
      (s.scanIdentifier).1.kind ≠ .NEWLINE :=
  keywordKind_ne (String.mk (identLoopF (s.mu + 1) s).val)

theorem scanComment_kind (s : ScanState) : (s.scanComment).1.kind = .COMMENT := rfl

theorem scanString_kind (s : ScanState) : (s.scanString).1.kind = .STRING := by
  unfold ScanState.scanString
  dsimp only
  split_ifs <;> rfl

theorem switch2_fst (s : ScanState) (ch : Int) (k0 k1 : TokenKind) :
    (s.switch2 ch k0 k1).1 = k0 ∨ (s.switch2 ch k0 k1).1 = k1 := by
  unfold ScanState.switch2
  split_ifs
  · exact Or.inl rfl
  · exact Or.inr rfl

theorem scanNumberExp_kind_ne (s : ScanState) (base : Nat) (kind : TokenKind)
    (leadingZero invalidSep : Bool) (h : kind = .INTEGER ∨ kind = .FLOAT) :
    (s.scanNumberExp base kind leadingZero invalidSep).1.kind ≠ .ENDMARKER ∧
      (s.scanNumberExp base kind leadingZero invalidSep).1.kind ≠ .SEMICOLON ∧
      (s.scanNumberExp base kind leadingZero invalidSep).1.kind ≠ .NEWLINE := by
  rcases h with h | h <;> subst h <;>
    · unfold ScanState.scanNumberExp
      dsimp only
      split_ifs <;>
        exact ⟨(fun hk => nomatch hk), (fun hk => nomatch hk), (fun hk => nomatch hk)⟩

theorem scanNumberFrac_kind_ne (s : ScanState) (base : Nat) (leadingZero invalidSep : Bool) :
    (s.scanNumberFrac base leadingZero invalidSep).1.kind ≠ .ENDMARKER ∧
      (s.scanNumberFrac base leadingZero invalidSep).1.kind ≠ .SEMICOLON ∧
      (s.scanNumberFrac base leadingZero invalidSep).1.kind ≠ .NEWLINE := by
  unfold ScanState.scanNumberFrac
  dsimp only
  split_ifs with h <;>
    · dsimp only
      first
        | exact scanNumberExp_kind_ne _ _ _ _ _ (Or.inl rfl)
        | exact scanNumberExp_kind_ne _ _ _ _ _ (Or.inr rfl)

theorem scanNumberTail_kind_ne (s : ScanState) (base : Nat) (leadingZero : Bool) :
    (s.scanNumberTail base leadingZero).1.kind ≠ .ENDMARKER ∧
      (s.scanNumberTail base leadingZero).1.kind ≠ .SEMICOLON ∧
      (s.scanNumberTail base leadingZero).1.kind ≠ .NEWLINE := by
  unfold ScanState.scanNumberTail
  dsimp only
  split_ifs <;>
    · dsimp only
      exact scanNumberFrac_kind_ne _ _ _ _

theorem scanNumber_kind_ne (s : ScanState) :
    (s.scanNumber).1.kind ≠ .ENDMARKER ∧ (s.scanNumber).1.kind ≠ .SEMICOLON ∧
      (s.scanNumber).1.kind ≠ .NEWLINE := by
  unfold ScanState.scanNumber
  dsimp only
  split_ifs <;> exact scanNumberTail_kind_ne _ _ _

/-- Inversion for the operator arm: which current characters yield the
ENDMARKER, SEMICOLON and NEWLINE kinds, and the values the former two carry. -/
theorem scanOp_inv (c : Int) (s : ScanState) :
    ((ScanState.scanOp c s).1.kind = .ENDMARKER →
      c = -1 ∧ (ScanState.scanOp c s).1.value = "endmarker") ∧
    ((ScanState.scanOp c s).1.kind = .SEMICOLON → c = 59) ∧
    ((ScanState.scanOp c s).1.kind = .NEWLINE →
      c = 10 ∧ (ScanState.scanOp c s).1.value = "newline") := by
  unfold ScanState.scanOp
  by_cases h1 : c = -1
  · rw [if_pos h1]
    exact ⟨(fun _ => ⟨h1, rfl⟩), (fun hk => nomatch hk), (fun hk => nomatch hk)⟩
  rw [if_neg h1]
  by_cases h2 : c = 10
  · rw [if_pos h2]
    exact ⟨(fun hk => nomatch hk), (fun hk => nomatch hk), (fun _ => ⟨h2, rfl⟩)⟩
  rw [if_neg h2]
  by_cases h3 : c = 40
  · rw [if_pos h3]
    exact ⟨(fun hk => nomatch hk), (fun hk => nomatch hk), (fun hk => nomatch hk)⟩
  rw [if_neg h3]
  by_cases h4 : c = 41
  · rw [if_pos h4]
    exact ⟨(fun hk => nomatch hk), (fun hk => nomatch hk), (fun hk => nomatch hk)⟩
  rw [if_neg h4]
  by_cases h5 : c = 91
  · rw [if_pos h5]
    exact ⟨(fun hk => nomatch hk), (fun hk => nomatch hk), (fun hk => nomatch hk)⟩
  rw [if_neg h5]
  by_cases h6 : c = 93
  · rw [if_pos h6]
    exact ⟨(fun hk => nomatch hk), (fun hk => nomatch hk), (fun hk => nomatch hk)⟩
  rw [if_neg h6]
  by_cases h7 : c = 123
  · rw [if_pos h7]
    exact ⟨(fun hk => nomatch hk), (fun hk => nomatch hk), (fun hk => nomatch hk)⟩
  rw [if_neg h7]
  by_cases h8 : c = 125
  · rw [if_pos h8]
    exact ⟨(fun hk => nomatch hk), (fun hk => nomatch hk), (fun hk => nomatch hk)⟩
  rw [if_neg h8]
  by_cases h9 : c = 44
  · rw [if_pos h9]
    exact ⟨(fun hk => nomatch hk), (fun hk => nomatch hk), (fun hk => nomatch hk)⟩
  rw [if_neg h9]
  by_cases h10 : c = 46
  · rw [if_pos h10]
    exact ⟨(fun hk => nomatch hk), (fun hk => nomatch hk), (fun hk => nomatch hk)⟩
  rw [if_neg h10]
  by_cases h11 : c = 58
  · rw [if_pos h11]
    exact ⟨(fun hk => nomatch hk), (fun hk => nomatch hk), (fun hk => nomatch hk)⟩
  rw [if_neg h11]
  by_cases h12 : c = 59
  · rw [if_pos h12]
    exact ⟨(fun hk => nomatch hk), (fun _ => h12), (fun hk => nomatch hk)⟩
  rw [if_neg h12]
  by_cases h13 : c = 63
  · rw [if_pos h13]
    exact ⟨(fun hk => nomatch hk), (fun hk => nomatch hk), (fun hk => nomatch hk)⟩
  rw [if_neg h13]
  by_cases h14 : c = 61
  · rw [if_pos h14]
    dsimp only
    refine ⟨fun hk => ?_, fun hk => ?_, fun hk => ?_⟩ <;>
      (rcases switch2_fst s _ _ _ with he | he <;> rw [he] at hk <;> exact nomatch hk)
  rw [if_neg h14]
  by_cases h15 : c = 64
  · rw [if_pos h15]
    exact ⟨(fun hk => nomatch hk), (fun hk => nomatch hk), (fun hk => nomatch hk)⟩
  rw [if_neg h15]
  by_cases h16 : c = 43
  · rw [if_pos h16]
    exact ⟨(fun hk => nomatch hk), (fun hk => nomatch hk), (fun hk => nomatch hk)⟩
  rw [if_neg h16]
  by_cases h17 : c = 45
  · rw [if_pos h17]
    dsimp only
    refine ⟨fun hk => ?_, fun hk => ?_, fun hk => ?_⟩ <;>
      (rcases switch2_fst s _ _ _ with he | he <;> rw [he] at hk <;> exact nomatch hk)
  rw [if_neg h17]
  by_cases h18 : c = 42
  · rw [if_pos h18]
    exact ⟨(fun hk => nomatch hk), (fun hk => nomatch hk), (fun hk => nomatch hk)⟩
  rw [if_neg h18]
  by_cases h19 : c = 47
  · rw [if_pos h19]
    exact ⟨(fun hk => nomatch hk), (fun hk => nomatch hk), (fun hk => nomatch hk)⟩
  rw [if_neg h19]
  by_cases h20 : c = 37
  · rw [if_pos h20]
    exact ⟨(fun hk => nomatch hk), (fun hk => nomatch hk), (fun hk => nomatch hk)⟩
  rw [if_neg h20]
  by_cases h21 : c = 38
  · rw [if_pos h21]
    dsimp only
    split_ifs with hA
    · refine ⟨fun hk => ?_, fun hk => ?_, fun hk => ?_⟩ <;>
        (rw [hA] at hk; exact nomatch hk)
    · exact ⟨(fun hk => nomatch hk), (fun hk => nomatch hk), (fun hk => nomatch hk)⟩
  rw [if_neg h21]
  by_cases h22 : c = 124
  · rw [if_pos h22]
    dsimp only
    split_ifs with hA
    · refine ⟨fun hk => ?_, fun hk => ?_, fun hk => ?_⟩ <;>
        (rw [hA] at hk; exact nomatch hk)
    · exact ⟨(fun hk => nomatch hk), (fun hk => nomatch hk), (fun hk => nomatch hk)⟩
  rw [if_neg h22]
  by_cases h23 : c = 60
  · rw [if_pos h23]
    dsimp only
    refine ⟨fun hk => ?_, fun hk => ?_, fun hk => ?_⟩ <;>
      (rcases switch2_fst s _ _ _ with he | he <;> rw [he] at hk <;> exact nomatch hk)
  rw [if_neg h23]
  by_cases h24 : c = 62
  · rw [if_pos h24]
    dsimp only
    refine ⟨fun hk => ?_, fun hk => ?_, fun hk => ?_⟩ <;>
      (rcases switch2_fst s _ _ _ with he | he <;> rw [he] at hk <;> exact nomatch hk)
  rw [if_neg h24]
  by_cases h25 : c = 33
  · rw [if_pos h25]
    dsimp only
    refine ⟨fun hk => ?_, fun hk => ?_, fun hk => ?_⟩ <;>
      (rcases switch2_fst s _ _ _ with he | he <;> rw [he] at hk <;> exact nomatch hk)
  rw [if_neg h25]
  by_cases h26 : c = 34
  · rw [if_pos h26]
    refine ⟨fun hk => ?_, fun hk => ?_, fun hk => ?_⟩ <;>
      (rw [scanString_kind s] at hk; exact nomatch hk)
  rw [if_neg h26]
  exact ⟨(fun hk => nomatch hk), (fun hk => nomatch hk), (fun hk => nomatch hk)⟩
/-- Inversion for Scan: ENDMARKER and SEMICOLON tokens pin down the character
after whitespace, and NEWLINE/ENDMARKER tokens carry fixed values. -/
theorem scan_kind_inv (s : ScanState) :
    ((s.scan).1.kind = .ENDMARKER →
      s.skipWhitespace.current = -1 ∧ (s.scan).1.value = "endmarker") ∧
    ((s.scan).1.kind = .SEMICOLON → s.skipWhitespace.current = 59) ∧
    ((s.scan).1.kind = .NEWLINE → (s.scan).1.value = "newline") := by
  unfold ScanState.scan
  dsimp only
  generalize hSV :
    ({ text := s.skipWhitespace.text, rdoffset := s.skipWhitespace.rdoffset,
       current := s.skipWhitespace.current, pos := s.skipWhitespace.endp,
       endp := s.skipWhitespace.endp, val := [], line := s.skipWhitespace.line,
       lines := s.skipWhitespace.lines, done := s.skipWhitespace.done,
       errors := s.skipWhitespace.errors } : ScanState) = sv
  split_ifs with h1 h2 h3
  · exact ⟨(fun hk => absurd hk (scanIdentifier_kind_ne sv).1),
      (fun hk => absurd hk (scanIdentifier_kind_ne sv).2.1),
      (fun hk => absurd hk (scanIdentifier_kind_ne sv).2.2)⟩
  · exact ⟨(fun hk => absurd hk (scanNumber_kind_ne sv).1),
      (fun hk => absurd hk (scanNumber_kind_ne sv).2.1),
      (fun hk => absurd hk (scanNumber_kind_ne sv).2.2)⟩
  · refine ⟨fun hk => ?_, fun hk => ?_, fun hk => ?_⟩ <;>
      (rw [scanComment_kind sv] at hk; exact nomatch hk)
  · exact ⟨(scanOp_inv _ _).1, (scanOp_inv _ _).2.1,
      (fun hk => ((scanOp_inv _ _).2.2 hk).2)⟩
/-- A non-endmarker token strictly shrinks the measure. -/
theorem scan_strict (s : ScanState) (h : (s.scan).1.kind ≠ .ENDMARKER) :
    (s.scan).2.mu < s.mu := by
  unfold ScanState.scan at h ⊢
  dsimp only at h ⊢
  generalize hSV :
    ({ text := s.skipWhitespace.text, rdoffset := s.skipWhitespace.rdoffset,
       current := s.skipWhitespace.current, pos := s.skipWhitespace.endp,
       endp := s.skipWhitespace.endp, val := [], line := s.skipWhitespace.line,
       lines := s.skipWhitespace.lines, done := s.skipWhitespace.done,
       errors := s.skipWhitespace.errors } : ScanState) = sv at h ⊢
  have hc : sv.current = s.skipWhitespace.current := by rw [← hSV]
  have hmu : sv.mu ≤ s.mu := by
    rw [← hSV]
    exact (skipWhitespace_sstep s).2.1
  split_ifs at h ⊢ with h1 h2 h3
  · exact lt_of_lt_of_le (scanIdentifier_mu_lt sv (by rw [hc]; exact h1)) hmu
  · simp only [Bool.or_eq_true, Bool.and_eq_true, decide_eq_true_eq] at h2
    rw [← hc] at h2
    exact lt_of_lt_of_le (scanNumber_mu_lt sv h2) hmu
  · exact lt_of_lt_of_le (scanComment_mu_lt sv (by rw [hc]; exact h3.1)) hmu
  · by_cases hce : s.skipWhitespace.current = -1
    · rw [hce] at h
      exact absurd rfl h
    · exact lt_of_le_of_lt (scanOp_sstep _ _).2.1
        (lt_of_lt_of_le (next_mu_lt sv (by rw [hc]; exact hce)) hmu)

/-- Whitespace skipping keeps the endmarker in place. -/
theorem skipWs_end (s : ScanState) (hc : s.current = -1) :
    s.skipWhitespace.current = -1 := by
  rw [skipWs_id s (by rw [hc]; rfl)]
  exact hc

/-- At the endmarker, Scan returns an ENDMARKER token. -/
theorem scan_end_kind (s : ScanState) (hc : s.skipWhitespace.current = -1) :
    (s.scan).1.kind = .ENDMARKER := by
  unfold ScanState.scan
  dsimp only
  generalize hSV :
    ({ text := s.skipWhitespace.text, rdoffset := s.skipWhitespace.rdoffset,
       current := s.skipWhitespace.current, pos := s.skipWhitespace.endp,
       endp := s.skipWhitespace.endp, val := [], line := s.skipWhitespace.line,
       lines := s.skipWhitespace.lines, done := s.skipWhitespace.done,
       errors := s.skipWhitespace.errors } : ScanState) = sv
  split_ifs with h1 h2 h3
  · exact absurd h1 (by rw [hc]; decide)
  · exfalso
    rw [hc] at h2
    simp [isDecimalRune] at h2
  · exfalso
    rw [hc] at h3
    exact absurd h3.1 (by decide)
  · rw [hc]
    rfl

/-- At the endmarker of a well-formed state, Scan stays at the endmarker. -/
theorem scan_end_state (s : ScanState) (hw : s.swf) (hc : s.skipWhitespace.current = -1) :
    (s.scan).2.current = -1 ∧ (s.scan).2.swf := by
  unfold ScanState.scan
  dsimp only
  generalize hSV :
    ({ text := s.skipWhitespace.text, rdoffset := s.skipWhitespace.rdoffset,
       current := s.skipWhitespace.current, pos := s.skipWhitespace.endp,
       endp := s.skipWhitespace.endp, val := [], line := s.skipWhitespace.line,
       lines := s.skipWhitespace.lines, done := s.skipWhitespace.done,
       errors := s.skipWhitespace.errors } : ScanState) = sv
  have hcv : sv.current = -1 := by
    rw [← hSV]
    exact hc
  have hwv : sv.swf := by
    rw [← hSV]
    exact (skipWhitespace_sstep s).2.2.1 hw
  split_ifs with h1 h2 h3
  · exact absurd h1 (by rw [hc]; decide)
  · exfalso
    rw [hc] at h2
    simp [isDecimalRune] at h2
  · exfalso
    rw [hc] at h3
    exact absurd h3.1 (by decide)
  · rw [hc]
    exact ⟨next_end sv hwv hcv, (next_sstep sv).2.2.1 hwv⟩

theorem scanStateN_shift (s : ScanState) : ∀ n, scanStateN s (n + 1) = scanStateN ((s.scan).2) n := by
  intro n
  induction n with
  | zero => rfl
  | succ n ih =>
    show (scanStateN s (n + 1)).scan.2 = (scanStateN (s.scan).2 n).scan.2
    rw [ih]

theorem scanInit_swf (text : List Nat) : (scanInit text).swf := by
  unfold scanInit
  dsimp only
  split_ifs with h
  · exact load_swf _
  · exact load_swf _

theorem scanStateN_swf (s : ScanState) (hw : s.swf) : ∀ n, (scanStateN s n).swf := by
  intro n
  induction n with
  | zero => exact hw
  | succ n ih => exact (scan_sstep _).2.2.1 ih

/-- Once the measure is spent, every token is ENDMARKER. -/
theorem scanTokenN_end (s : ScanState) : ∀ n, s.swf → s.mu ≤ n →
    (scanTokenN s n).kind = .ENDMARKER := by
  intro n
  induction n generalizing s with
  | zero =>
    intro hw hm
    have hc : s.current = -1 := mu_zero_current s (Nat.le_zero.mp hm)
    exact scan_end_kind s (skipWs_end s hc)
  | succ n ih =>
    intro hw hm
    have hsh : scanTokenN s (n + 1) = scanTokenN ((s.scan).2) n := by
      unfold scanTokenN
      rw [scanStateN_shift]
    rw [hsh]
    by_cases hk : (s.scan).1.kind = .ENDMARKER
    · obtain ⟨hc2, hw2⟩ := scan_end_state s hw ((scan_kind_inv s).1 hk).1
      have h0 : ((s.scan).2).mu = 0 := mu_zero_of _ hw2 hc2
      exact ih _ hw2 (by omega)
    · have hlt := scan_strict s hk
      have hle := (scan_sstep s).2.1
      exact ih _ ((scan_sstep s).2.2.1 hw) (by omega)
theorem scanStateN_text (s : ScanState) : ∀ n, (scanStateN s n).text = s.text := by
  intro n
  induction n with
  | zero => rfl
  | succ n ih => exact ((scan_sstep _).1).trans ih

theorem scanInit_text (text : List Nat) : (scanInit text).text = text := by
  unfold scanInit
  dsimp only
  split_ifs with h
  · rw [load_text, load_text]
  · rw [load_text]

theorem scanInit_semiInv (text : List Nat) : (scanInit text).semiInv := by
  unfold scanInit
  dsimp only
  split_ifs with h
  · exact load_semiInv _
  · exact load_semiInv _

theorem scanStateN_semiInv (s : ScanState) (h : s.semiInv) : ∀ n, (scanStateN s n).semiInv := by
  intro n
  induction n with
  | zero => exact h
  | succ n ih => exact (scan_sstep _).2.2.2.2.2.1 ih

/-- C9: for every finite input, once the scanner's measure is exhausted every
Scan call returns ENDMARKER, and an ENDMARKER answer is absorbing: every call
after one that returned ENDMARKER returns ENDMARKER again. -/
theorem c9_scan_endmarker_forever (text : List Nat) :
    (∀ n, (scanInit text).mu ≤ n → (scanTokenN (scanInit text) n).kind = .ENDMARKER) ∧
    (∀ m, (scanTokenN (scanInit text) m).kind = .ENDMARKER →
      (scanTokenN (scanInit text) (m + 1)).kind = .ENDMARKER) := by
  constructor
  · intro n hn
    exact scanTokenN_end (scanInit text) n (scanInit_swf text) hn
  · intro m hm
    have hw : (scanStateN (scanInit text) m).swf := scanStateN_swf _ (scanInit_swf text) m
    have hsw := ((scan_kind_inv (scanStateN (scanInit text) m)).1 hm).1
    obtain ⟨hc2, hw2⟩ := scan_end_state _ hw hsw
    exact scan_end_kind _ (skipWs_end _ hc2)

/-- C9 witness: on the one-byte input "x" the scanner's measure is 1, and the
second and third Scan calls both return ENDMARKER. -/
theorem c9_scan_endmarker_forever_witness :
    (scanInit (asciiBytes "x")).mu ≤ 1 ∧
      (scanTokenN (scanInit (asciiBytes "x")) 1).kind = .ENDMARKER ∧
      (scanTokenN (scanInit (asciiBytes "x")) 2).kind = .ENDMARKER :=
  ⟨by decide,
    (c9_scan_endmarker_forever (asciiBytes "x")).1 1 (by decide),
    (c9_scan_endmarker_forever (asciiBytes "x")).2 1
      ((c9_scan_endmarker_forever (asciiBytes "x")).1 1 (by decide))⟩

/-- C3 (amended): Scan emits a SEMICOLON token only when the input contains an
explicit semicolon byte; without one, no call ever returns SEMICOLON. -/
theorem c3_amended_no_semicolon_without_byte (text : List Nat) (n : Nat)
    (hmem : (59 : Nat) ∉ text) :
    (scanTokenN (scanInit text) n).kind ≠ .SEMICOLON := by
  intro hk
  have hsi : (scanStateN (scanInit text) n).semiInv :=
    scanStateN_semiInv _ (scanInit_semiInv text) n
  have hsw : (scanStateN (scanInit text) n).skipWhitespace.current = 59 :=
    (scan_kind_inv _).2.1 hk
  have hsw_si : (scanStateN (scanInit text) n).skipWhitespace.semiInv :=
    (skipWhitespace_sstep _).2.2.2.2.2.1 hsi
  have h59 := hsw_si hsw
  rw [(skipWhitespace_sstep _).1, scanStateN_text, scanInit_text] at h59
  exact hmem h59

/-- C3 witness: the input "a" has no semicolon byte and its first token is not
a SEMICOLON. -/
theorem c3_amended_no_semicolon_without_byte_witness :
    (59 : Nat) ∉ asciiBytes "a" ∧
      (scanTokenN (scanInit (asciiBytes "a")) 0).kind ≠ .SEMICOLON :=
  ⟨by decide, c3_amended_no_semicolon_without_byte (asciiBytes "a") 0 (by decide)⟩
/-- Every token the parser pre-filter hands out is a Scan result. -/
theorem scanFilterF_is_scan (f : Nat) :
    ∀ (nl : Bool) (s : ScanState), ∃ s' : ScanState, scanFilterF f nl s = s'.scan := by
  induction f with
  | zero => exact fun nl s => ⟨s, rfl⟩
  | succ f ih =>
    intro nl s
    unfold scanFilterF
    dsimp only
    cases hk : (s.scan).1.kind <;> dsimp only <;>
      first
        | exact ih nl (s.scan).2
        | (split_ifs
           · exact ⟨s, rfl⟩
           · exact ih nl (s.scan).2)
        | exact ⟨s, rfl⟩

theorem pscan_is_scan (nl : Bool) (s : ScanState) : ∃ s' : ScanState, pscan nl s = s'.scan :=
  scanFilterF_is_scan (s.mu + 1) nl s
/-- C10: a SEMICOLON synthesized by the pre-filter's automatic semicolon
insertion keeps the underlying NEWLINE/ENDMARKER token's position and value
("newline" or "endmarker"), and an expect mismatch at it therefore writes a
diagnostic reading found 'newline' (or found 'endmarker'), never found ';'. -/
theorem c10_asi_value (p : PState)
    (hks : (pscan true p.scanner).1.kind = .NEWLINE ∨
      (pscan true p.scanner).1.kind = .ENDMARKER)
    (hsi : insertSemiGet p.current.kind = some true) :
    ∃ p' : PState, pnext p = .ok p' ∧
      p'.current.kind = .SEMICOLON ∧
      p'.current.pos = (pscan true p.scanner).1.pos ∧
      p'.current.value = (pscan true p.scanner).1.value ∧
      (p'.current.value = "newline" ∨ p'.current.value = "endmarker") ∧
      p'.current.value ≠ ";" ∧
      ∀ k : TokenKind,
        (p'.expectMsg ("'" ++ k.str ++ "'")).scanner.errors =
          p'.scanner.errors ++
            [⟨(pscan true p.scanner).1.pos,
              "expected " ++ ("'" ++ k.str ++ "'") ++ ", found '" ++
                (pscan true p.scanner).1.value ++ "'"⟩] := by
  obtain ⟨s', hs'⟩ := pscan_is_scan true p.scanner
  have hv : (pscan true p.scanner).1.value = "newline" ∨
      (pscan true p.scanner).1.value = "endmarker" := by
    rw [hs'] at hks ⊢
    rcases hks with hk | hk
    · exact Or.inl ((scan_kind_inv s').2.2 hk)
    · exact Or.inr (((scan_kind_inv s').1 hk).2)
  refine ⟨⟨(pscan true p.scanner).2,
      ⟨.SEMICOLON, (pscan true p.scanner).1.pos, (pscan true p.scanner).1.value⟩,
      p.syncPos, p.syncCnt, p.imports, p.symtab⟩,
    ?_, rfl, rfl, rfl, hv, ?_, fun k => rfl⟩
  · unfold pnext
    dsimp only
    rw [if_pos hks, hsi]
  · show (pscan true p.scanner).1.value ≠ ";"
    rcases hv with hv | hv <;> rw [hv] <;> decide

/-- Witness state for C10: the scanner sits at a newline and the last token
returned was an IDENTIFIER (which asks for semicolon insertion). -/
def c10wp : PState :=
  ⟨scanInit (asciiBytes "\n"), ⟨.IDENTIFIER, ⟨0, 0⟩, "x"⟩, ⟨0, 0⟩, 0, [], []⟩

theorem c10_asi_value_witness :
    insertSemiGet c10wp.current.kind = some true ∧
      ∃ p' : PState, pnext c10wp = .ok p' ∧ p'.current.kind = .SEMICOLON ∧
        p'.current.value = "newline" := by
  refine ⟨rfl, ?_⟩
  obtain ⟨p', h1, h2, h3, h4, h5, h6, h7⟩ := c10_asi_value c10wp (Or.inl rfl) rfl
  refine ⟨p', h1, h2, ?_⟩
  rw [h4]
  rfl
mutual

/-- Traversal weight: a measure dominating the walk's recursion (wrapped
child nodes such as the Name inside a QualName weigh less than their
parent). -/
def Node.weight : Node → Nat
  | .bad _ _ => 1
  | .basicLit _ => 1
  | .name _ => 1
  | .qualName _ => 4
  | .unary _ _ e => 1 + e.weight
  | .binary _ l r => 1 + l.weight + r.weight
  | .importSpec _ => 4
  | .constSpec _ e => 3 + e.weight
  | .typeNode _ args => 6 + weightList args
  | .typeAlias _ _ ty => 3 + ty.weight
  | .field _ ty => 3 + ty.weight
  | .structNode _ _ fields => 3 + weightList fields
  | .file nodes => 1 + weightList nodes

def weightList : List Node → Nat
  | [] => 0
  | n :: rest => 1 + n.weight + weightList rest

end

mutual

/-- The number of nodes Walk reaches in a subtree (the node itself plus
every reachable child, wrapped leaf children included). -/
def Node.count : Node → Nat
  | .bad _ _ => 1
  | .basicLit _ => 1
  | .name _ => 1
  | .qualName q => 2 + (match q.module with | some _ => 1 | none => 0)
  | .unary _ _ e => 1 + e.count
  | .binary _ l r => 1 + l.count + r.count
  | .importSpec spec => 2 + (match spec.al with | some _ => 1 | none => 0)
  | .constSpec _ e => 2 + e.count
  | .typeNode nm args => 1 + (2 + (match nm.module with | some _ => 1 | none => 0)) + countList args
  | .typeAlias _ _ ty => 2 + ty.count
  | .field _ ty => 2 + ty.count
  | .structNode _ _ fields => 2 + countList fields
  | .file nodes => 1 + countList nodes

def countList : List Node → Nat
  | [] => 0
  | n :: rest => n.count + countList rest

end

/-- Events recorded by the tracing visitor: subtree entry and exit. -/
inductive WalkEv where
  | enter (n : Node)
  | exitEv (n : Node)
deriving Repr

/-- Modelled from the spec: the visitor protocol Visit(node) -> Visitor? plus
a mandatory Exit(node) post-hook, as a state-threading pair.  visit returns
the updated visitor state (used for the children) and a flag that is false
for a null return, which skips the subtree; exitF runs after the children. -/
structure WalkVisitor (σ : Type) where
  visit : σ → Node → σ × Bool
  exitF : σ → Node → σ

mutual

/-- Modelled from the spec: Walk(v, root) performs pre-order traversal with
the fixed per-variant child order (QualName visits name then optional module;
BinaryExpr visits lhs then rhs; Type visits name then arguments in order;
Struct visits name then fields; File visits nodes in order; the other
variants visit their fields left to right), and calls Exit on return. -/
def walkNode {σ : Type} (V : WalkVisitor σ) : Node → σ → σ
  | n, s =>
    match V.visit s n with
    | (s1, false) => s1
    | (s1, true) =>
      let s2 :=
        match n with
        | .bad _ _ => s1
        | .basicLit _ => s1
        | .name _ => s1
        | .qualName q =>
          let sa := walkNode V (.name q.name) s1
          (match q.module with
           | some m => walkNode V (.name m) sa
           | none => sa)
        | .unary _ _ e => walkNode V e s1
        | .binary _ l r => walkNode V r (walkNode V l s1)
        | .importSpec spec =>
          let sa := walkNode V (.basicLit spec.path) s1
          (match spec.al with
           | some a => walkNode V (.name a) sa
           | none => sa)
        | .constSpec nm e => walkNode V e (walkNode V (.name nm) s1)
        | .typeNode nm args => walkList V args (walkNode V (.qualName nm) s1)
        | .typeAlias _ nm ty => walkNode V ty (walkNode V (.name nm) s1)
        | .field nm ty => walkNode V ty (walkNode V (.name nm) s1)
        | .structNode _ nm fields => walkList V fields (walkNode V (.name nm) s1)
        | .file nodes => walkList V nodes s1
      V.exitF s2 n
termination_by n _ => n.weight
decreasing_by all_goals (simp [Node.weight, weightList] <;> omega)

def walkList {σ : Type} (V : WalkVisitor σ) : List Node → σ → σ
  | [], s => s
  | n :: rest, s => walkList V rest (walkNode V n s)
termination_by l _ => weightList l
decreasing_by all_goals (simp [Node.weight, weightList] <;> omega)

end
/-- The tracing visitor: append an enter event, always descend, append an
exit event afterwards. -/
def traceVisitor : WalkVisitor (List WalkEv) :=
  ⟨fun s n => (s ++ [.enter n], true), fun s n => s ++ [.exitEv n]⟩

mutual

/-- Modelled from the spec: the expected pre-order trace of a subtree, one
enter event, the children's traces in the per-variant order, one exit
event. -/
def preTrace : Node → List WalkEv
  | .bad f t => .enter (.bad f t) :: ([] ++ [.exitEv (.bad f t)])
  | .basicLit l => .enter (.basicLit l) :: ([] ++ [.exitEv (.basicLit l)])
  | .name nm => .enter (.name nm) :: ([] ++ [.exitEv (.name nm)])
  | .qualName q =>
    .enter (.qualName q) ::
      ((preTrace (.name q.name) ++
          (match q.module with
           | some m => preTrace (.name m)
           | none => [])) ++
        [.exitEv (.qualName q)])
  | .unary p op e => .enter (.unary p op e) :: (preTrace e ++ [.exitEv (.unary p op e)])
  | .binary op l r =>
    .enter (.binary op l r) :: ((preTrace l ++ preTrace r) ++ [.exitEv (.binary op l r)])
  | .importSpec spec =>
    .enter (.importSpec spec) ::
      ((preTrace (.basicLit spec.path) ++
          (match spec.al with
           | some a => preTrace (.name a)
           | none => [])) ++
        [.exitEv (.importSpec spec)])
  | .constSpec nm e =>
    .enter (.constSpec nm e) ::
      ((preTrace (.name nm) ++ preTrace e) ++ [.exitEv (.constSpec nm e)])
  | .typeNode nm args =>
    .enter (.typeNode nm args) ::
      ((preTrace (.qualName nm) ++ preTraceList args) ++ [.exitEv (.typeNode nm args)])
  | .typeAlias p nm ty =>
    .enter (.typeAlias p nm ty) ::
      ((preTrace (.name nm) ++ preTrace ty) ++ [.exitEv (.typeAlias p nm ty)])
  | .field nm ty =>
    .enter (.field nm ty) ::
      ((preTrace (.name nm) ++ preTrace ty) ++ [.exitEv (.field nm ty)])
  | .structNode p nm fields =>
    .enter (.structNode p nm fields) ::
      ((preTrace (.name nm) ++ preTraceList fields) ++ [.exitEv (.structNode p nm fields)])
  | .file nodes => .enter (.file nodes) :: (preTraceList nodes ++ [.exitEv (.file nodes)])
termination_by n => n.weight
decreasing_by all_goals (simp [Node.weight, weightList] <;> omega)

def preTraceList : List Node → List WalkEv
  | [] => []
  | n :: rest => preTrace n ++ preTraceList rest
termination_by l => weightList l
decreasing_by all_goals (simp [Node.weight, weightList] <;> omega)

end

/-- How many subtrees a trace enters. -/
def entersCount (l : List WalkEv) : Nat :=
  l.countP (fun ev => match ev with | .enter _ => true | _ => false)

theorem traceVisitor_visit_eq (s : List WalkEv) (n : Node) :
    traceVisitor.visit s n = (s ++ [.enter n], true) := rfl

theorem traceVisitor_exit_eq (s : List WalkEv) (n : Node) :
    traceVisitor.exitF s n = s ++ [.exitEv n] := rfl

theorem walk_trace_aux : ∀ (k : Nat) (n : Node), n.weight < k →
    ((∀ s, walkNode traceVisitor n s = s ++ preTrace n) ∧
      entersCount (preTrace n) = Node.count n) := by
  intro k
  induction k with
  | zero => exact fun n h => absurd h (Nat.not_lt_zero _)
  | succ k ih =>
    have ihl : ∀ l : List Node, weightList l < k + 1 →
        ((∀ s, walkList traceVisitor l s = s ++ preTraceList l) ∧
          entersCount (preTraceList l) = countList l) := by
      intro l
      induction l with
      | nil =>
        intro _
        constructor
        · intro s
          simp [walkList, preTraceList]
        · simp [preTraceList, entersCount, countList]
      | cons x rest ihr =>
        intro hl
        simp only [weightList] at hl
        have hx := ih x (by omega)
        have hr := ihr (by omega)
        constructor
        · intro s
          simp only [walkList]
          rw [hx.1 s, hr.1 _]
          simp [preTraceList, List.append_assoc]
        · have h2 := hx.2
          have h3 := hr.2
          simp only [entersCount, List.countP_append] at h2 h3 ⊢
          simp only [preTraceList, List.countP_append, countList]
          omega
    intro n hn
    cases n with
    | bad f t =>
      refine ⟨fun s => ?_, ?_⟩
      · unfold walkNode
        simp [traceVisitor_visit_eq, traceVisitor_exit_eq, preTrace]
      · simp [preTrace, entersCount, Node.count]
    | basicLit l =>
      refine ⟨fun s => ?_, ?_⟩
      · unfold walkNode
        simp [traceVisitor_visit_eq, traceVisitor_exit_eq, preTrace]
      · simp [preTrace, entersCount, Node.count]
    | name nm =>
      refine ⟨fun s => ?_, ?_⟩
      · unfold walkNode
        simp [traceVisitor_visit_eq, traceVisitor_exit_eq, preTrace]
      · simp [preTrace, entersCount, Node.count]
    | unary p op e =>
      simp only [Node.weight] at hn
      have he := ih e (by omega)
      refine ⟨fun s => ?_, ?_⟩
      · unfold walkNode
        simp only [traceVisitor_visit_eq, traceVisitor_exit_eq]
        rw [he.1 _]
        simp [preTrace, List.append_assoc]
      · have h2 := he.2
        simp only [entersCount, List.countP_append, List.countP_cons] at h2 ⊢
        simp only [preTrace, Node.count, List.countP_append, List.countP_cons]
        simp <;> omega
    | qualName q =>
      simp only [Node.weight] at hn
      have hname := ih (.name q.name) (by simp [Node.weight]; omega)
      refine ⟨fun s => ?_, ?_⟩
      · unfold walkNode
        simp only [traceVisitor_visit_eq, traceVisitor_exit_eq]
        cases hqm : q.module with
        | none =>
          rw [hname.1 _]
          simp [preTrace, hqm, List.append_assoc]
        | some m =>
          dsimp only
          rw [hname.1 _, (ih (.name m) (by simp [Node.weight]; omega)).1 _]
          simp [preTrace, hqm, List.append_assoc]
      · cases hqm : q.module <;>
          simp [preTrace, hqm, entersCount, Node.count, List.countP_append,
            List.countP_cons]
    | binary op l r =>
      simp only [Node.weight] at hn
      have hl := ih l (by omega)
      have hr := ih r (by omega)
      refine ⟨fun s => ?_, ?_⟩
      · unfold walkNode
        simp only [traceVisitor_visit_eq, traceVisitor_exit_eq]
        rw [hl.1 _, hr.1 _]
        simp [preTrace, List.append_assoc]
      · have h2 := hl.2
        have h3 := hr.2
        simp only [entersCount, List.countP_append, List.countP_cons] at h2 h3 ⊢
        simp only [preTrace, Node.count, List.countP_append, List.countP_cons]
        simp at h2 h3 ⊢ <;> omega
    | importSpec spec =>
      simp only [Node.weight] at hn
      have hpath := ih (.basicLit spec.path) (by simp [Node.weight]; omega)
      refine ⟨fun s => ?_, ?_⟩
      · unfold walkNode
        simp only [traceVisitor_visit_eq, traceVisitor_exit_eq]
        cases hal : spec.al with
        | none =>
          rw [hpath.1 _]
          simp [preTrace, hal, List.append_assoc]
        | some a =>
          dsimp only
          rw [hpath.1 _, (ih (.name a) (by simp [Node.weight]; omega)).1 _]
          simp [preTrace, hal, List.append_assoc]
      · cases hal : spec.al <;>
          simp [preTrace, hal, entersCount, Node.count, List.countP_append,
            List.countP_cons]
    | constSpec nm e =>
      simp only [Node.weight] at hn
      have hname := ih (.name nm) (by simp [Node.weight]; omega)
      have he := ih e (by omega)
      refine ⟨fun s => ?_, ?_⟩
      · unfold walkNode
        simp only [traceVisitor_visit_eq, traceVisitor_exit_eq]
        rw [hname.1 _, he.1 _]
        simp [preTrace, List.append_assoc]
      · have h2 := he.2
        simp only [entersCount, List.countP_append, List.countP_cons] at h2 ⊢
        simp only [preTrace, Node.count, List.countP_append, List.countP_cons]
        simp at h2 ⊢ <;> omega
    | typeNode nm args =>
      simp only [Node.weight] at hn
      have hq := ih (.qualName nm) (by simp [Node.weight]; omega)
      have hargs := ihl args (by omega)
      refine ⟨fun s => ?_, ?_⟩
      · unfold walkNode
        simp only [traceVisitor_visit_eq, traceVisitor_exit_eq]
        rw [hq.1 _, hargs.1 _]
        simp [preTrace, List.append_assoc]
      · have h2 := hq.2
        have h3 := hargs.2
        cases hm : nm.module <;>
          · simp only [entersCount, List.countP_append, List.countP_cons] at h2 h3 ⊢
            simp only [preTrace, Node.count, hm, List.countP_append,
              List.countP_cons] at h2 ⊢
            simp at h2 h3 ⊢ <;> omega
    | typeAlias p nm ty =>
      simp only [Node.weight] at hn
      have hname := ih (.name nm) (by simp [Node.weight]; omega)
      have hty := ih ty (by omega)
      refine ⟨fun s => ?_, ?_⟩
      · unfold walkNode
        simp only [traceVisitor_visit_eq, traceVisitor_exit_eq]
        rw [hname.1 _, hty.1 _]
        simp [preTrace, List.append_assoc]
      · have h2 := hty.2
        simp only [entersCount, List.countP_append, List.countP_cons] at h2 ⊢
        simp only [preTrace, Node.count, List.countP_append, List.countP_cons]
        simp at h2 ⊢ <;> omega
    | field nm ty =>
      simp only [Node.weight] at hn
      have hname := ih (.name nm) (by simp [Node.weight]; omega)
      have hty := ih ty (by omega)
      refine ⟨fun s => ?_, ?_⟩
      · unfold walkNode
        simp only [traceVisitor_visit_eq, traceVisitor_exit_eq]
        rw [hname.1 _, hty.1 _]
        simp [preTrace, List.append_assoc]
      · have h2 := hty.2
        simp only [entersCount, List.countP_append, List.countP_cons] at h2 ⊢
        simp only [preTrace, Node.count, List.countP_append, List.countP_cons]
        simp at h2 ⊢ <;> omega
    | structNode p nm fields =>
      simp only [Node.weight] at hn
      have hname := ih (.name nm) (by simp [Node.weight]; omega)
      have hargs := ihl fields (by omega)
      refine ⟨fun s => ?_, ?_⟩
      · unfold walkNode
        simp only [traceVisitor_visit_eq, traceVisitor_exit_eq]
        rw [hname.1 _, hargs.1 _]
        simp [preTrace, List.append_assoc]
      · have h3 := hargs.2
        simp only [entersCount, List.countP_append, List.countP_cons] at h3 ⊢
        simp only [preTrace, Node.count, List.countP_append, List.countP_cons]
        simp at h3 ⊢ <;> omega
    | file nodes =>
      simp only [Node.weight] at hn
      have hargs := ihl nodes (by omega)
      refine ⟨fun s => ?_, ?_⟩
      · unfold walkNode
        simp only [traceVisitor_visit_eq, traceVisitor_exit_eq]
        rw [hargs.1 _]
        simp [preTrace, List.append_assoc]
      · have h3 := hargs.2
        simp only [entersCount, List.countP_append, List.countP_cons] at h3 ⊢
        simp only [preTrace, Node.count, List.countP_append, List.countP_cons]
        simp at h3 ⊢ <;> omega

/-- C6: Walk first consults Visit and a null answer skips the subtree with
Exit not run; with the always-descending tracing visitor the walk of any
node appends exactly the spec's pre-order trace, which starts by entering
that node, ends by exiting it, and enters as many subtrees as the subtree
has nodes (every node is visited); in particular this holds for the File
of every successful Parse, and the walk is total (never panics). -/
theorem c6_walk_preorder :
    (∀ (σ : Type) (V : WalkVisitor σ) (n : Node) (s : σ),
        (V.visit s n).2 = false → walkNode V n s = (V.visit s n).1) ∧
    (∀ (n : Node) (s : List WalkEv), walkNode traceVisitor n s = s ++ preTrace n) ∧
    (∀ n : Node, ∃ rest, preTrace n = .enter n :: rest) ∧
    (∀ n : Node, (preTrace n).getLast? = some (.exitEv n)) ∧
    (∀ n : Node, entersCount (preTrace n) = Node.count n) ∧
    (∀ (text : List Nat) (pf : ParsedFile), parseGo text = .ok pf →
      ∀ s, walkNode traceVisitor (.file pf.file) s = s ++ preTrace (.file pf.file)) := by
  refine ⟨?_, ?_, ?_, ?_, ?_, ?_⟩
  · intro σ V n s h
    unfold walkNode
    rcases hv : V.visit s n with ⟨s1, b⟩
    have hb : b = false := by
      rw [hv] at h
      exact h
    subst hb
    rfl
  · exact fun n s => (walk_trace_aux (n.weight + 1) n (Nat.lt_succ_self _)).1 s
  · intro n
    cases n <;>
      · simp only [preTrace]
        exact ⟨_, rfl⟩
  · intro n
    cases n <;>
      · simp only [preTrace]
        rw [← List.cons_append]
        exact List.getLast?_concat _
  · exact fun n => (walk_trace_aux (n.weight + 1) n (Nat.lt_succ_self _)).2
  · exact fun text pf _ s => (walk_trace_aux _ _ (Nat.lt_succ_self _)).1 s

/-- C6 witness: a concrete visitor answering "skip" on a leaf node leaves its
state untouched. -/
theorem c6_walk_preorder_witness :
    ((⟨fun s _ => (s, false), fun s _ => s⟩ : WalkVisitor Nat).visit 0
        (.bad ⟨0, 0⟩ ⟨0, 0⟩)).2 = false ∧
      walkNode (⟨fun s _ => (s, false), fun s _ => s⟩ : WalkVisitor Nat)
        (.bad ⟨0, 0⟩ ⟨0, 0⟩) 0 = 0 :=
  ⟨rfl, c6_walk_preorder.1 Nat ⟨fun s _ => (s, false), fun s _ => s⟩
    (.bad ⟨0, 0⟩ ⟨0, 0⟩) 0 rfl⟩
theorem scanIdentifier_tok_pos (s : ScanState) :
    (s.scanIdentifier).1.pos = (s.scanIdentifier).2.pos := rfl

theorem scanComment_tok_pos (s : ScanState) :
    (s.scanComment).1.pos = (s.scanComment).2.pos := rfl

theorem scanString_tok_pos (s : ScanState) :
    (s.scanString).1.pos = (s.scanString).2.pos := by
  unfold ScanState.scanString
  dsimp only
  split_ifs <;> rfl

theorem scanNumberExp_tok_pos (s : ScanState) (base : Nat) (kind : TokenKind)
    (leadingZero invalidSep : Bool) :
    (s.scanNumberExp base kind leadingZero invalidSep).1.pos =
      (s.scanNumberExp base kind leadingZero invalidSep).2.pos := by
  unfold ScanState.scanNumberExp
  dsimp only
  split_ifs <;> rfl

theorem scanNumberFrac_tok_pos (s : ScanState) (base : Nat) (leadingZero invalidSep : Bool) :
    (s.scanNumberFrac base leadingZero invalidSep).1.pos =
      (s.scanNumberFrac base leadingZero invalidSep).2.pos := by
  unfold ScanState.scanNumberFrac
  dsimp only
  split_ifs <;>
    · dsimp only
      exact scanNumberExp_tok_pos _ _ _ _ _

theorem scanNumberTail_tok_pos (s : ScanState) (base : Nat) (leadingZero : Bool) :
    (s.scanNumberTail base leadingZero).1.pos = (s.scanNumberTail base leadingZero).2.pos := by
  unfold ScanState.scanNumberTail
  dsimp only
  split_ifs <;>
    · dsimp only
      exact scanNumberFrac_tok_pos _ _ _ _

theorem scanNumber_tok_pos (s : ScanState) :
    (s.scanNumber).1.pos = (s.scanNumber).2.pos := by
  unfold ScanState.scanNumber
  dsimp only
  split_ifs <;> exact scanNumberTail_tok_pos _ _ _

/-- Every token the operator arm returns carries the result state's token
position. -/
theorem scanOp_tok_pos (c : Int) (s : ScanState) :
    (ScanState.scanOp c s).1.pos = (ScanState.scanOp c s).2.pos := by
  unfold ScanState.scanOp
  by_cases h1 : c = -1
  · rw [if_pos h1]
    rfl
  rw [if_neg h1]
  by_cases h2 : c = 10
  · rw [if_pos h2]
    rfl
  rw [if_neg h2]
  by_cases h3 : c = 40
  · rw [if_pos h3]
    rfl
  rw [if_neg h3]
  by_cases h4 : c = 41
  · rw [if_pos h4]
    rfl
  rw [if_neg h4]
  by_cases h5 : c = 91
  · rw [if_pos h5]
    rfl
  rw [if_neg h5]
  by_cases h6 : c = 93
  · rw [if_pos h6]
    rfl
  rw [if_neg h6]
  by_cases h7 : c = 123
  · rw [if_pos h7]
    rfl
  rw [if_neg h7]
  by_cases h8 : c = 125
  · rw [if_pos h8]
    rfl
  rw [if_neg h8]
  by_cases h9 : c = 44
  · rw [if_pos h9]
    rfl
  rw [if_neg h9]
  by_cases h10 : c = 46
  · rw [if_pos h10]
    rfl
  rw [if_neg h10]
  by_cases h11 : c = 58
  · rw [if_pos h11]
    rfl
  rw [if_neg h11]
  by_cases h12 : c = 59
  · rw [if_pos h12]
    rfl
  rw [if_neg h12]
  by_cases h13 : c = 63
  · rw [if_pos h13]
    rfl
  rw [if_neg h13]
  by_cases h14 : c = 61
  · rw [if_pos h14]
    rfl
  rw [if_neg h14]
  by_cases h15 : c = 64
  · rw [if_pos h15]
    rfl
  rw [if_neg h15]
  by_cases h16 : c = 43
  · rw [if_pos h16]
    rfl
  rw [if_neg h16]
  by_cases h17 : c = 45
  · rw [if_pos h17]
    rfl
  rw [if_neg h17]
  by_cases h18 : c = 42
  · rw [if_pos h18]
    rfl
  rw [if_neg h18]
  by_cases h19 : c = 47
  · rw [if_pos h19]
    rfl
  rw [if_neg h19]
  by_cases h20 : c = 37
  · rw [if_pos h20]
    rfl
  rw [if_neg h20]
  by_cases h21 : c = 38
  · rw [if_pos h21]
    dsimp only
    split_ifs with hA
    · rfl
    · rfl
  rw [if_neg h21]
  by_cases h22 : c = 124
  · rw [if_pos h22]
    dsimp only
    split_ifs with hA
    · rfl
    · rfl
  rw [if_neg h22]
  by_cases h23 : c = 60
  · rw [if_pos h23]
    rfl
  rw [if_neg h23]
  by_cases h24 : c = 62
  · rw [if_pos h24]
    rfl
  rw [if_neg h24]
  by_cases h25 : c = 33
  · rw [if_pos h25]
    rfl
  rw [if_neg h25]
  by_cases h26 : c = 34
  · rw [if_pos h26]
    exact scanString_tok_pos _
  rw [if_neg h26]
  rfl

/-- Every Scan token carries the result state's token position. -/
theorem scan_tok_pos (s : ScanState) : (s.scan).1.pos = (s.scan).2.pos := by
  unfold ScanState.scan
  dsimp only
  split_ifs
  · exact scanIdentifier_tok_pos _
  · exact scanNumber_tok_pos _
  · exact scanComment_tok_pos _
  · exact scanOp_tok_pos _ _

/-! ## Parser progress and sanity invariants -/

theorem sstep_errs {s t : ScanState} (h : sstep s t) : ∀ e ∈ s.errors, e ∈ t.errors :=
  h.2.2.2.1

theorem sstep_mu {s t : ScanState} (h : sstep s t) : t.mu ≤ s.mu :=
  h.2.1

theorem sstep_goodPos {s t : ScanState} (h : sstep s t) : s.goodPos → t.goodPos :=
  h.2.2.2.2.2.2

theorem sstep_lines {s t : ScanState} (h : sstep s t) : s.lines.length ≤ t.lines.length :=
  h.2.2.2.2.1

/-- Each token the parser-side scan filter returns shares its position with
the result state; the state advances by sstep; a non-ENDMARKER token
witnesses strict scanner progress. -/
theorem scanFilterF_lem (f : Nat) : ∀ (nl : Bool) (s : ScanState),
    sstep s (scanFilterF f nl s).2 ∧
    (scanFilterF f nl s).1.pos = (scanFilterF f nl s).2.pos ∧
    ((scanFilterF f nl s).1.kind ≠ TokenKind.ENDMARKER →
      (scanFilterF f nl s).2.mu < s.mu) := by
  induction f with
  | zero => exact fun nl s => ⟨scan_sstep s, scan_tok_pos s, fun h => scan_strict s h⟩
  | succ f ih =>
    intro nl s
    dsimp only [scanFilterF]
    cases hk : (s.scan).1.kind <;> dsimp only
    all_goals first
      | exact ⟨scan_sstep s, scan_tok_pos s, fun h => scan_strict s h⟩
      | exact ⟨sstep_trans (scan_sstep s) (ih nl (s.scan).2).1, (ih nl (s.scan).2).2.1,
          fun _ => lt_of_le_of_lt (ih nl (s.scan).2).1.2.1 (scan_strict s (by rw [hk]; decide))⟩
      | (split_ifs with hnl
         · exact ⟨scan_sstep s, scan_tok_pos s, fun h => scan_strict s h⟩
         · exact ⟨sstep_trans (scan_sstep s) (ih nl (s.scan).2).1, (ih nl (s.scan).2).2.1,
             fun _ => lt_of_le_of_lt (ih nl (s.scan).2).1.2.1 (scan_strict s (by rw [hk]; decide))⟩)

/-- parser.scan: sstep, token/state position agreement, and strict progress
on non-ENDMARKER results. -/
theorem pscan_lem (nl : Bool) (s : ScanState) :
    sstep s (pscan nl s).2 ∧ (pscan nl s).1.pos = (pscan nl s).2.pos ∧
    ((pscan nl s).1.kind ≠ TokenKind.ENDMARKER → (pscan nl s).2.mu < s.mu) :=
  scanFilterF_lem (s.mu + 1) nl s

theorem insemi_end : insertSemiGet TokenKind.ENDMARKER = some false := by decide

theorem insemi_semi : insertSemiGet TokenKind.SEMICOLON = some false := by decide

/-- Parser-state sanity: the scanner state satisfies position sanity and
the current token lies on a recorded or in-progress line. -/
def PInv (p : PState) : Prop :=
  p.scanner.goodPos ∧ p.current.pos.line ≤ p.scanner.lines.length

/-- Diagnostics are only added between two parser states. -/
def errsub (p q : PState) : Prop :=
  ∀ e ∈ p.scanner.errors, e ∈ q.scanner.errors

theorem errsub_refl (p : PState) : errsub p p := fun _ he => he

theorem errsub_trans {p q r : PState} (h1 : errsub p q) (h2 : errsub q r) : errsub p r :=
  fun e he => h2 e (h1 e he)

theorem pnu_le (p : PState) : pnu p ≤ 3 * p.scanner.mu + 2 := by
  unfold pnu
  split_ifs <;> omega

theorem pnu_ge (p : PState) : 3 * p.scanner.mu ≤ pnu p := by
  unfold pnu
  split_ifs <;> omega

theorem pnu_end (p : PState) (h : p.current.kind = TokenKind.ENDMARKER) :
    pnu p = 3 * p.scanner.mu := by
  unfold pnu
  rw [h, insemi_end, if_pos rfl, if_neg (by decide)]
  omega

theorem pnu_nonend (p : PState) (h : p.current.kind ≠ TokenKind.ENDMARKER)
    (h2 : insertSemiGet p.current.kind = some false) :
    pnu p = 3 * p.scanner.mu + 1 := by
  unfold pnu
  rw [if_neg h, h2, if_neg (by decide)]

theorem pnu_semi (p : PState) (h : p.current.kind = TokenKind.SEMICOLON) :
    pnu p = 3 * p.scanner.mu + 1 :=
  pnu_nonend p (by rw [h]; decide) (by rw [h]; exact insemi_semi)

theorem pnu_semiTrue (p : PState) (h : insertSemiGet p.current.kind = some true) :
    pnu p = 3 * p.scanner.mu + 2 := by
  have hne : p.current.kind ≠ TokenKind.ENDMARKER := by
    intro hE
    rw [hE, insemi_end] at h
    exact nomatch h
  unfold pnu
  rw [if_neg hne, h, if_pos rfl]

/-- parser.next: never exhausts fuel; on success diagnostics only grow, the
parser measure does not grow (strictly shrinking unless the current token
is already ENDMARKER), and sanity is preserved. -/
theorem pnext_lem (p : PState) :
    pnext p ≠ PRes.nofuel ∧
    ∀ p', pnext p = PRes.ok p' →
      errsub p p' ∧ pnu p' ≤ pnu p ∧
      (p.current.kind ≠ TokenKind.ENDMARKER → pnu p' < pnu p) ∧
      (PInv p → PInv p') := by
  have h1 := pscan_lem true p.scanner
  have hm1 : (pscan true p.scanner).2.mu ≤ p.scanner.mu := sstep_mu h1.1
  have hge : 3 * p.scanner.mu ≤ pnu p := pnu_ge p
  unfold pnext
  dsimp only
  split_ifs with hk
  · rcases hsi : insertSemiGet p.current.kind with _ | b
    · exact ⟨(fun h => nomatch h), (fun p' h => nomatch h)⟩
    · cases b
      · -- insert_semi false: pull a second token with newline filtering on
        have h2 := pscan_lem false (pscan true p.scanner).2
        have hm2 : (pscan false (pscan true p.scanner).2).2.mu ≤ (pscan true p.scanner).2.mu :=
          sstep_mu h2.1
        refine ⟨(fun h => nomatch h), ?_⟩
        intro p' hok
        injection hok with hok
        subst hok
        refine ⟨fun e he => sstep_errs h2.1 e (sstep_errs h1.1 e he), ?_, ?_, ?_⟩
        · by_cases hE2 : (pscan false (pscan true p.scanner).2).1.kind = TokenKind.ENDMARKER
          · have hpe : pnu ⟨(pscan false (pscan true p.scanner).2).2,
                (pscan false (pscan true p.scanner).2).1,
                p.syncPos, p.syncCnt, p.imports, p.symtab⟩ =
                3 * (pscan false (pscan true p.scanner).2).2.mu := pnu_end _ hE2
            omega
          · have hm2s : (pscan false (pscan true p.scanner).2).2.mu <
                (pscan true p.scanner).2.mu := h2.2.2 hE2
            have hle : pnu ⟨(pscan false (pscan true p.scanner).2).2,
                (pscan false (pscan true p.scanner).2).1,
                p.syncPos, p.syncCnt, p.imports, p.symtab⟩ ≤
                3 * (pscan false (pscan true p.scanner).2).2.mu + 2 := pnu_le _
            omega
        · intro hc
          have hold : pnu p = 3 * p.scanner.mu + 1 := pnu_nonend p hc hsi
          by_cases hE2 : (pscan false (pscan true p.scanner).2).1.kind = TokenKind.ENDMARKER
          · have hpe : pnu ⟨(pscan false (pscan true p.scanner).2).2,
                (pscan false (pscan true p.scanner).2).1,
                p.syncPos, p.syncCnt, p.imports, p.symtab⟩ =
                3 * (pscan false (pscan true p.scanner).2).2.mu := pnu_end _ hE2
            omega
          · have hm2s : (pscan false (pscan true p.scanner).2).2.mu <
                (pscan true p.scanner).2.mu := h2.2.2 hE2
            have hle : pnu ⟨(pscan false (pscan true p.scanner).2).2,
                (pscan false (pscan true p.scanner).2).1,
                p.syncPos, p.syncCnt, p.imports, p.symtab⟩ ≤
                3 * (pscan false (pscan true p.scanner).2).2.mu + 2 := pnu_le _
            omega
        · intro hp
          have hg : (pscan false (pscan true p.scanner).2).2.goodPos :=
            sstep_goodPos h2.1 (sstep_goodPos h1.1 hp.1)
          refine ⟨hg, ?_⟩
          show (pscan false (pscan true p.scanner).2).1.pos.line ≤ _
          rw [h2.2.1]
          exact hg.1
      · -- insert_semi true: synthesize a SEMICOLON carrying the token's data
        refine ⟨(fun h => nomatch h), ?_⟩
        intro p' hok
        injection hok with hok
        subst hok
        have hsemi : pnu ⟨(pscan true p.scanner).2,
            ⟨TokenKind.SEMICOLON, (pscan true p.scanner).1.pos, (pscan true p.scanner).1.value⟩,
            p.syncPos, p.syncCnt, p.imports, p.symtab⟩ =
            3 * (pscan true p.scanner).2.mu + 1 := pnu_semi _ rfl
        have hold : pnu p = 3 * p.scanner.mu + 2 := pnu_semiTrue p hsi
        refine ⟨fun e he => sstep_errs h1.1 e he, by omega, fun _ => by omega, ?_⟩
        intro hp
        have hg : (pscan true p.scanner).2.goodPos := sstep_goodPos h1.1 hp.1
        refine ⟨hg, ?_⟩
        show (pscan true p.scanner).1.pos.line ≤ _
        rw [h1.2.1]
        exact hg.1
  · refine ⟨(fun h => nomatch h), ?_⟩
    intro p' hok
    injection hok with hok
    subst hok
    have hne : (pscan true p.scanner).1.kind ≠ TokenKind.ENDMARKER := fun h => hk (Or.inr h)
    have hm1s : (pscan true p.scanner).2.mu < p.scanner.mu := h1.2.2 hne
    have hle : pnu ⟨(pscan true p.scanner).2, (pscan true p.scanner).1,
        p.syncPos, p.syncCnt, p.imports, p.symtab⟩ ≤
        3 * (pscan true p.scanner).2.mu + 2 := pnu_le _
    refine ⟨fun e he => sstep_errs h1.1 e he, by omega, fun _ => by omega, ?_⟩
    intro hp
    have hg : (pscan true p.scanner).2.goodPos := sstep_goodPos h1.1 hp.1
    refine ⟨hg, ?_⟩
    show (pscan true p.scanner).1.pos.line ≤ _
    rw [h1.2.1]
    exact hg.1

/-- parser.expectMsg: appends one diagnostic at the current token, changing
nothing else that the measures or invariants see. -/
theorem expectMsg_lem (p : PState) (m : String) :
    errsub p (p.expectMsg m) ∧ pnu (p.expectMsg m) = pnu p ∧
    (PInv p → PInv (p.expectMsg m)) ∧ (p.expectMsg m).current = p.current := by
  refine ⟨?_, rfl, ?_, rfl⟩
  · intro e he
    exact List.mem_append.mpr (Or.inl he)
  · intro hp
    exact ⟨sstep_goodPos (err_sstep p.scanner p.current.pos _ (fun _ => hp.2)) hp.1, hp.2⟩

/-- parser.err at the current token's position: same footprint as
expectMsg. -/
theorem perr_cur_lem (p : PState) (m : String) :
    errsub p (p.perr p.current.pos m) ∧ pnu (p.perr p.current.pos m) = pnu p ∧
    (PInv p → PInv (p.perr p.current.pos m)) ∧ (p.perr p.current.pos m).current = p.current := by
  refine ⟨?_, rfl, ?_, rfl⟩
  · intro e he
    exact List.mem_append.mpr (Or.inl he)
  · intro hp
    exact ⟨sstep_goodPos (err_sstep p.scanner p.current.pos _ (fun _ => hp.2)) hp.1, hp.2⟩

/-- parser.expect: never exhausts fuel; on success diagnostics only grow,
the measure does not grow (strictly unless at ENDMARKER), sanity is
preserved. -/
theorem pexpect_lem (k : TokenKind) (p : PState) :
    pexpect k p ≠ PRes.nofuel ∧
    ∀ t p', pexpect k p = PRes.ok (t, p') →
      errsub p p' ∧ pnu p' ≤ pnu p ∧
      (p.current.kind ≠ TokenKind.ENDMARKER → pnu p' < pnu p) ∧
      (PInv p → PInv p') := by
  unfold pexpect
  dsimp only
  split_ifs with hne
  · have hm := expectMsg_lem p (String.append (String.append "'" k.str) "'")
    have hn := pnext_lem (p.expectMsg (String.append (String.append "'" k.str) "'"))
    rcases hx : pnext (p.expectMsg (String.append (String.append "'" k.str) "'")) with q | _ | _
    rotate_left
    · exact ⟨(fun h => nomatch h), (fun t p' h => nomatch h)⟩
    · exact absurd hx hn.1
    refine ⟨(fun h => nomatch h), ?_⟩
    intro t p' hok
    injection hok with hok
    injection hok with ht hp'
    subst hp'
    have ha := hn.2 q hx
    have hb := hm.2.1
    refine ⟨errsub_trans hm.1 ha.1, by omega, ?_, fun hp => ha.2.2.2 (hm.2.2.1 hp)⟩
    intro hc
    have := ha.2.2.1 hc
    omega
  · have hn := pnext_lem p
    rcases hx : pnext p with q | _ | _
    rotate_left
    · exact ⟨(fun h => nomatch h), (fun t p' h => nomatch h)⟩
    · exact absurd hx hn.1
    refine ⟨(fun h => nomatch h), ?_⟩
    intro t p' hok
    injection hok with hok
    injection hok with ht hp'
    subst hp'
    have ha := hn.2 q hx
    exact ⟨ha.1, ha.2.1, ha.2.2.1, ha.2.2.2⟩

/-- parser.accept: never exhausts fuel; on success diagnostics only grow,
the measure does not grow, sanity is preserved. -/
theorem paccept_lem (k : TokenKind) (p : PState) :
    paccept k p ≠ PRes.nofuel ∧
    ∀ b p', paccept k p = PRes.ok (b, p') →
      errsub p p' ∧ pnu p' ≤ pnu p ∧ (PInv p → PInv p') := by
  unfold paccept
  split_ifs with hk
  · have hn := pnext_lem p
    rcases hx : pnext p with q | _ | _
    rotate_left
    · exact ⟨(fun h => nomatch h), (fun b p' h => nomatch h)⟩
    · exact absurd hx hn.1
    refine ⟨(fun h => nomatch h), ?_⟩
    intro b p' hok
    injection hok with hok
    injection hok with hb hp'
    subst hp'
    exact ⟨(hn.2 q hx).1, (hn.2 q hx).2.1, (hn.2 q hx).2.2.2⟩
  · refine ⟨(fun h => nomatch h), ?_⟩
    intro b p' hok
    injection hok with hok
    injection hok with hb hp'
    subst hp'
    exact ⟨errsub_refl p, le_refl _, id⟩

/-- parser.parseBasicLit: one pnext step. -/
theorem parseBasicLit_lem (p : PState) :
    parseBasicLit p ≠ PRes.nofuel ∧
    ∀ n p', parseBasicLit p = PRes.ok (n, p') →
      errsub p p' ∧ pnu p' ≤ pnu p ∧
      (p.current.kind ≠ TokenKind.ENDMARKER → pnu p' < pnu p) ∧
      (PInv p → PInv p') := by
  unfold parseBasicLit
  dsimp only
  have hn := pnext_lem p
  rcases hx : pnext p with q | _ | _
  rotate_left
  · exact ⟨(fun h => nomatch h), (fun n p' h => nomatch h)⟩
  · exact absurd hx hn.1
  refine ⟨(fun h => nomatch h), ?_⟩
  intro n p' hok
  injection hok with hok
  injection hok with hn1 hp'
  subst hp'
  exact ⟨(hn.2 q hx).1, (hn.2 q hx).2.1, (hn.2 q hx).2.2.1, (hn.2 q hx).2.2.2⟩

/-- parser.parseName: a pexpect step. -/
theorem parseName_lem (p : PState) :
    parseName p ≠ PRes.nofuel ∧
    ∀ nm p', parseName p = PRes.ok (nm, p') →
      errsub p p' ∧ pnu p' ≤ pnu p ∧
      (p.current.kind ≠ TokenKind.ENDMARKER → pnu p' < pnu p) ∧
      (PInv p → PInv p') := by
  unfold parseName
  have he := pexpect_lem TokenKind.IDENTIFIER p
  rcases hx : pexpect TokenKind.IDENTIFIER p with a | _ | _
  rotate_left
  · exact ⟨(fun h => nomatch h), (fun nm p' h => nomatch h)⟩
  · exact absurd hx he.1
  obtain ⟨t, q⟩ := a
  dsimp only
  refine ⟨(fun h => nomatch h), ?_⟩
  intro nm p' hok
  injection hok with hok
  injection hok with hn1 hp'
  subst hp'
  exact ⟨(he.2 t q hx).1, (he.2 t q hx).2.1, (he.2 t q hx).2.2.1, (he.2 t q hx).2.2.2⟩

/-- parser.parseQualName: a name, an optional DOT, an optional second
name. -/
theorem parseQualName_lem (p : PState) :
    parseQualName p ≠ PRes.nofuel ∧
    ∀ q p', parseQualName p = PRes.ok (q, p') →
      errsub p p' ∧ pnu p' ≤ pnu p ∧
      (p.current.kind ≠ TokenKind.ENDMARKER → pnu p' < pnu p) ∧
      (PInv p → PInv p') := by
  unfold parseQualName
  have h1 := parseName_lem p
  rcases hx : parseName p with a | _ | _
  rotate_left
  · exact ⟨(fun h => nomatch h), (fun q p' h => nomatch h)⟩
  · exact absurd hx h1.1
  obtain ⟨nm1, p1⟩ := a
  dsimp only
  have hf1 := h1.2 nm1 p1 hx
  have h2 := paccept_lem TokenKind.DOT p1
  rcases hy : paccept TokenKind.DOT p1 with b | _ | _
  rotate_left
  · exact ⟨(fun h => nomatch h), (fun q p' h => nomatch h)⟩
  · exact absurd hy h2.1
  obtain ⟨acc, p2⟩ := b
  have hf2 := h2.2 acc p2 hy
  cases acc
  · dsimp only
    refine ⟨(fun h => nomatch h), ?_⟩
    intro q p' hok
    injection hok with hok
    injection hok with hq hp'
    subst hp'
    exact ⟨errsub_trans hf1.1 hf2.1, le_trans hf2.2.1 hf1.2.1,
      (fun hc => lt_of_le_of_lt hf2.2.1 (hf1.2.2.1 hc)), (fun hp => hf2.2.2 (hf1.2.2.2 hp))⟩
  · dsimp only
    have h3 := parseName_lem p2
    rcases hz : parseName p2 with c | _ | _
    rotate_left
    · exact ⟨(fun h => nomatch h), (fun q p' h => nomatch h)⟩
    · exact absurd hz h3.1
    obtain ⟨nm2, p3⟩ := c
    dsimp only
    have hf3 := h3.2 nm2 p3 hz
    refine ⟨(fun h => nomatch h), ?_⟩
    intro q p' hok
    injection hok with hok
    injection hok with hq hp'
    subst hp'
    exact ⟨errsub_trans hf1.1 (errsub_trans hf2.1 hf3.1),
      le_trans hf3.2.1 (le_trans hf2.2.1 hf1.2.1),
      (fun hc => lt_of_le_of_lt (le_trans hf3.2.1 hf2.2.1) (hf1.2.2.1 hc)),
      (fun hp => hf3.2.2.2 (hf2.2.2 (hf1.2.2.2 hp)))⟩

theorem greater_irrefl (pos : GoPos) : GoPos.greater pos pos = false := by
  unfold GoPos.greater
  simp

theorem ploop_le (p : PState) : ploopMeasure p ≤ 13 * pnu p + 12 := by
  unfold ploopMeasure
  split_ifs <;> omega

theorem ploop_ge (p : PState) : 13 * pnu p ≤ ploopMeasure p := by
  unfold ploopMeasure
  split_ifs <;> omega

/-- parser.sync's loop: with fuel above the measure it cannot exhaust
fuel; on success either it stopped at ENDMARKER or the parse-loop measure
strictly dropped; diagnostics only grow; sanity is preserved. -/
theorem syncF_lem (f : Nat) : ∀ (toSet : TokenKind → Bool) (p : PState),
    (pnu p < f → syncF f toSet p ≠ PRes.nofuel) ∧
    ∀ p', syncF f toSet p = PRes.ok p' →
      errsub p p' ∧ pnu p' ≤ pnu p ∧
      (p'.current.kind = TokenKind.ENDMARKER ∨ ploopMeasure p' < ploopMeasure p) ∧
      (PInv p → PInv p') := by
  induction f with
  | zero =>
    intro toSet p
    exact ⟨(fun hlt => absurd hlt (Nat.not_lt_zero _)), (fun p' h => nomatch h)⟩
  | succ f ih =>
    intro toSet p
    dsimp only [syncF]
    split_ifs with hE hset hg hgr
    · -- stop at ENDMARKER
      refine ⟨(fun _ h => nomatch h), ?_⟩
      intro p' hok
      injection hok with hok
      subst hok
      exact ⟨errsub_refl p, le_refl _, Or.inl hE, id⟩
    · -- recovery token at the sync position, guard not exhausted
      refine ⟨(fun _ h => nomatch h), ?_⟩
      intro p' hok
      injection hok with hok
      subst hok
      have hpn : pnu (⟨p.scanner, p.current, p.syncPos, p.syncCnt + 1,
          p.imports, p.symtab⟩ : PState) = pnu p := rfl
      have he1 : ploopMeasure ⟨p.scanner, p.current, p.syncPos, p.syncCnt + 1,
          p.imports, p.symtab⟩ = 13 * pnu ⟨p.scanner, p.current, p.syncPos, p.syncCnt + 1,
          p.imports, p.symtab⟩ + (10 - (p.syncCnt + 1)) := by
        unfold ploopMeasure
        dsimp only
        rw [if_pos hg.1]
      have he2 : ploopMeasure p = 13 * pnu p + (10 - p.syncCnt) := by
        unfold ploopMeasure
        rw [if_pos hg.1]
      have hcnt := hg.2
      refine ⟨(fun e he => he), by omega, Or.inr (by omega), (fun hp => hp)⟩
    · -- recovery token strictly ahead: reset the guard
      refine ⟨(fun _ h => nomatch h), ?_⟩
      intro p' hok
      injection hok with hok
      subst hok
      have hne : p.current.pos ≠ p.syncPos := by
        intro h
        rw [h, greater_irrefl] at hgr
        exact nomatch hgr
      have hpn : pnu (⟨p.scanner, p.current, p.current.pos, 0,
          p.imports, p.symtab⟩ : PState) = pnu p := rfl
      have he1 : ploopMeasure ⟨p.scanner, p.current, p.current.pos, 0,
          p.imports, p.symtab⟩ = 13 * pnu ⟨p.scanner, p.current, p.current.pos, 0,
          p.imports, p.symtab⟩ + (10 - 0) := by
        unfold ploopMeasure
        dsimp only
        rw [if_pos rfl]
      have he2 : ploopMeasure p = 13 * pnu p + 12 := by
        unfold ploopMeasure
        rw [if_neg hne]
      refine ⟨(fun e he => he), by omega, Or.inr (by omega), (fun hp => hp)⟩
    · -- recovery token behind the guard: consume it
      have hn := pnext_lem p
      rcases hx : pnext p with q | _ | _
      rotate_left
      · exact ⟨(fun _ h => nomatch h), (fun p' h => nomatch h)⟩
      · exact ⟨(fun _ => absurd hx hn.1), (fun p' h => nomatch h)⟩
      have hq := hn.2 q hx
      have hqs : pnu q < pnu p := hq.2.2.1 hE
      refine ⟨?_, ?_⟩
      · intro hf
        exact (ih toSet q).1 (by omega)
      · intro p' hok
        have hr := (ih toSet q).2 p' hok
        refine ⟨errsub_trans hq.1 hr.1, le_trans hr.2.1 hq.2.1, Or.inr ?_,
          (fun hp => hr.2.2.2 (hq.2.2.2 hp))⟩
        have h1 := ploop_le p'
        have h2 := ploop_ge p
        have h3 := hr.2.1
        omega
    · -- token outside the recovery set: consume it
      have hn := pnext_lem p
      rcases hx : pnext p with q | _ | _
      rotate_left
      · exact ⟨(fun _ h => nomatch h), (fun p' h => nomatch h)⟩
      · exact ⟨(fun _ => absurd hx hn.1), (fun p' h => nomatch h)⟩
      have hq := hn.2 q hx
      have hqs : pnu q < pnu p := hq.2.2.1 hE
      refine ⟨?_, ?_⟩
      · intro hf
        exact (ih toSet q).1 (by omega)
      · intro p' hok
        have hr := (ih toSet q).2 p' hok
        refine ⟨errsub_trans hq.1 hr.1, le_trans hr.2.1 hq.2.1, Or.inr ?_,
          (fun hp => hr.2.2.2 (hq.2.2.2 hp))⟩
        have h1 := ploop_le p'
        have h2 := ploop_ge p
        have h3 := hr.2.1
        omega

/-- parser.sync: its fuel bound always suffices, and on success the loop
measure facts of syncF hold. -/
theorem psync_lem (toSet : TokenKind → Bool) (p : PState) :
    psync toSet p ≠ PRes.nofuel ∧
    ∀ p', psync toSet p = PRes.ok p' →
      errsub p p' ∧ pnu p' ≤ pnu p ∧
      (p'.current.kind = TokenKind.ENDMARKER ∨ ploopMeasure p' < ploopMeasure p) ∧
      (PInv p → PInv p') := by
  unfold psync
  exact ⟨(syncF_lem (pnu p + 1) toSet p).1 (by omega), (syncF_lem (pnu p + 1) toSet p).2⟩

/-- The parser facts every successful sub-parser call preserves:
diagnostics only grow, the progress measure does not grow, sanity is
preserved. -/
def pfacts (p q : PState) : Prop :=
  errsub p q ∧ pnu q ≤ pnu p ∧ (PInv p → PInv q)

theorem pfacts_refl (p : PState) : pfacts p p := ⟨errsub_refl p, le_refl _, id⟩

theorem pfacts_trans {p q r : PState} (h1 : pfacts p q) (h2 : pfacts q r) : pfacts p r :=
  ⟨errsub_trans h1.1 h2.1, le_trans h2.2.1 h1.2.1, fun hp => h2.2.2 (h1.2.2 hp)⟩

set_option maxHeartbeats 2000000 in
/-- The TDOP expression parser: with fuel covering the wrapper bounds none
of the four mutual functions can exhaust fuel, and on success the parser
facts hold (for parseBinaryExpr the measure strictly drops, since its
entry token is an infix operator). -/
theorem parseExpr_fuel (f : Nat) :
    (∀ (prec : Nat) (p : PState), 4 * pnu p + 8 ≤ f →
      parseExprF f prec p ≠ PRes.nofuel ∧
      ∀ n p', parseExprF f prec p = PRes.ok (n, p') → pfacts p p') ∧
    (∀ (prec : Nat) (root : Node) (p : PState), 4 * pnu p + 6 ≤ f →
      parseInfixSteps f prec root p ≠ PRes.nofuel ∧
      ∀ n p', parseInfixSteps f prec root p = PRes.ok (n, p') → pfacts p p') ∧
    (∀ p : PState, (p.current.kind = TokenKind.MINUS ∨ p.current.kind = TokenKind.NOT) →
      4 * pnu p + 7 ≤ f →
      parseUnaryExprF f p ≠ PRes.nofuel ∧
      ∀ n p', parseUnaryExprF f p = PRes.ok (n, p') → pfacts p p') ∧
    (∀ (root : Node) (prec : Nat) (p : PState), 0 < infixPrec p.current.kind →
      4 * pnu p + 5 ≤ f →
      parseBinaryExprF f root prec p ≠ PRes.nofuel ∧
      ∀ n p', parseBinaryExprF f root prec p = PRes.ok (n, p') →
        pfacts p p' ∧ pnu p' < pnu p) := by
  induction f with
  | zero =>
    refine ⟨?_, ?_, ?_, ?_⟩
    · intro prec p hf
      omega
    · intro prec root p hf
      omega
    · intro p hMN hf
      omega
    · intro root prec p hpl hf
      omega
  | succ f ih =>
    refine ⟨?_, ?_, ?_, ?_⟩
    · -- parseExpr
      intro prec p hf
      simp only [parseExprF]
      cases hk : p.current.kind
      all_goals first
        | -- unary operator entry
          (rw [if_pos (by decide)]
           try dsimp only
           have hu := ih.2.2.1 p (by first | exact Or.inl hk | exact Or.inr hk) (by omega)
           rcases hx : parseUnaryExprF f p with a | _ | _
           rotate_left
           · exact ⟨(fun h => nomatch h), (fun n p' h => nomatch h)⟩
           · exact absurd hx hu.1
           obtain ⟨root1, p1⟩ := a
           try dsimp only
           have hfu := hu.2 root1 p1 hx
           have hi := ih.2.1 prec root1 p1 (by have := hfu.2.1; omega)
           rcases hy : parseInfixSteps f prec root1 p1 with b | _ | _
           rotate_left
           · exact ⟨(fun h => nomatch h), (fun n p' h => nomatch h)⟩
           · exact absurd hy hi.1
           obtain ⟨n1, p2⟩ := b
           refine ⟨(fun h => nomatch h), ?_⟩
           intro n p' hok
           injection hok with hok
           injection hok with h1 h2
           subst h2
           exact pfacts_trans hfu (hi.2 n1 p2 hy))
        | -- identifier entry: qualified name
          (rw [if_pos (by decide)]
           try dsimp only
           have hq := parseQualName_lem p
           rcases hx : parseQualName p with a | _ | _
           rotate_left
           · exact ⟨(fun h => nomatch h), (fun n p' h => nomatch h)⟩
           · exact absurd hx hq.1
           obtain ⟨qn, p1⟩ := a
           try dsimp only
           have hfq := hq.2 qn p1 hx
           have hi := ih.2.1 prec (Node.qualName qn) p1 (by have := hfq.2.1; omega)
           rcases hy : parseInfixSteps f prec (Node.qualName qn) p1 with b | _ | _
           rotate_left
           · exact ⟨(fun h => nomatch h), (fun n p' h => nomatch h)⟩
           · exact absurd hy hi.1
           obtain ⟨n1, p2⟩ := b
           refine ⟨(fun h => nomatch h), ?_⟩
           intro n p' hok
           injection hok with hok
           injection hok with h1 h2
           subst h2
           exact pfacts_trans ⟨hfq.1, hfq.2.1, hfq.2.2.2⟩ (hi.2 n1 p2 hy))
        | -- literal entry
          (rw [if_pos (by decide)]
           try dsimp only
           have hb := parseBasicLit_lem p
           rcases hx : parseBasicLit p with a | _ | _
           rotate_left
           · exact ⟨(fun h => nomatch h), (fun n p' h => nomatch h)⟩
           · exact absurd hx hb.1
           obtain ⟨n0, p1⟩ := a
           try dsimp only
           have hfb := hb.2 n0 p1 hx
           have hi := ih.2.1 prec n0 p1 (by have := hfb.2.1; omega)
           rcases hy : parseInfixSteps f prec n0 p1 with b | _ | _
           rotate_left
           · exact ⟨(fun h => nomatch h), (fun n p' h => nomatch h)⟩
           · exact absurd hy hi.1
           obtain ⟨n1, p2⟩ := b
           refine ⟨(fun h => nomatch h), ?_⟩
           intro n p' hok
           injection hok with hok
           injection hok with h1 h2
           subst h2
           exact pfacts_trans ⟨hfb.1, hfb.2.1, hfb.2.2.2⟩ (hi.2 n1 p2 hy))
        | -- no nud entry: report and skip
          (rw [if_neg (by decide)]
           try dsimp only
           have hm := expectMsg_lem p "expression"
           have hn := pnext_lem (p.expectMsg "expression")
           rcases hx : pnext (p.expectMsg "expression") with q | _ | _
           rotate_left
           · exact ⟨(fun h => nomatch h), (fun n p' h => nomatch h)⟩
           · exact absurd hx hn.1
           try dsimp only
           have hq := hn.2 q hx
           refine ⟨(fun h => nomatch h), ?_⟩
           intro n p' hok
           injection hok with hok
           injection hok with h1 h2
           subst h2
           have hb := hm.2.1
           exact ⟨errsub_trans hm.1 hq.1, by have := hq.2.1; omega,
             (fun hp => hq.2.2.2 (hm.2.2.1 hp))⟩)
    · -- parseInfixSteps
      intro prec root p hf
      simp only [parseInfixSteps]
      split_ifs with hlt
      · have hb := ih.2.2.2 root (infixPrec p.current.kind) p (by omega) (by omega)
        rcases hx : parseBinaryExprF f root (infixPrec p.current.kind) p with a | _ | _
        rotate_left
        · exact ⟨(fun h => nomatch h), (fun n p' h => nomatch h)⟩
        · exact absurd hx hb.1
        obtain ⟨root1, p1⟩ := a
        try dsimp only
        have hfb := hb.2 root1 p1 hx
        have hi := ih.2.1 prec root1 p1 (by have := hfb.2; omega)
        rcases hy : parseInfixSteps f prec root1 p1 with b | _ | _
        rotate_left
        · exact ⟨(fun h => nomatch h), (fun n p' h => nomatch h)⟩
        · exact absurd hy hi.1
        obtain ⟨n1, p2⟩ := b
        refine ⟨(fun h => nomatch h), ?_⟩
        intro n p' hok
        injection hok with hok
        injection hok with h1 h2
        subst h2
        exact pfacts_trans hfb.1 (hi.2 n1 p2 hy)
      · refine ⟨(fun h => nomatch h), ?_⟩
        intro n p' hok
        injection hok with hok
        injection hok with h1 h2
        subst h2
        exact pfacts_refl p
    · -- parseUnaryExpr
      intro p hMN hf
      simp only [parseUnaryExprF]
      have hn := pnext_lem p
      rcases hx : pnext p with q | _ | _
      rotate_left
      · exact ⟨(fun h => nomatch h), (fun n p' h => nomatch h)⟩
      · exact absurd hx hn.1
      try dsimp only
      have hq := hn.2 q hx
      have hqs : pnu q < pnu p := hq.2.2.1 (by rcases hMN with h | h <;> (rw [h]; decide))
      have he := ih.1 6 q (by omega)
      rcases hy : parseExprF f 6 q with a | _ | _
      rotate_left
      · exact ⟨(fun h => nomatch h), (fun n p' h => nomatch h)⟩
      · exact absurd hy he.1
      obtain ⟨e1, p2⟩ := a
      try dsimp only
      refine ⟨(fun h => nomatch h), ?_⟩
      intro n p' hok
      injection hok with hok
      injection hok with h1 h2
      subst h2
      exact pfacts_trans ⟨hq.1, hq.2.1, hq.2.2.2⟩ (he.2 e1 p2 hy)
    · -- parseBinaryExpr
      intro root prec p hpl hf
      simp only [parseBinaryExprF]
      try dsimp only
      have hn := pnext_lem p
      rcases hx : pnext p with q | _ | _
      rotate_left
      · exact ⟨(fun h => nomatch h), (fun n p' h => nomatch h)⟩
      · exact absurd hx hn.1
      try dsimp only
      have hq := hn.2 q hx
      have hne : p.current.kind ≠ TokenKind.ENDMARKER := by
        intro h
        rw [h] at hpl
        exact absurd hpl (by decide)
      have hqs : pnu q < pnu p := hq.2.2.1 hne
      have he := ih.1 prec q (by omega)
      rcases hy : parseExprF f prec q with a | _ | _
      rotate_left
      · exact ⟨(fun h => nomatch h), (fun n p' h => nomatch h)⟩
      · exact absurd hy he.1
      obtain ⟨rhs, p2⟩ := a
      try dsimp only
      refine ⟨(fun h => nomatch h), ?_⟩
      intro n p' hok
      injection hok with hok
      injection hok with h1 h2
      subst h2
      have hfe := he.2 rhs p2 hy
      exact ⟨pfacts_trans ⟨hq.1, hq.2.1, hq.2.2.2⟩ hfe, lt_of_le_of_lt hfe.2.1 hqs⟩

/-- parser.parseExpr: its fuel bound always suffices, and on success the
parser facts hold. -/
theorem parseExpr_lem (prec : Nat) (p : PState) :
    parseExpr prec p ≠ PRes.nofuel ∧
    ∀ n p', parseExpr prec p = PRes.ok (n, p') → pfacts p p' := by
  unfold parseExpr
  exact ⟨((parseExpr_fuel (4 * pnu p + 8)).1 prec p (le_refl _)).1,
    ((parseExpr_fuel (4 * pnu p + 8)).1 prec p (le_refl _)).2⟩

/-- parser.parseImportSpec: never exhausts fuel; on success the parser
facts hold. -/
theorem parseImportSpec_lem (p : PState) :
    parseImportSpec p ≠ PRes.nofuel ∧
    ∀ n p', parseImportSpec p = PRes.ok (n, p') → pfacts p p' := by
  unfold parseImportSpec
  dsimp only
  split_ifs with hstr
  · -- the path is a STRING token
    have hn := pnext_lem p
    rcases hx : pnext p with q | _ | _
    rotate_left
    · exact ⟨(fun h => nomatch h), (fun n p' h => nomatch h)⟩
    · exact absurd hx hn.1
    try dsimp only
    have hq := hn.2 q hx
    have hpq : pfacts p q := ⟨hq.1, hq.2.1, hq.2.2.2⟩
    have ha := paccept_lem TokenKind.AS q
    rcases hy : paccept TokenKind.AS q with b | _ | _
    rotate_left
    · exact ⟨(fun h => nomatch h), (fun n p' h => nomatch h)⟩
    · exact absurd hy ha.1
    obtain ⟨acc, p2⟩ := b
    try dsimp only
    have hfa := ha.2 acc p2 hy
    cases acc
    · try dsimp only
      refine ⟨(fun h => nomatch h), ?_⟩
      intro n p' hok
      injection hok with hok
      injection hok with h1 h2
      subst h2
      exact ⟨(fun e he => hfa.1 e (hpq.1 e he)), le_trans hfa.2.1 hpq.2.1,
        (fun hp => hfa.2.2 (hpq.2.2 hp))⟩
    · try dsimp only
      have hnm := parseName_lem p2
      rcases hz : parseName p2 with c | _ | _
      rotate_left
      · exact ⟨(fun h => nomatch h), (fun n p' h => nomatch h)⟩
      · exact absurd hz hnm.1
      obtain ⟨nm, p3⟩ := c
      try dsimp only
      have hfn := hnm.2 nm p3 hz
      refine ⟨(fun h => nomatch h), ?_⟩
      intro n p' hok
      injection hok with hok
      injection hok with h1 h2
      subst h2
      exact ⟨(fun e he => hfn.1 e (hfa.1 e (hpq.1 e he))),
        le_trans hfn.2.1 (le_trans hfa.2.1 hpq.2.1),
        (fun hp => hfn.2.2.2 (hfa.2.2 (hpq.2.2 hp)))⟩
  · -- not a string: report and resynchronize to a semicolon
    have hp1 := perr_cur_lem p "import path must be a string"
    have hs := psync_lem semiOnlySet (p.perr p.current.pos "import path must be a string")
    rcases hx : psync semiOnlySet (p.perr p.current.pos "import path must be a string")
      with q | _ | _
    rotate_left
    · exact ⟨(fun h => nomatch h), (fun n p' h => nomatch h)⟩
    · exact absurd hx hs.1
    try dsimp only
    have hq := hs.2 q hx
    have hpq : pfacts p q := pfacts_trans ⟨hp1.1, le_of_eq hp1.2.1, hp1.2.2.1⟩
      ⟨hq.1, hq.2.1, hq.2.2.2⟩
    have ha := paccept_lem TokenKind.AS q
    rcases hy : paccept TokenKind.AS q with b | _ | _
    rotate_left
    · exact ⟨(fun h => nomatch h), (fun n p' h => nomatch h)⟩
    · exact absurd hy ha.1
    obtain ⟨acc, p2⟩ := b
    try dsimp only
    have hfa := ha.2 acc p2 hy
    cases acc
    · try dsimp only
      refine ⟨(fun h => nomatch h), ?_⟩
      intro n p' hok
      injection hok with hok
      injection hok with h1 h2
      subst h2
      exact ⟨(fun e he => hfa.1 e (hpq.1 e he)), le_trans hfa.2.1 hpq.2.1,
        (fun hp => hfa.2.2 (hpq.2.2 hp))⟩
    · try dsimp only
      have hnm := parseName_lem p2
      rcases hz : parseName p2 with c | _ | _
      rotate_left
      · exact ⟨(fun h => nomatch h), (fun n p' h => nomatch h)⟩
      · exact absurd hz hnm.1
      obtain ⟨nm, p3⟩ := c
      try dsimp only
      have hfn := hnm.2 nm p3 hz
      refine ⟨(fun h => nomatch h), ?_⟩
      intro n p' hok
      injection hok with hok
      injection hok with h1 h2
      subst h2
      exact ⟨(fun e he => hfn.1 e (hfa.1 e (hpq.1 e he))),
        le_trans hfn.2.1 (le_trans hfa.2.1 hpq.2.1),
        (fun hp => hfn.2.2.2 (hfa.2.2 (hpq.2.2 hp)))⟩

/-- parser.parseConstSpec: never exhausts fuel; on success the parser
facts hold. -/
theorem parseConstSpec_lem (p : PState) :
    parseConstSpec p ≠ PRes.nofuel ∧
    ∀ n p', parseConstSpec p = PRes.ok (n, p') → pfacts p p' := by
  unfold parseConstSpec
  have hnm := parseName_lem p
  rcases hx : parseName p with a | _ | _
  rotate_left
  · exact ⟨(fun h => nomatch h), (fun n p' h => nomatch h)⟩
  · exact absurd hx hnm.1
  obtain ⟨nm, p1⟩ := a
  dsimp only
  have hf1 := hnm.2 nm p1 hx
  have hex := pexpect_lem TokenKind.ASSIGN p1
  rcases hy : pexpect TokenKind.ASSIGN p1 with b | _ | _
  rotate_left
  · exact ⟨(fun h => nomatch h), (fun n p' h => nomatch h)⟩
  · exact absurd hy hex.1
  obtain ⟨t2, p2⟩ := b
  try dsimp only
  have hf2 := hex.2 t2 p2 hy
  have hev := parseExpr_lem 0 p2
  rcases hz : parseExpr 0 p2 with c | _ | _
  rotate_left
  · exact ⟨(fun h => nomatch h), (fun n p' h => nomatch h)⟩
  · exact absurd hz hev.1
  obtain ⟨e3, p3⟩ := c
  try dsimp only
  have hf3 := hev.2 e3 p3 hz
  refine ⟨(fun h => nomatch h), ?_⟩
  intro n p' hok
  injection hok with hok
  injection hok with h1 h2
  subst h2
  exact ⟨(fun e he => hf3.1 e (hf2.1 e (hf1.1 e he))),
    le_trans hf3.2.1 (le_trans hf2.2.1 hf1.2.1),
    (fun hp => hf3.2.2 (hf2.2.2.2 (hf1.2.2.2 hp)))⟩

/-- parser.parseDecl: never exhausts fuel; on success the parser facts
hold, and when the entry token is not ENDMARKER either the loop stopped at
ENDMARKER or the parse-loop measure strictly dropped. -/
theorem parseDecl_lem (p : PState) :
    parseDecl p ≠ PRes.nofuel ∧
    ∀ d p', parseDecl p = PRes.ok (d, p') →
      pfacts p p' ∧
      (p.current.kind ≠ TokenKind.ENDMARKER →
        (p'.current.kind = TokenKind.ENDMARKER ∨ ploopMeasure p' < ploopMeasure p)) := by
  unfold parseDecl
  dsimp only
  split
  · -- IMPORT
    rename_i heq
    have hn := pnext_lem p
    rcases hx : pnext p with q | _ | _
    rotate_left
    · exact ⟨(fun h => nomatch h), (fun d p' h => nomatch h)⟩
    · exact absurd hx hn.1
    try dsimp only
    have hq := hn.2 q hx
    have hqs : pnu q < pnu p := hq.2.2.1 (by rw [heq]; decide)
    have hi := parseImportSpec_lem q
    rcases hy : parseImportSpec q with a | _ | _
    rotate_left
    · exact ⟨(fun h => nomatch h), (fun d p' h => nomatch h)⟩
    · exact absurd hy hi.1
    obtain ⟨d1, p2⟩ := a
    try dsimp only
    have hfi := hi.2 d1 p2 hy
    have hse := pexpect_lem TokenKind.SEMICOLON p2
    rcases hz : pexpect TokenKind.SEMICOLON p2 with b | _ | _
    rotate_left
    · exact ⟨(fun h => nomatch h), (fun d p' h => nomatch h)⟩
    · exact absurd hz hse.1
    obtain ⟨t3, p3⟩ := b
    try dsimp only
    have hfs := hse.2 t3 p3 hz
    refine ⟨(fun h => nomatch h), ?_⟩
    intro d p' hok
    injection hok with hok
    injection hok with h1 h2
    subst h2
    have hpf : pfacts p p3 := pfacts_trans ⟨hq.1, hq.2.1, hq.2.2.2⟩
      (pfacts_trans hfi ⟨hfs.1, hfs.2.1, hfs.2.2.2⟩)
    refine ⟨hpf, ?_⟩
    intro _
    right
    have hl1 := ploop_le p3
    have hl2 := ploop_ge p
    have hl3 := hfi.2.1
    have hl4 := hfs.2.1
    omega
  · -- CONST
    rename_i heq
    have hn := pnext_lem p
    rcases hx : pnext p with q | _ | _
    rotate_left
    · exact ⟨(fun h => nomatch h), (fun d p' h => nomatch h)⟩
    · exact absurd hx hn.1
    try dsimp only
    have hq := hn.2 q hx
    have hqs : pnu q < pnu p := hq.2.2.1 (by rw [heq]; decide)
    have hi := parseConstSpec_lem q
    rcases hy : parseConstSpec q with a | _ | _
    rotate_left
    · exact ⟨(fun h => nomatch h), (fun d p' h => nomatch h)⟩
    · exact absurd hy hi.1
    obtain ⟨d1, p2⟩ := a
    try dsimp only
    have hfi := hi.2 d1 p2 hy
    have hse := pexpect_lem TokenKind.SEMICOLON p2
    rcases hz : pexpect TokenKind.SEMICOLON p2 with b | _ | _
    rotate_left
    · exact ⟨(fun h => nomatch h), (fun d p' h => nomatch h)⟩
    · exact absurd hz hse.1
    obtain ⟨t3, p3⟩ := b
    try dsimp only
    have hfs := hse.2 t3 p3 hz
    refine ⟨(fun h => nomatch h), ?_⟩
    intro d p' hok
    injection hok with hok
    injection hok with h1 h2
    subst h2
    have hpf : pfacts p p3 := pfacts_trans ⟨hq.1, hq.2.1, hq.2.2.2⟩
      (pfacts_trans hfi ⟨hfs.1, hfs.2.1, hfs.2.2.2⟩)
    refine ⟨hpf, ?_⟩
    intro _
    right
    have hl1 := ploop_le p3
    have hl2 := ploop_ge p
    have hl3 := hfi.2.1
    have hl4 := hfs.2.1
    omega
  · -- anything else: report and resynchronize to a declaration start
    have hm := expectMsg_lem p "declaration"
    have hs := psync_lem declStartSet (p.expectMsg "declaration")
    rcases hx : psync declStartSet (p.expectMsg "declaration") with q | _ | _
    rotate_left
    · exact ⟨(fun h => nomatch h), (fun d p' h => nomatch h)⟩
    · exact absurd hx hs.1
    try dsimp only
    have hq := hs.2 q hx
    refine ⟨(fun h => nomatch h), ?_⟩
    intro d p' hok
    injection hok with hok
    injection hok with h1 h2
    subst h2
    have hb := hm.2.1
    refine ⟨⟨errsub_trans hm.1 hq.1, by have := hq.2.1; omega,
      (fun hp => hq.2.2.2 (hm.2.2.1 hp))⟩, ?_⟩
    intro _
    have hpm : ploopMeasure (p.expectMsg "declaration") = ploopMeasure p := rfl
    rcases hq.2.2.1 with hE | hlt
    · exact Or.inl hE
    · right
      omega

theorem pnu_pos (p : PState) (h : p.current.kind ≠ TokenKind.ENDMARKER) : 1 ≤ pnu p := by
  unfold pnu
  rw [if_neg h]
  split_ifs <;> omega

/-- The declaration loop of parser.parse: with fuel above the loop measure
it cannot exhaust fuel; on success the parser facts hold. -/
theorem parseTopF_lem (f : Nat) : ∀ (nodes : List Node) (p : PState),
    (ploopMeasure p < f → parseTopF f nodes p ≠ PRes.nofuel) ∧
    ∀ ns p', parseTopF f nodes p = PRes.ok (ns, p') → pfacts p p' := by
  induction f with
  | zero =>
    intro nodes p
    exact ⟨(fun h => absurd h (Nat.not_lt_zero _)), (fun ns p' h => nomatch h)⟩
  | succ f ih =>
    intro nodes p
    dsimp only [parseTopF]
    split_ifs with hE
    · refine ⟨(fun _ h => nomatch h), ?_⟩
      intro ns p' hok
      injection hok with hok
      injection hok with h1 h2
      subst h2
      exact pfacts_refl p
    · have hd := parseDecl_lem p
      rcases hx : parseDecl p with a | _ | _
      rotate_left
      · exact ⟨(fun _ h => nomatch h), (fun ns p' h => nomatch h)⟩
      · exact ⟨(fun _ => absurd hx hd.1), (fun ns p' h => nomatch h)⟩
      obtain ⟨d1, q⟩ := a
      try dsimp only
      have hfd := hd.2 d1 q hx
      refine ⟨?_, ?_⟩
      · intro hf
        rcases hfd.2 hE with hqE | hlt
        · have hp1 : 1 ≤ pnu p := pnu_pos p hE
          have hplg := ploop_ge p
          cases f with
          | zero => omega
          | succ g =>
            dsimp only [parseTopF]
            rw [if_pos hqE]
            exact (fun h => nomatch h)
        · exact (ih (nodes ++ [d1]) q).1 (by omega)
      · intro ns p' hok
        exact pfacts_trans hfd.1 ((ih (nodes ++ [d1]) q).2 ns p' hok)

/-- parser.parse: its fuel bound always suffices, and on success the
parser facts hold. -/
theorem parseTop_lem (p : PState) :
    parseTop p ≠ PRes.nofuel ∧
    ∀ ns p', parseTop p = PRes.ok (ns, p') → pfacts p p' := by
  unfold parseTop
  exact ⟨(parseTopF_lem (ploopMeasure p + 1) [] p).1 (by omega),
    (parseTopF_lem (ploopMeasure p + 1) [] p).2⟩

/-- Scanner.New establishes position sanity. -/
theorem scanInit_goodPos (text : List Nat) : (scanInit text).goodPos := by
  unfold scanInit
  dsimp only
  split_ifs with h
  · exact load_goodPos _ (load_goodPos _ ⟨Nat.zero_le _, Nat.zero_le _, (fun e he => nomatch he)⟩)
  · exact load_goodPos _ ⟨Nat.zero_le _, Nat.zero_le _, (fun e he => nomatch he)⟩

/-- C8: Parse terminates on every finite input byte sequence.  In the
fuel-indexed embedding every loop carries fuel computed from the
termination measures (expect always advances, sync's guard bounds
no-progress iterations by 10), and parseGo never exhausts it. -/
theorem c8_parse_terminates (text : List Nat) : parseGo text ≠ PRes.nofuel := by
  unfold parseGo
  have hn := pnext_lem (pbase text)
  rcases hx : pnext (pbase text) with q | _ | _
  rotate_left
  · exact (fun h => nomatch h)
  · exact absurd hx hn.1
  dsimp only
  have ht := parseTop_lem q
  rcases hy : parseTop q with a | _ | _
  rotate_left
  · exact (fun h => nomatch h)
  · exact absurd hy ht.1
  obtain ⟨ns, p'⟩ := a
  exact (fun h => nomatch h)

/-- C5 (amended): for every input, every diagnostic in the ParsedFile
returned by Parse satisfies err.pos.line ≤ len(lines) (the strict bound of
the claim fails for diagnostics on the line still being filled). -/
theorem c5_amended_error_lines (text : List Nat) (pf : ParsedFile)
    (h : parseGo text = PRes.ok pf) :
    ∀ e ∈ pf.errors, e.pos.line ≤ pf.lines.length := by
  unfold parseGo at h
  rcases hx : pnext (pbase text) with q | _ | _ <;> rw [hx] at h
  rotate_left
  · exact nomatch h
  · exact nomatch h
  dsimp only at h
  rcases hy : parseTop q with a | _ | _ <;> rw [hy] at h
  rotate_left
  · exact nomatch h
  · exact nomatch h
  obtain ⟨ns, p'⟩ := a
  dsimp only at h
  injection h with h
  subst h
  have hbase : PInv (pbase text) := ⟨scanInit_goodPos text, Nat.zero_le _⟩
  have hq := (pnext_lem (pbase text)).2 q hx
  have hp' : PInv p' := ((parseTop_lem q).2 ns p' hy).2.2 (hq.2.2.2 hbase)
  exact hp'.1.2.2

set_option maxRecDepth 8000 in
/-- Witness: Parse on the empty input succeeds and its diagnostics satisfy
the amended line bound. -/
theorem c5_amended_error_lines_witness :
    ∃ pf, parseGo [] = PRes.ok pf ∧ ∀ e ∈ pf.errors, e.pos.line ≤ pf.lines.length :=
  ⟨_, rfl, c5_amended_error_lines [] _ rfl⟩

/-- C1 (amended): the parser has no TYPE or STRUCT declaration rule.  When
the token at the start of a top-level declaration is the `type` or
`struct` keyword, parseDecl reports `expected declaration, found '...'` at
that token and, whenever it returns a node, that node is a BadNode
spanning to the recovery point, with the diagnostic retained. -/
theorem c1_amended_type_struct_bad (p : PState)
    (hk : p.current.kind = TokenKind.TYPE ∨ p.current.kind = TokenKind.STRUCT) :
    (⟨p.current.pos, "expected declaration, found '" ++ p.current.value ++ "'"⟩ : ErrorInfo) ∈
      (p.expectMsg "declaration").scanner.errors ∧
    ∀ d p', parseDecl p = PRes.ok (d, p') →
      d = Node.bad p.current.pos p'.current.pos ∧
      (⟨p.current.pos, "expected declaration, found '" ++ p.current.value ++ "'"⟩ : ErrorInfo) ∈
        p'.scanner.errors := by
  have hmem : (⟨p.current.pos,
      "expected declaration, found '" ++ p.current.value ++ "'"⟩ : ErrorInfo) ∈
      (p.expectMsg "declaration").scanner.errors :=
    List.mem_append.mpr (Or.inr (List.mem_singleton.mpr rfl))
  refine ⟨hmem, ?_⟩
  intro d p' hok
  unfold parseDecl at hok
  dsimp only at hok
  have hs := psync_lem declStartSet (p.expectMsg "declaration")
  rcases hk with h | h <;> rw [h] at hok <;> dsimp only at hok <;>
    · rcases hx : psync declStartSet (p.expectMsg "declaration") with q | _ | _ <;>
        rw [hx] at hok
      rotate_left
      · exact nomatch hok
      · exact nomatch hok
      dsimp only at hok
      injection hok with hok
      injection hok with h1 h2
      subst h2
      subst h1
      exact ⟨rfl, (hs.2 q hx).1 _ hmem⟩

/-- A parser state whose current token is the `type` keyword. -/
def c1wp : PState :=
  ⟨scanInit [], ⟨TokenKind.TYPE, ⟨0, 0⟩, "type"⟩, ⟨0, 0⟩, 0, [], []⟩

/-- Witness: at a `type` keyword the amended C1 behaviour holds. -/
theorem c1_amended_type_struct_bad_witness :
    (c1wp.current.kind = TokenKind.TYPE ∨ c1wp.current.kind = TokenKind.STRUCT) ∧
    ((⟨c1wp.current.pos, "expected declaration, found '" ++ c1wp.current.value ++ "'"⟩ :
        ErrorInfo) ∈ (c1wp.expectMsg "declaration").scanner.errors ∧
      ∀ d p', parseDecl c1wp = PRes.ok (d, p') →
        d = Node.bad c1wp.current.pos p'.current.pos ∧
        (⟨c1wp.current.pos, "expected declaration, found '" ++ c1wp.current.value ++ "'"⟩ :
          ErrorInfo) ∈ p'.scanner.errors) :=
  ⟨Or.inl rfl, c1_amended_type_struct_bad c1wp (Or.inl rfl)⟩
